import Mathlib

/-!
# CascLib: the find-first / find-next search state machine

A shallow embedding of `src/CascFindFile.cpp`, followed by the file tree declared in
`src/common/FileTree.h`.  Stateful C++ code is written as
explicit state passing: every function takes the objects it reads and returns
the objects it may have written.  `DWORD`/`size_t` values are natural numbers;
the only place where the machine width matters (the shift that builds the
dedup bit mask, the `%08X` rendering of an id) reduces modulo `2^32` explicitly.
-/

namespace CascLib

/-! ## Constants (CascLib.h / CascPort.h) -/

/-- Width of a content key or an encoded key buffer, in bytes. -/
def MD5_HASH_SIZE : Nat := 16

/-- Marker for "no file data id" (also used for absent locale/content flags). -/
def CASC_INVALID_ID : Nat := 0xFFFFFFFF

/-- Marker for "no file size". -/
def CASC_INVALID_SIZE : Nat := 0xFFFFFFFF

/-- Feature bit of a root handler: the keys its `Search` yields are content keys. -/
def CASC_FEATURE_ROOT_CKEY : Nat := 0x00000002

def ERROR_SUCCESS : Nat := 0
def ERROR_INVALID_HANDLE : Nat := 6
def ERROR_NOT_ENOUGH_MEMORY : Nat := 8
def ERROR_NO_MORE_FILES : Nat := 18
def ERROR_INVALID_PARAMETER : Nat := 87

/-! ## Data model -/

/-- Discriminant telling how `szFileName` of a found-file record was obtained. -/
inductive CASC_NAME_TYPE where
  | CascNameFull
  | CascNameDataId
  | CascNameCKey
  | CascNameEKey
deriving DecidableEq

/-- Entry of the content-key index (`CASC_CKEY_ENTRY`).  `ContentSize` is the
4-byte field as stored; `EKey` is the (first) encoded key of the entry. -/
structure CASC_CKEY_ENTRY where
  EKeyCount : Nat
  ContentSize : List Nat
  CKey : List Nat
  EKey : List Nat
deriving DecidableEq

/-- Entry of the encoded-key index (`CASC_EKEY_ENTRY`). -/
structure CASC_EKEY_ENTRY where
  EKey : List Nat
  EncodedSize : Nat
  TagBitMask : Nat
deriving DecidableEq

/-- The found-file record (`CASC_FIND_DATA`).  `szFileName` is the zero-terminated
content of the name buffer; `szPlainName`, a pointer into that buffer in the
source, is the offset of the plain name inside `szFileName`. -/
structure CASC_FIND_DATA where
  szFileName : String
  szPlainName : Nat
  CKey : List Nat
  EKey : List Nat
  TagMask : Nat
  dwFileDataId : Nat
  dwFileSize : Nat
  dwLocaleFlags : Nat
  dwContentFlags : Nat
  NameType : CASC_NAME_TYPE
  bCanOpenByName : Bool
  bCanOpenByDataId : Bool
  bCanOpenByCKey : Bool
  bCanOpenByEKey : Bool
deriving DecidableEq

/-- Modelled from the spec: the hash map `CASC_MAP` (its code is not part of the
sources at hand).  Spec section 2 and 3: a hash map from a fixed-width key to an
entry, with ordinal iteration `ItemAt(i)` over its slots, a lookup that returns
the entry together with its stable ordinal slot, and key equality on the
configured-length prefix.  `HashTable` lists the slots in ordinal order. -/
structure CASC_MAP (α : Type) where
  KeyLength : Nat
  HashTable : List (Option α)
deriving DecidableEq

/-- Modelled from the spec: `CASC_MAP::HashTableSize()`, the slot capacity. -/
def CASC_MAP.HashTableSize {α : Type} (m : CASC_MAP α) : Nat :=
  m.HashTable.length

/-- Modelled from the spec: `CASC_MAP::ItemAt(i)`, the entry stored in slot `i`,
or `none` (NULL) for a free or out-of-range slot. -/
def CASC_MAP.ItemAt {α : Type} (m : CASC_MAP α) (i : Nat) : Option α :=
  m.HashTable.getD i none

/-- Scan of the slots from ordinal `i` on for an entry whose key agrees with
`pKey` on the first `len` bytes. -/
def FindObjectFrom {α : Type} (keyOf : α → List Nat) (len : Nat) (pKey : List Nat) :
    List (Option α) → Nat → Option (α × Nat)
  | [], _ => none
  | none :: rest, i => FindObjectFrom keyOf len pKey rest (i + 1)
  | some e :: rest, i =>
    if (keyOf e).take len = pKey.take len then some (e, i)
    else FindObjectFrom keyOf len pKey rest (i + 1)

/-- Modelled from the spec: `CASC_MAP::FindObject(pKey, PtrIndex)`, the lookup by
key that yields the entry and its ordinal slot index. -/
def CASC_MAP.FindObject {α : Type} (keyOf : α → List Nat) (m : CASC_MAP α)
    (pKey : List Nat) : Option (α × Nat) :=
  FindObjectFrom keyOf m.KeyLength pKey m.HashTable 0

/-- Modelled from the spec: one result of the root handler's `Search`
(spec section 2, "Root handler"): the raw key it yields together with whatever
of path, numeric id, size, locale flags and content flags the format supplies,
and the two access flags that go with a supplied path or id.  A field the
format does not supply holds the value `ResetFindData` leaves in the record. -/
structure ROOT_SEARCH_RESULT where
  pbQueryKey : List Nat
  szFileName : String
  dwFileDataId : Nat
  dwFileSize : Nat
  dwLocaleFlags : Nat
  dwContentFlags : Nat
  bCanOpenByName : Bool
  bCanOpenByDataId : Bool
deriving DecidableEq

/-- Modelled from the spec: the root handler (`TRootHandler`, a virtual class
whose implementations are not part of the sources at hand).  `GetFeatures` is its
feature bitmask; `SearchSequence mask listFile` is the lazy, finite,
forward-only sequence that successive `Search` calls yield to a cursor opened
with that mask and name-list path (spec section 6). -/
structure TRootHandler where
  GetFeatures : Nat
  SearchSequence : String → Option String → List ROOT_SEARCH_RESULT

/-- The storage object (`TCascStorage`), as far as the search code reads it. -/
structure TCascStorage where
  szClassName : Option String
  dwRefCount : Nat
  pRootHandler : TRootHandler
  CKeyMap : CASC_MAP CASC_CKEY_ENTRY
  EKeyMap : CASC_MAP CASC_EKEY_ENTRY

/-- The search cursor (`TCascSearch`).  The storage pointer `hs` is passed next to
the cursor instead of being stored in it.  `RootSearch` is the per-cursor state
of the root handler: the results its `Search` has yet to yield.
`nSearchCalls` is a ghost counter of the `Search` invocations made on this
cursor; no code reads it. -/
structure TCascSearch where
  szClassName : Option String
  szListFile : Option String
  pCache : Option (List String)
  szMask : Option String
  RootSearch : List ROOT_SEARCH_RESULT
  nSearchCalls : Nat
  IndexLevel1 : Nat
  dwState : Nat
  BitArray : List Nat
deriving DecidableEq

/-- External collaborators of the search code: the name-list loader and the
outcomes of the three allocations made while a cursor is built. -/
structure CASC_ENV where
  ListFile_OpenExternal : String → Option (List String)
  bAllocSearch : Bool
  bAllocListFile : Bool
  bAllocMask : Bool

/-! ## Helpers that live outside CascFindFile.cpp -/

/-- Modelled from the spec: `FindCKeyEntry(hs, pCKey, NULL)`, the lookup of a
content key in the content-key index. -/
def FindCKeyEntry (hs : TCascStorage) (CKey : List Nat) : Option CASC_CKEY_ENTRY :=
  (hs.CKeyMap.FindObject CASC_CKEY_ENTRY.CKey CKey).map Prod.fst

/-- Modelled from the spec: `FindEKeyEntry(hs, pEKey, &EKeyIndex)`, the lookup of
an encoded key that returns both the entry and its ordinal slot. -/
def FindEKeyEntry (hs : TCascStorage) (EKey : List Nat) : Option (CASC_EKEY_ENTRY × Nat) :=
  hs.EKeyMap.FindObject CASC_EKEY_ENTRY.EKey EKey

/-- Modelled from the spec: `ConvertBytesToInteger_4`, the content size of a
content entry, decoded from its 4 stored bytes (most significant first). -/
def ConvertBytesToInteger_4 (b : List Nat) : Nat :=
  ((b.getD 0 0 % 256) * 0x1000000 + (b.getD 1 0 % 256) * 0x10000
    + (b.getD 2 0 % 256) * 0x100 + (b.getD 3 0 % 256)) % 2 ^ 32

/-- Hexadecimal digit of the low nibble of `n`, taken from the digit table `tbl`. -/
def IntToHexChar (tbl : List Char) (n : Nat) : Char :=
  tbl.getD (n % 16) '0'

def HexDigitsLower : List Char := "0123456789abcdef".toList

def HexDigitsUpper : List Char := "0123456789ABCDEF".toList

/-- Modelled from the spec: `StringFromBinary(pbBinary, cbBinary, szBuffer)`, the
hex rendering of the first `cbBinary` bytes of a key buffer, two digits per
byte.  A buffer shorter than `cbBinary` reads as padded by zeros. -/
def StringFromBinary (pbBinary : List Nat) (cbBinary : Nat) : String :=
  String.mk ((List.range cbBinary).flatMap fun i =>
    [IntToHexChar HexDigitsLower (pbBinary.getD i 0 % 256 / 16),
     IntToHexChar HexDigitsLower (pbBinary.getD i 0 % 256)])

/-- The C conversion `%08X` of a `DWORD`: eight upper-case hex digits. -/
def sprintf_08X (dw : Nat) : String :=
  String.mk ((List.range 8).map fun i =>
    IntToHexChar HexDigitsUpper (dw % 2 ^ 32 / 16 ^ (7 - i)))

/-- Modelled from the spec: `GetPlainFileName`, the offset of the plain name
in a path: the position after its last path separator. -/
def GetPlainFileName (szFileName : String) : Nat :=
  let cs := szFileName.toList
  cs.length - (cs.reverse.takeWhile fun c => c != '\\' && c != '/').length

/-- Modelled from the spec: `IsValidCascStorageHandle`, the validity check of a
storage handle by its type tag. -/
def IsValidCascStorageHandle (hStorage : Option TCascStorage) : Option TCascStorage :=
  match hStorage with
  | some hs => if hs.szClassName = some "TCascStorage" then some hs else none
  | none => none

/-- Modelled from the spec: what `TRootHandler::Search` writes into the record
for the result `r`: path, id, size, locale and content flags, and the access
flags for name and id. -/
def TRootHandler_Supply (r : ROOT_SEARCH_RESULT) (pFindData : CASC_FIND_DATA) :
    CASC_FIND_DATA :=
  { pFindData with
      szFileName := r.szFileName
      dwFileDataId := r.dwFileDataId
      dwFileSize := r.dwFileSize
      dwLocaleFlags := r.dwLocaleFlags
      dwContentFlags := r.dwContentFlags
      bCanOpenByName := r.bCanOpenByName
      bCanOpenByDataId := r.bCanOpenByDataId }

/-- Modelled from the spec: `TRootHandler::Search(pSearch, pFindData)`.  Yields the
next result of the handler's sequence, writing what the format supplies into
the record, or NULL once the sequence is exhausted. -/
def TRootHandler_Search (pSearch : TCascSearch) (pFindData : CASC_FIND_DATA) :
    Option (List Nat) × TCascSearch × CASC_FIND_DATA :=
  match pSearch.RootSearch with
  | [] => (none, { pSearch with nSearchCalls := pSearch.nSearchCalls + 1 }, pFindData)
  | r :: rest =>
    (some r.pbQueryKey,
     { pSearch with RootSearch := rest, nSearchCalls := pSearch.nSearchCalls + 1 },
     TRootHandler_Supply r pFindData)

/-! ## Local functions of CascFindFile.cpp -/

/-- The function `IsValidSearchHandle`. -/
def IsValidSearchHandle (hFind : Option TCascSearch) : Option TCascSearch :=
  match hFind with
  | some pSearch =>
    if pSearch.szClassName = some "TCascSearch" ∧ pSearch.szMask ≠ none then some pSearch
    else none
  | none => none

/-- The function `FileFoundBefore`: test-and-set of the bit of slot `EKeyIndex`. -/
def FileFoundBefore (pSearch : TCascSearch) (EKeyIndex : Nat) : Bool × TCascSearch :=
  let IntIndex := EKeyIndex / 0x20
  let BitMask := (1 <<< (EKeyIndex &&& 0x1F)) % 2 ^ 32
  if pSearch.BitArray.getD IntIndex 0 &&& BitMask ≠ 0 then
    (true, pSearch)
  else
    (false, { pSearch with
      BitArray := pSearch.BitArray.set IntIndex (pSearch.BitArray.getD IntIndex 0 ||| BitMask) })

/-- The function `ResetFindData`. -/
def ResetFindData (pFindData : CASC_FIND_DATA) : CASC_FIND_DATA :=
  { pFindData with
      CKey := List.replicate MD5_HASH_SIZE 0
      EKey := List.replicate MD5_HASH_SIZE 0
      szFileName := ""
      szPlainName := 0
      TagMask := 0
      dwFileDataId := CASC_INVALID_ID
      dwFileSize := CASC_INVALID_SIZE
      dwLocaleFlags := CASC_INVALID_ID
      dwContentFlags := CASC_INVALID_ID
      NameType := CASC_NAME_TYPE.CascNameFull
      bCanOpenByName := false
      bCanOpenByDataId := false
      bCanOpenByCKey := false
      bCanOpenByEKey := false }

/-- The function `SupplyFakeFileName`. -/
def SupplyFakeFileName (pFindData : CASC_FIND_DATA) : CASC_FIND_DATA :=
  if pFindData.bCanOpenByDataId then
    { pFindData with
        szFileName := "FILE" ++ sprintf_08X pFindData.dwFileDataId ++ ".dat"
        NameType := CASC_NAME_TYPE.CascNameDataId }
  else if pFindData.bCanOpenByCKey then
    { pFindData with
        szFileName := StringFromBinary pFindData.CKey MD5_HASH_SIZE
        NameType := CASC_NAME_TYPE.CascNameCKey }
  else
    { pFindData with
        szFileName := StringFromBinary pFindData.EKey MD5_HASH_SIZE
        NameType := CASC_NAME_TYPE.CascNameEKey }

/-- The condition checked by the `assert` at the end of `SupplyFakeFileName`:
`true` when a call on this record does not trip it (the assertion is reached
only on the encoded-key branch). -/
def SupplyFakeFileName_assert (pFindData : CASC_FIND_DATA) : Bool :=
  if pFindData.bCanOpenByDataId then true
  else if pFindData.bCanOpenByCKey then true
  else pFindData.bCanOpenByEKey != false

/-- The part of one iteration of the loop of `DoStorageSearch_RootFile` after
the encoded key to look up is known (shared by both key kinds): `none` is the
`continue` taken when the encoded key is not in the storage, `some` is the
cursor and the record with which the function returns `true`. -/
def DoStorageSearch_RootFile_EKey (hs : TCascStorage) (pCKeyEntry : Option CASC_CKEY_ENTRY)
    (EKey : List Nat) (pSearch : TCascSearch) (pFindData : CASC_FIND_DATA) :
    Option (TCascSearch × CASC_FIND_DATA) :=
  match FindEKeyEntry hs EKey with
  | none => none
  | some (pEKeyEntry, EKeyIndex) =>
    let pFindData := { pFindData with EKey := EKey, bCanOpenByEKey := true }
    let pSearch := (FileFoundBefore pSearch EKeyIndex).2
    let pFindData := { pFindData with TagMask := pEKeyEntry.TagBitMask }
    let pFindData :=
      if pFindData.szFileName ≠ "" then
        { pFindData with szPlainName := GetPlainFileName pFindData.szFileName }
      else pFindData
    let pFindData :=
      if pFindData.dwFileSize = CASC_INVALID_SIZE then
        let pFindData := { pFindData with dwFileSize := pEKeyEntry.EncodedSize }
        match pCKeyEntry with
        | some e => { pFindData with dwFileSize := ConvertBytesToInteger_4 e.ContentSize }
        | none => pFindData
      else pFindData
    let pFindData :=
      if pFindData.szFileName = "" then SupplyFakeFileName pFindData else pFindData
    some (pSearch, pFindData)

/-- The loop `for(;;)` of `DoStorageSearch_RootFile`.  The first argument bounds the
number of iterations; `pCKeyEntry` is the local variable of that name, which
lives across iterations. -/
def DoStorageSearch_RootFile_loop (hs : TCascStorage) (dwFeatures : Nat) :
    Nat → Option CASC_CKEY_ENTRY → TCascSearch → CASC_FIND_DATA →
    Bool × TCascSearch × CASC_FIND_DATA
  | 0, _, pSearch, pFindData => (false, pSearch, pFindData)
  | fuel + 1, pCKeyEntry, pSearch, pFindData =>
    let pFindData := ResetFindData pFindData
    match TRootHandler_Search pSearch pFindData with
    | (none, pSearch, pFindData) => (false, pSearch, pFindData)
    | (some pbQueryKey, pSearch, pFindData) =>
      if dwFeatures &&& CASC_FEATURE_ROOT_CKEY ≠ 0 then
        match FindCKeyEntry hs pbQueryKey with
        | none => DoStorageSearch_RootFile_loop hs dwFeatures fuel none pSearch pFindData
        | some e =>
          if e.EKeyCount = 0 then
            DoStorageSearch_RootFile_loop hs dwFeatures fuel (some e) pSearch pFindData
          else
            let pFindData := { pFindData with CKey := pbQueryKey, bCanOpenByCKey := true }
            match DoStorageSearch_RootFile_EKey hs (some e) e.EKey pSearch pFindData with
            | none => DoStorageSearch_RootFile_loop hs dwFeatures fuel (some e) pSearch pFindData
            | some (pSearch, pFindData) => (true, pSearch, pFindData)
      else
        match DoStorageSearch_RootFile_EKey hs pCKeyEntry pbQueryKey pSearch pFindData with
        | none => DoStorageSearch_RootFile_loop hs dwFeatures fuel pCKeyEntry pSearch pFindData
        | some (pSearch, pFindData) => (true, pSearch, pFindData)

/-- The function `DoStorageSearch_RootFile`.  Every iteration of its loop that does
not return consumes one result of the root handler, so one iteration more than
there are pending results is all the loop can make. -/
def DoStorageSearch_RootFile (hs : TCascStorage) (pSearch : TCascSearch)
    (pFindData : CASC_FIND_DATA) : Bool × TCascSearch × CASC_FIND_DATA :=
  DoStorageSearch_RootFile_loop hs hs.pRootHandler.GetFeatures
    (pSearch.RootSearch.length + 1) none pSearch pFindData

/-- The loop `while(pSearch->IndexLevel1 < hs->CKeyMap.HashTableSize())` of
`DoStorageSearch_CKey`; the first argument bounds the number of iterations. -/
def DoStorageSearch_CKey_loop (hs : TCascStorage) :
    Nat → TCascSearch → CASC_FIND_DATA → Bool × TCascSearch × CASC_FIND_DATA
  | 0, pSearch, pFindData => (false, pSearch, pFindData)
  | fuel + 1, pSearch, pFindData =>
    if pSearch.IndexLevel1 < hs.CKeyMap.HashTableSize then
      match hs.CKeyMap.ItemAt pSearch.IndexLevel1 with
      | some pCKeyEntry =>
        let pFindData := ResetFindData pFindData
        let pFindData := { pFindData with CKey := pCKeyEntry.CKey, bCanOpenByCKey := true }
        match FindEKeyEntry hs pCKeyEntry.EKey with
        | some (pEKeyEntry, EKeyIndex) =>
          match FileFoundBefore pSearch EKeyIndex with
          | (false, pSearch) =>
            let pFindData := { pFindData with EKey := pCKeyEntry.EKey, bCanOpenByEKey := true }
            let pFindData := { pFindData with TagMask := pEKeyEntry.TagBitMask }
            let pFindData :=
              { pFindData with dwFileSize := ConvertBytesToInteger_4 pCKeyEntry.ContentSize }
            (true, pSearch, SupplyFakeFileName pFindData)
          | (true, pSearch) =>
            DoStorageSearch_CKey_loop hs fuel
              { pSearch with IndexLevel1 := pSearch.IndexLevel1 + 1 } pFindData
        | none =>
          DoStorageSearch_CKey_loop hs fuel
            { pSearch with IndexLevel1 := pSearch.IndexLevel1 + 1 } pFindData
      | none =>
        DoStorageSearch_CKey_loop hs fuel
          { pSearch with IndexLevel1 := pSearch.IndexLevel1 + 1 } pFindData
    else (false, pSearch, pFindData)

/-- The function `DoStorageSearch_CKey`.  Every iteration of its loop that does not
return increments `IndexLevel1`, so the distance of `IndexLevel1` to the table
size bounds the iterations. -/
def DoStorageSearch_CKey (hs : TCascStorage) (pSearch : TCascSearch)
    (pFindData : CASC_FIND_DATA) : Bool × TCascSearch × CASC_FIND_DATA :=
  DoStorageSearch_CKey_loop hs (hs.CKeyMap.HashTableSize - pSearch.IndexLevel1)
    pSearch pFindData

/-- The test `pSearch->szMask == NULL || !strcmp(pSearch->szMask, "*")`. -/
def IsUnrestrictedMask (szMask : Option String) : Bool :=
  match szMask with
  | none => true
  | some m => m == "*"

/-- The block "State 0" of `DoStorageSearch`. -/
def DoStorageSearch_State0 (env : CASC_ENV) (pSearch : TCascSearch) : TCascSearch :=
  if pSearch.dwState = 0 then
    let pSearch :=
      match pSearch.szListFile with
      | some szListFile => { pSearch with pCache := env.ListFile_OpenExternal szListFile }
      | none => pSearch
    { pSearch with IndexLevel1 := 0, dwState := pSearch.dwState + 1 }
  else pSearch

/-- The block "State 2" of `DoStorageSearch` and the final `return false`. -/
def DoStorageSearch_State2 (hs : TCascStorage) (pSearch : TCascSearch)
    (pFindData : CASC_FIND_DATA) : Bool × TCascSearch × CASC_FIND_DATA :=
  if pSearch.dwState = 2 ∧ IsUnrestrictedMask pSearch.szMask = true then
    match DoStorageSearch_CKey hs pSearch pFindData with
    | (true, pSearch, pFindData) => (true, pSearch, pFindData)
    | (false, pSearch, pFindData) =>
      (false, { pSearch with IndexLevel1 := 0, dwState := pSearch.dwState + 1 }, pFindData)
  else (false, pSearch, pFindData)

/-- The block "State 1" of `DoStorageSearch`, followed by the rest of the function. -/
def DoStorageSearch_State1 (hs : TCascStorage) (pSearch : TCascSearch)
    (pFindData : CASC_FIND_DATA) : Bool × TCascSearch × CASC_FIND_DATA :=
  if pSearch.dwState = 1 then
    match DoStorageSearch_RootFile hs pSearch pFindData with
    | (true, pSearch, pFindData) => (true, pSearch, pFindData)
    | (false, pSearch, pFindData) =>
      DoStorageSearch_State2 hs
        { pSearch with IndexLevel1 := 0, dwState := pSearch.dwState + 1 } pFindData
  else DoStorageSearch_State2 hs pSearch pFindData

/-- The function `DoStorageSearch`: the three guarded blocks in sequence. -/
def DoStorageSearch (env : CASC_ENV) (hs : TCascStorage) (pSearch : TCascSearch)
    (pFindData : CASC_FIND_DATA) : Bool × TCascSearch × CASC_FIND_DATA :=
  DoStorageSearch_State1 hs (DoStorageSearch_State0 env pSearch) pFindData

/-- Modelled from the spec: `SetLastError`, the write to the out-of-band
last-error slot; the slot is threaded through the public functions. -/
def SetLastError (dwErrCode : Nat) : Nat := dwErrCode

/-- Modelled from the spec: `CascCloseStorage` on a valid storage handle, which
releases one reference to the storage. -/
def CascCloseStorage (hs : TCascStorage) : TCascStorage :=
  { hs with dwRefCount := hs.dwRefCount - 1 }

/-- The function `FreeSearchHandle`: what is left of the storage once the cursor
is gone.  The cursor's strings, cache and memory are released with it. -/
def FreeSearchHandle (hs : TCascStorage) (_pSearch : TCascSearch) : TCascStorage :=
  CascCloseStorage hs

/-- The function `AllocateSearchHandle`: the new cursor (or NULL) and the storage
with its updated reference count. -/
def AllocateSearchHandle (env : CASC_ENV) (hs : TCascStorage) (szListFile : Option String)
    (szMask : Option String) : Option TCascSearch × TCascStorage :=
  let nEKeyCount := (hs.EKeyMap.HashTableSize + 31) / 32
  if env.bAllocSearch then
    let szMask := match szMask with
      | some m => m
      | none => "*"
    let pSearch : TCascSearch :=
      { szClassName := some "TCascSearch"
        szListFile := none
        pCache := none
        szMask := none
        RootSearch := hs.pRootHandler.SearchSequence szMask szListFile
        nSearchCalls := 0
        IndexLevel1 := 0
        dwState := 0
        BitArray := List.replicate nEKeyCount 0 }
    let hs := { hs with dwRefCount := hs.dwRefCount + 1 }
    if szListFile.isSome ∧ env.bAllocListFile = false then
      (none, FreeSearchHandle hs pSearch)
    else
      let pSearch := { pSearch with szListFile := szListFile }
      if env.bAllocMask = false then
        (none, FreeSearchHandle hs pSearch)
      else
        (some { pSearch with szMask := some szMask }, hs)
  else (none, hs)

/-- What a call of `CascFindFirstFile` leaves behind: the returned handle (`none`
is `INVALID_HANDLE_VALUE`), the storage, the caller's record, the final value
of the local variable `nError`, and the last-error slot. -/
structure FIND_FIRST_RESULT where
  hFind : Option TCascSearch
  hStorage : Option TCascStorage
  pFindData : Option CASC_FIND_DATA
  nError : Nat
  dwLastError : Nat

/-- The function `CascFindFirstFile`. -/
def CascFindFirstFile (env : CASC_ENV) (dwLastError : Nat) (hStorage : Option TCascStorage)
    (szMask : Option String) (pFindData : Option CASC_FIND_DATA)
    (szListFile : Option String) : FIND_FIRST_RESULT :=
  let hs := IsValidCascStorageHandle hStorage
  let nError := ERROR_SUCCESS
  let nError := if hs.isNone then ERROR_INVALID_HANDLE else nError
  let nError := if szMask.isNone ∨ pFindData.isNone then ERROR_INVALID_PARAMETER else nError
  match decide (nError = ERROR_SUCCESS), hs, pFindData with
  | true, some hs, some fd =>
    match AllocateSearchHandle env hs szListFile szMask with
    | (none, hs) =>
      { hFind := none, hStorage := some hs, pFindData := some fd,
        nError := ERROR_NOT_ENOUGH_MEMORY, dwLastError := dwLastError }
    | (some pSearch, hs) =>
      match DoStorageSearch env hs pSearch fd with
      | (true, pSearch, fd) =>
        { hFind := some pSearch, hStorage := some hs, pFindData := some fd,
          nError := nError, dwLastError := dwLastError }
      | (false, pSearch, fd) =>
        { hFind := none, hStorage := some (FreeSearchHandle hs pSearch), pFindData := some fd,
          nError := ERROR_NO_MORE_FILES, dwLastError := dwLastError }
  | _, _, _ =>
    { hFind := none, hStorage := hStorage, pFindData := pFindData,
      nError := nError, dwLastError := dwLastError }

/-- What a call of `CascFindNextFile` leaves behind: the return value, the cursor,
the caller's record and the last-error slot. -/
structure FIND_NEXT_RESULT where
  bResult : Bool
  hFind : Option TCascSearch
  pFindData : Option CASC_FIND_DATA
  dwLastError : Nat
deriving DecidableEq

/-- The function `CascFindNextFile`; `hs` is the storage the cursor points to. -/
def CascFindNextFile (env : CASC_ENV) (dwLastError : Nat) (hs : TCascStorage)
    (hFind : Option TCascSearch) (pFindData : Option CASC_FIND_DATA) : FIND_NEXT_RESULT :=
  match IsValidSearchHandle hFind, pFindData with
  | some pSearch, some fd =>
    match DoStorageSearch env hs pSearch fd with
    | (b, pSearch, fd) =>
      { bResult := b, hFind := some pSearch, pFindData := some fd, dwLastError := dwLastError }
  | _, _ =>
    { bResult := false, hFind := hFind, pFindData := pFindData,
      dwLastError := SetLastError ERROR_INVALID_PARAMETER }

/-- The function `CascFindClose`: the return value, the handle (gone after a
successful close), the storage and the last-error slot. -/
def CascFindClose (dwLastError : Nat) (hs : TCascStorage) (hFind : Option TCascSearch) :
    Bool × Option TCascSearch × TCascStorage × Nat :=
  match IsValidSearchHandle hFind with
  | some pSearch => (true, none, FreeSearchHandle hs pSearch, dwLastError)
  | none => (false, hFind, hs, SetLastError ERROR_INVALID_PARAMETER)

/-! ## The caller's enumeration protocol -/

/-- The records returned by at most `n` successive calls of `DoStorageSearch` on one
cursor, stopping at the first call that returns `false`.  Each record is paired
with the value of `dwState` after the call that returned it: `1` for a record
of the name phase, `2` for a record of the nameless phase. -/
def EnumRecords (env : CASC_ENV) (hs : TCascStorage) :
    Nat → TCascSearch → CASC_FIND_DATA → List (Nat × CASC_FIND_DATA)
  | 0, _, _ => []
  | n + 1, pSearch, pFindData =>
    match DoStorageSearch env hs pSearch pFindData with
    | (true, pSearch, pFindData) =>
      (pSearch.dwState, pFindData) :: EnumRecords env hs n pSearch pFindData
    | (false, _, _) => []

/-- Whether one of at most `n` successive calls of `DoStorageSearch` on one cursor
returns `false`, that is, whether the enumeration ends within `n` calls. -/
def EnumExhausted (env : CASC_ENV) (hs : TCascStorage) :
    Nat → TCascSearch → CASC_FIND_DATA → Bool
  | 0, _, _ => false
  | n + 1, pSearch, pFindData =>
    match DoStorageSearch env hs pSearch pFindData with
    | (true, pSearch, pFindData) => EnumExhausted env hs n pSearch pFindData
    | (false, _, _) => true

/-- The cursor after `fds.length` further calls of `DoStorageSearch`, the `i`-th made
with the record `fds[i]`, together with the values the calls returned. -/
def DoStorageSearch_calls (env : CASC_ENV) (hs : TCascStorage) :
    List CASC_FIND_DATA → TCascSearch → List Bool × TCascSearch
  | [], pSearch => ([], pSearch)
  | fd :: fds, pSearch =>
    match DoStorageSearch env hs pSearch fd with
    | (b, pSearch, _) =>
      ((b :: (DoStorageSearch_calls env hs fds pSearch).1),
       (DoStorageSearch_calls env hs fds pSearch).2)

/-- A cursor on which `DoStorageSearch` has nothing left to do: it is in neither
of the states 0 and 1, and not in state 2 with the unrestricted mask. -/
def SearchEnded (pSearch : TCascSearch) : Prop :=
  pSearch.dwState ≠ 0 ∧ pSearch.dwState ≠ 1 ∧
    ¬ (pSearch.dwState = 2 ∧ IsUnrestrictedMask pSearch.szMask = true)

/-- Whether the bit of the encoded-key slot `i` is set in a dedup bit array:
bit `i mod 32` of word `i / 32`. -/
def BitIsSet (BitArray : List Nat) (i : Nat) : Bool :=
  (BitArray.getD (i / 32) 0).testBit (i % 32)

/-- The bit array of the cursor has a bit for every slot of the encoded-key
index of the storage. -/
def BitArrayCovers (hs : TCascStorage) (pSearch : TCascSearch) : Prop :=
  hs.EKeyMap.HashTableSize ≤ 32 * pSearch.BitArray.length

/-- The encoded-key slot a record stands for: the slot in which the encoded-key
index resolves the encoded key of the record. -/
def SlotOf (hs : TCascStorage) (pFindData : CASC_FIND_DATA) : Option Nat :=
  (FindEKeyEntry hs pFindData.EKey).map Prod.snd

/-- A record with nothing in it; `ResetFindData` overwrites every field. -/
def BlankFindData : CASC_FIND_DATA :=
  { szFileName := ""
    szPlainName := 0
    CKey := []
    EKey := []
    TagMask := 0
    dwFileDataId := 0
    dwFileSize := 0
    dwLocaleFlags := 0
    dwContentFlags := 0
    NameType := CASC_NAME_TYPE.CascNameFull
    bCanOpenByName := false
    bCanOpenByDataId := false
    bCanOpenByCKey := false
    bCanOpenByEKey := false }

/-- The record of the name phase for a root result `r`, given the content entry
`pCKeyEntry` resolved for it (if the root yields content keys) and the encoded
key `EKey` to look up; `none` when the encoded key is not in the storage.
Stated from the description of state 1 (spec section 4.1, steps b to f). -/
def NameRecordOf (hs : TCascStorage) (r : ROOT_SEARCH_RESULT)
    (pCKeyEntry : Option CASC_CKEY_ENTRY) (EKey : List Nat) : Option CASC_FIND_DATA :=
  match FindEKeyEntry hs EKey with
  | none => none
  | some (pEKeyEntry, _) =>
    let named : CASC_FIND_DATA :=
      { szFileName := r.szFileName
        szPlainName := if r.szFileName ≠ "" then GetPlainFileName r.szFileName else 0
        CKey := match pCKeyEntry with
          | some _ => r.pbQueryKey
          | none => List.replicate MD5_HASH_SIZE 0
        EKey := EKey
        TagMask := pEKeyEntry.TagBitMask
        dwFileDataId := r.dwFileDataId
        dwFileSize :=
          if r.dwFileSize = CASC_INVALID_SIZE then
            match pCKeyEntry with
            | some e => ConvertBytesToInteger_4 e.ContentSize
            | none => pEKeyEntry.EncodedSize
          else r.dwFileSize
        dwLocaleFlags := r.dwLocaleFlags
        dwContentFlags := r.dwContentFlags
        NameType := CASC_NAME_TYPE.CascNameFull
        bCanOpenByName := r.bCanOpenByName
        bCanOpenByDataId := r.bCanOpenByDataId
        bCanOpenByCKey := pCKeyEntry.isSome
        bCanOpenByEKey := true }
    some (if r.szFileName = "" then SupplyFakeFileName named else named)

/-- The record the name phase returns for a root result `r`, or `none` when the
result is discarded (spec section 4.1, state 1, steps a and b). -/
def NameRecord (hs : TCascStorage) (r : ROOT_SEARCH_RESULT) : Option CASC_FIND_DATA :=
  if hs.pRootHandler.GetFeatures &&& CASC_FEATURE_ROOT_CKEY ≠ 0 then
    match FindCKeyEntry hs r.pbQueryKey with
    | none => none
    | some e => if e.EKeyCount = 0 then none else NameRecordOf hs r (some e) e.EKey
  else NameRecordOf hs r none r.pbQueryKey

/-- Whether the key of a root result resolves.  Content-key roots: the content
key is found with `EKeyCount != 0` and its encoded key is found; encoded-key
roots: the encoded key is found. -/
def RootResultResolves (hs : TCascStorage) (r : ROOT_SEARCH_RESULT) : Bool :=
  if hs.pRootHandler.GetFeatures &&& CASC_FEATURE_ROOT_CKEY ≠ 0 then
    match FindCKeyEntry hs r.pbQueryKey with
    | none => false
    | some e => e.EKeyCount != 0 && (FindEKeyEntry hs e.EKey).isSome
  else (FindEKeyEntry hs r.pbQueryKey).isSome

/-- The record of the nameless phase for a content entry and the encoded entry
its encoded key resolves to (spec section 4.1, state 2). -/
def NamelessRecord (e : CASC_CKEY_ENTRY) (ee : CASC_EKEY_ENTRY) : CASC_FIND_DATA :=
  { szFileName := StringFromBinary e.CKey MD5_HASH_SIZE
    szPlainName := 0
    CKey := e.CKey
    EKey := e.EKey
    TagMask := ee.TagBitMask
    dwFileDataId := CASC_INVALID_ID
    dwFileSize := ConvertBytesToInteger_4 e.ContentSize
    dwLocaleFlags := CASC_INVALID_ID
    dwContentFlags := CASC_INVALID_ID
    NameType := CASC_NAME_TYPE.CascNameCKey
    bCanOpenByName := false
    bCanOpenByDataId := false
    bCanOpenByCKey := true
    bCanOpenByEKey := true }

/-- What the nameless phase finds at ordinal `i` of the content-key index under
the bit array `BitArray`: the content entry, the encoded entry and its slot
when the ordinal is occupied, its encoded key resolves and the bit of the slot
is not set; `none` when the ordinal is passed over. -/
def NamelessCandidate (hs : TCascStorage) (BitArray : List Nat) (i : Nat) :
    Option (CASC_CKEY_ENTRY × CASC_EKEY_ENTRY × Nat) :=
  match hs.CKeyMap.ItemAt i with
  | none => none
  | some e =>
    match FindEKeyEntry hs e.EKey with
    | none => none
    | some (ee, s) => if BitIsSet BitArray s then none else some (e, ee, s)

/-- The outcome of one call of `DoStorageSearch_RootFile` on the cursor `c` whose
pending root results are `l`, told result by result: a discarded result is
passed over, the first one that has a record ends the call with that record
and the bit of its slot marked, and the end of the sequence ends the call with
`false` and the record as `ResetFindData` left it. -/
def NamePhaseCall (hs : TCascStorage) (c : TCascSearch) :
    List ROOT_SEARCH_RESULT → Bool × TCascSearch × CASC_FIND_DATA
  | [] =>
    (false, { c with RootSearch := [], nSearchCalls := c.nSearchCalls + 1 },
      ResetFindData BlankFindData)
  | r :: rest =>
    match NameRecord hs r with
    | none =>
      NamePhaseCall hs { c with RootSearch := rest, nSearchCalls := c.nSearchCalls + 1 } rest
    | some fd =>
      (true,
       (FileFoundBefore { c with RootSearch := rest, nSearchCalls := c.nSearchCalls + 1 }
          ((SlotOf hs fd).getD 0)).2,
       fd)

/-- The two ways a call of `DoStorageSearch_CKey` on the cursor `c` can end with
the result `res`.  Either it returns `false`: every ordinal from `IndexLevel1`
on was passed over and `IndexLevel1` has reached the table size.  Or it
returns `true` at the first ordinal `j` from `IndexLevel1` on that is not
passed over: `IndexLevel1` stays at `j`, the bit of the slot is marked and
the record is that of the entry at `j`. -/
def NamelessCallOutcome (hs : TCascStorage) (c : TCascSearch)
    (res : Bool × TCascSearch × CASC_FIND_DATA) : Prop :=
  (res.1 = false ∧
    res.2.1 = { c with IndexLevel1 := max c.IndexLevel1 hs.CKeyMap.HashTableSize } ∧
    ∀ i, c.IndexLevel1 ≤ i → i < hs.CKeyMap.HashTableSize →
      NamelessCandidate hs c.BitArray i = none) ∨
  (∃ j e ee s, c.IndexLevel1 ≤ j ∧ j < hs.CKeyMap.HashTableSize ∧
    (∀ i, c.IndexLevel1 ≤ i → i < j → NamelessCandidate hs c.BitArray i = none) ∧
    NamelessCandidate hs c.BitArray j = some (e, ee, s) ∧
    res = (true, (FileFoundBefore { c with IndexLevel1 := j } s).2, NamelessRecord e ee))

/-- The ordinal at which the nameless phase of the next call starts: the saved
position if the cursor is in state 2, else 0. -/
def NamelessStart (c : TCascSearch) : Nat :=
  if c.dwState = 2 then c.IndexLevel1 else 0

/-- A call of `DoStorageSearch` on `c` with result `res` returned a record of the
name phase: the root results `pre` were discarded, `r` produced the record. -/
def NameYield (hs : TCascStorage) (c : TCascSearch)
    (res : Bool × TCascSearch × CASC_FIND_DATA) : Prop :=
  c.dwState ≤ 1 ∧
  ∃ pre r post, c.RootSearch = pre ++ r :: post ∧ (∀ x ∈ pre, NameRecord hs x = none) ∧
    NameRecord hs r = some res.2.2 ∧ res.1 = true ∧
    res.2.1.dwState = 1 ∧ res.2.1.RootSearch = post ∧
    res.2.1.nSearchCalls = c.nSearchCalls + pre.length + 1 ∧
    res.2.1.szMask = c.szMask ∧
    res.2.1.BitArray = (FileFoundBefore c ((SlotOf hs res.2.2).getD 0)).2.BitArray

/-- A call of `DoStorageSearch` on `c` with result `res` returned a record of the
nameless phase, found at ordinal `j` of the content-key index. -/
def NamelessYield (hs : TCascStorage) (c : TCascSearch)
    (res : Bool × TCascSearch × CASC_FIND_DATA) : Prop :=
  IsUnrestrictedMask c.szMask = true ∧ c.dwState ≤ 2 ∧
  (c.dwState ≤ 1 → ∀ r ∈ c.RootSearch, NameRecord hs r = none) ∧
  ∃ j e ee s, NamelessStart c ≤ j ∧ j < hs.CKeyMap.HashTableSize ∧
    (∀ i, NamelessStart c ≤ i → i < j → NamelessCandidate hs c.BitArray i = none) ∧
    NamelessCandidate hs c.BitArray j = some (e, ee, s) ∧
    res.1 = true ∧ res.2.2 = NamelessRecord e ee ∧
    res.2.1.dwState = 2 ∧ res.2.1.IndexLevel1 = j ∧
    res.2.1.szMask = c.szMask ∧
    res.2.1.BitArray = (FileFoundBefore c s).2.BitArray

/-- A call of `DoStorageSearch` on `c` with result `res` returned `false`. -/
def NoYield (hs : TCascStorage) (c : TCascSearch)
    (res : Bool × TCascSearch × CASC_FIND_DATA) : Prop :=
  res.1 = false ∧ res.2.1.BitArray = c.BitArray ∧ res.2.1.szMask = c.szMask ∧
  (c.dwState ≤ 1 →
    (∀ r ∈ c.RootSearch, NameRecord hs r = none) ∧ res.2.1.RootSearch = [] ∧
    res.2.1.nSearchCalls = c.nSearchCalls + c.RootSearch.length + 1 ∧
    2 ≤ res.2.1.dwState) ∧
  (IsUnrestrictedMask c.szMask = true → c.dwState ≤ 2 →
    ∀ i, NamelessStart c ≤ i → i < hs.CKeyMap.HashTableSize →
      NamelessCandidate hs c.BitArray i = none)

/-- A bound on the number of records a cursor can still return: in the name
phase every record consumes a root result; in the nameless phase a record found
at a later ordinal moves `IndexLevel1` forward, and a record found at
`IndexLevel1` itself uses up the one candidate of that ordinal. -/
def EnumBound (hs : TCascStorage) (c : TCascSearch) : Nat :=
  if c.dwState ≤ 1 then c.RootSearch.length + 2 * hs.CKeyMap.HashTableSize + 2
  else if c.dwState = 2 then
    2 * (hs.CKeyMap.HashTableSize - c.IndexLevel1)
      + (if (NamelessCandidate hs c.BitArray c.IndexLevel1).isSome then 1 else 0)
  else 0

/-- The function `DoStorageSearch` without its block "State 2": state 0, then the
name phase, and `false` once the root handler is exhausted.  The content-key
index is not looked at ordinal by ordinal anywhere in it. -/
def DoStorageSearch_NamesOnly (env : CASC_ENV) (hs : TCascStorage) (pSearch : TCascSearch)
    (pFindData : CASC_FIND_DATA) : Bool × TCascSearch × CASC_FIND_DATA :=
  let pSearch := DoStorageSearch_State0 env pSearch
  if pSearch.dwState = 1 then
    match DoStorageSearch_RootFile hs pSearch pFindData with
    | (true, pSearch, pFindData) => (true, pSearch, pFindData)
    | (false, pSearch, pFindData) =>
      (false, { pSearch with IndexLevel1 := 0, dwState := pSearch.dwState + 1 }, pFindData)
  else (false, pSearch, pFindData)

/-! ## Sample data -/

/-- A key buffer of 16 bytes, all equal to `n`. -/
def sampleKey (n : Nat) : List Nat := List.replicate 16 n

/-- An environment without name list in which every allocation succeeds. -/
def sampleEnv : CASC_ENV :=
  { ListFile_OpenExternal := fun _ => none
    bAllocSearch := true
    bAllocListFile := true
    bAllocMask := true }

/-- A record as a caller may pass it in: left over from earlier use. -/
def sampleFindData : CASC_FIND_DATA :=
  { szFileName := "old"
    szPlainName := 0
    CKey := sampleKey 7
    EKey := sampleKey 7
    TagMask := 1
    dwFileDataId := 2
    dwFileSize := 3
    dwLocaleFlags := 4
    dwContentFlags := 5
    NameType := CASC_NAME_TYPE.CascNameEKey
    bCanOpenByName := true
    bCanOpenByDataId := true
    bCanOpenByCKey := true
    bCanOpenByEKey := true }

/-- A root result that supplies a path and nothing else. -/
def sampleNamed (key : List Nat) (szFileName : String) : ROOT_SEARCH_RESULT :=
  { pbQueryKey := key
    szFileName := szFileName
    dwFileDataId := CASC_INVALID_ID
    dwFileSize := CASC_INVALID_SIZE
    dwLocaleFlags := CASC_INVALID_ID
    dwContentFlags := CASC_INVALID_ID
    bCanOpenByName := true
    bCanOpenByDataId := false }

/-- A storage whose root handler yields content keys: two paths for the content
key `1`, one stale path.  The content-key index holds the entries `1` and `2`
and a free slot; the encoded-key index resolves the encoded keys of both. -/
def sampleStorage : TCascStorage :=
  { szClassName := some "TCascStorage"
    dwRefCount := 1
    pRootHandler :=
      { GetFeatures := CASC_FEATURE_ROOT_CKEY
        SearchSequence := fun _ _ =>
          [sampleNamed (sampleKey 1) "a\\b.txt", sampleNamed (sampleKey 9) "stale",
           sampleNamed (sampleKey 1) "c.txt"] }
    CKeyMap :=
      { KeyLength := 16
        HashTable :=
          [some { EKeyCount := 1, ContentSize := [0, 0, 1, 0], CKey := sampleKey 1,
                  EKey := sampleKey 11 },
           none,
           some { EKeyCount := 1, ContentSize := [0, 0, 0, 5], CKey := sampleKey 2,
                  EKey := sampleKey 12 }] }
    EKeyMap :=
      { KeyLength := 9
        HashTable :=
          [none,
           some { EKey := sampleKey 11, EncodedSize := 100, TagBitMask := 3 },
           some { EKey := sampleKey 12, EncodedSize := 200, TagBitMask := 0 }] } }

/-- The cursor `AllocateSearchHandle` builds on `sampleStorage` for a mask. -/
def sampleCursor (szMask : String) : TCascSearch :=
  { szClassName := some "TCascSearch"
    szListFile := none
    pCache := none
    szMask := some szMask
    RootSearch := sampleStorage.pRootHandler.SearchSequence szMask none
    nSearchCalls := 0
    IndexLevel1 := 0
    dwState := 0
    BitArray := [0] }

/-- A storage with an orphaned content entry: the entry of the content key `3` has
`EKeyCount = 0`, while the bytes left in its encoded-key field are those of an
encoded key that is present in the encoded-key index.  The root handler yields
content keys and names nothing. -/
def orphanStorage : TCascStorage :=
  { szClassName := some "TCascStorage"
    dwRefCount := 1
    pRootHandler :=
      { GetFeatures := CASC_FEATURE_ROOT_CKEY
        SearchSequence := fun _ _ => [] }
    CKeyMap :=
      { KeyLength := 16
        HashTable :=
          [some { EKeyCount := 0, ContentSize := [0, 0, 0, 7], CKey := sampleKey 3,
                  EKey := sampleKey 12 }] }
    EKeyMap :=
      { KeyLength := 9
        HashTable := [some { EKey := sampleKey 12, EncodedSize := 200, TagBitMask := 0 }] } }

/-- The cursor `AllocateSearchHandle` builds on `orphanStorage` for the mask `*`. -/
def orphanCursor : TCascSearch :=
  { szClassName := some "TCascSearch"
    szListFile := none
    pCache := none
    szMask := some "*"
    RootSearch := []
    nSearchCalls := 0
    IndexLevel1 := 0
    dwState := 0
    BitArray := [0] }

/-- A record that can be opened by file data id `0xABC`. -/
def sampleIdRecord : CASC_FIND_DATA :=
  { sampleFindData with szFileName := "", dwFileDataId := 0xABC, bCanOpenByDataId := true }

/-- A valid storage with nothing in it: no slot in either index, and a root
handler that yields nothing. -/
def emptyStorage : TCascStorage :=
  { szClassName := some "TCascStorage"
    dwRefCount := 1
    pRootHandler :=
      { GetFeatures := CASC_FEATURE_ROOT_CKEY
        SearchSequence := fun _ _ => [] }
    CKeyMap := { KeyLength := 16, HashTable := [] }
    EKeyMap := { KeyLength := 9, HashTable := [] } }

/-- A cursor whose class-name tag is not that of a search handle. -/
def sampleForeignHandle : TCascSearch :=
  { sampleCursor "*" with szClassName := some "TCascFile" }

/-- A storage with a single content entry that has two encoded keys (the entry
holds the first), and no name source: the root handler yields nothing. -/
def twoEKeyStorage : TCascStorage :=
  { szClassName := some "TCascStorage"
    dwRefCount := 1
    pRootHandler :=
      { GetFeatures := CASC_FEATURE_ROOT_CKEY
        SearchSequence := fun _ _ => [] }
    CKeyMap :=
      { KeyLength := 16
        HashTable :=
          [some { EKeyCount := 2, ContentSize := [0, 0, 0, 9], CKey := sampleKey 5,
                  EKey := sampleKey 21 }] }
    EKeyMap :=
      { KeyLength := 9
        HashTable :=
          [some { EKey := sampleKey 21, EncodedSize := 6, TagBitMask := 4 },
           some { EKey := sampleKey 22, EncodedSize := 7, TagBitMask := 0 }] } }

/-- Flag of a file node: this item is a folder. -/
def CFN_FLAG_FOLDER : Nat := 0x0001

/-- Marker for "no index": the parent of the root item. -/
def CASC_INVALID_INDEX : Nat := 0xFFFFFFFF

/-- The node of the file tree (`CASC_FILE_NODE`).  `Name` is the node name that
`NameIndex` and `NameLength` select in the name table. -/
structure CASC_FILE_NODE where
  CKey : List Nat
  NameHash : Nat
  Parent : Nat
  Name : List Char
  Flags : Nat
deriving DecidableEq

/-- Modelled from the spec: the file tree (`CASC_FILE_TREE`; its header is at hand,
its code is not).  `FileTable` holds the nodes in insertion order.  `NameMap`
maps a normalized full file name to the index of its node; the spec has name
hashes looked up in a map and hash collisions resolved by comparing the full
normalized strings, so the map is keyed by the normalized name itself.
`CalcNameHash` is the 64-bit name hash stored in a node. -/
structure CASC_FILE_TREE where
  FileTable : List CASC_FILE_NODE
  NameMap : List (List Char × Nat)
  CalcNameHash : List Char → Nat

/-- Modelled from the spec: name normalization, "uppercase, backslashes": letters
are case-folded and the path separator is made a backslash. -/
def NormalizeFileName (szFullPath : String) : List Char :=
  szFullPath.toList.map fun ch => if ch = '/' then '\\' else ch.toUpper

/-- Modelled from the spec: the lookup of a normalized name in the name map. -/
def NameMap_Find (szNormPath : List Char) : List (List Char × Nat) → Option Nat
  | [] => none
  | (q, i) :: rest => if q = szNormPath then some i else NameMap_Find szNormPath rest

/-- The node name of a normalized path: what follows its last separator. -/
def NodeNameOf (szNormPath : List Char) : List Char :=
  (szNormPath.reverse.takeWhile fun ch => ch != '\\').reverse

/-- The normalized paths of the folders on the way to a normalized path: its
prefixes up to each separator, shortest first. -/
def FolderPaths (szNormPath : List Char) : List (List Char) :=
  ((List.range szNormPath.length).filter fun i => szNormPath.getD i ' ' = '\\').map
    fun i => szNormPath.take i

/-- The update of the node at index `i`, if there is one. -/
def CASC_FILE_TREE.UpdateNode (t : CASC_FILE_TREE) (i : Nat)
    (f : CASC_FILE_NODE → CASC_FILE_NODE) : CASC_FILE_TREE :=
  match t.FileTable.get? i with
  | some node => { t with FileTable := t.FileTable.set i (f node) }
  | none => t

/-- Modelled from the spec: `CASC_FILE_TREE::GetOrInsert`.  An existing node with
the same normalized name is reused (and `update` applied to it), otherwise a
new node is appended to the file table and entered in the name map.  Returns
the index of the node and the tree. -/
def CASC_FILE_TREE.GetOrInsert (t : CASC_FILE_TREE) (szNormPath : List Char)
    (CKey : List Nat) (Parent : Nat) (update : CASC_FILE_NODE → CASC_FILE_NODE) :
    Nat × CASC_FILE_TREE :=
  match NameMap_Find szNormPath t.NameMap with
  | some i => (i, t.UpdateNode i update)
  | none =>
    (t.FileTable.length,
     { t with
         FileTable := t.FileTable ++
           [update { CKey := CKey, NameHash := t.CalcNameHash szNormPath, Parent := Parent,
                     Name := NodeNameOf szNormPath, Flags := 0 }]
         NameMap := t.NameMap ++ [(szNormPath, t.FileTable.length)] })

/-- The walk of `Insert` over the folders of a path: each folder node is reused or
created under the one before it and marked as a folder.  Returns the index of
the last folder (the parent of the leaf) and the tree. -/
def CASC_FILE_TREE.InsertFolders (t : CASC_FILE_TREE) :
    List (List Char) → Nat → Nat × CASC_FILE_TREE
  | [], Parent => (Parent, t)
  | p :: rest, Parent =>
    match t.GetOrInsert p [] Parent
        (fun node => { node with Flags := node.Flags ||| CFN_FLAG_FOLDER }) with
    | (i, t2) => t2.InsertFolders rest i

/-- Modelled from the spec: `CASC_FILE_TREE::Create`, a tree holding the root item. -/
def CASC_FILE_TREE.Create (CalcNameHash : List Char → Nat) : CASC_FILE_TREE :=
  { FileTable := [{ CKey := [], NameHash := 0, Parent := CASC_INVALID_INDEX, Name := [],
                    Flags := CFN_FLAG_FOLDER }]
    NameMap := []
    CalcNameHash := CalcNameHash }

/-- Modelled from the spec: `CASC_FILE_TREE::Insert(pCKey, szFullPath)`.  The path is
normalized and split on its separator, the folder nodes are walked or created
from the root item on, and the leaf node is created, or updated with the key.
Returns the index of the leaf node and the tree.  The optional per-node fields
(id, size, locale and content flags) are left out. -/
def CASC_FILE_TREE.Insert (t : CASC_FILE_TREE) (pCKey : List Nat) (szFullPath : String) :
    Nat × CASC_FILE_TREE :=
  match t.InsertFolders (FolderPaths (NormalizeFileName szFullPath)) 0 with
  | (Parent, t2) =>
    t2.GetOrInsert (NormalizeFileName szFullPath) pCKey Parent
      (fun node => { node with CKey := pCKey })

/-- Modelled from the spec: `CASC_FILE_TREE::Find(szFullPath, ...)`, the lookup of the
normalized path in the name map; the index of the node, if there is one. -/
def CASC_FILE_TREE.Find (t : CASC_FILE_TREE) (szFullPath : String) : Option Nat :=
  NameMap_Find (NormalizeFileName szFullPath) t.NameMap

/-- Modelled from the spec: `CASC_FILE_TREE::GetCount`, the number of items. -/
def CASC_FILE_TREE.GetCount (t : CASC_FILE_TREE) : Nat :=
  t.FileTable.length

/-- Modelled from the spec: `CASC_FILE_TREE::ItemAt`, the node at an index. -/
def CASC_FILE_TREE.ItemAt (t : CASC_FILE_TREE) (nItemIndex : Nat) : Option CASC_FILE_NODE :=
  t.FileTable.get? nItemIndex

/-- A tree with the root item only; the name hash is the length of the name. -/
def sampleTree : CASC_FILE_TREE :=
  CASC_FILE_TREE.Create List.length

/-- A storage like `sampleStorage` whose root handler supplies sizes: a stale
result with the size `777`, then a path for the content key `1` without a size,
then a path for the content key `2` with the size `555`. -/
def sizeStorage : TCascStorage :=
  { sampleStorage with
    pRootHandler :=
      { GetFeatures := CASC_FEATURE_ROOT_CKEY
        SearchSequence := fun _ _ =>
          [{ sampleNamed (sampleKey 9) "stale" with dwFileSize := 777 },
           sampleNamed (sampleKey 1) "a.txt",
           { sampleNamed (sampleKey 2) "b.txt" with dwFileSize := 555 }] } }

/-- The cursor `AllocateSearchHandle` builds on `sizeStorage` for the mask `*`. -/
def sizeCursor : TCascSearch :=
  { sampleCursor "*" with RootSearch := sizeStorage.pRootHandler.SearchSequence "*" none }

/-! ## Theorems -/

/-! ### Frame lemmas -/

theorem ResetFindData_const (fd fd2 : CASC_FIND_DATA) :
    ResetFindData fd = ResetFindData fd2 := rfl

theorem FileFoundBefore_frame (c : TCascSearch) (i : Nat) :
    (FileFoundBefore c i).2 = { c with BitArray := (FileFoundBefore c i).2.BitArray } := by
  unfold FileFoundBefore
  dsimp only
  split <;> rfl

theorem RootFile_EKey_frame (hs : TCascStorage) (pck : Option CASC_CKEY_ENTRY)
    (key : List Nat) (c c2 : TCascSearch) (fd fd2 : CASC_FIND_DATA)
    (h : DoStorageSearch_RootFile_EKey hs pck key c fd = some (c2, fd2)) :
    c2 = { c with BitArray := c2.BitArray } := by
  unfold DoStorageSearch_RootFile_EKey at h
  split at h
  · exact absurd h (by simp)
  · simp only [Option.some.injEq, Prod.mk.injEq] at h
    rw [← h.1]
    exact FileFoundBefore_frame c _

theorem RootFile_loop_frame (hs : TCascStorage) (feat : Nat) (fuel : Nat) :
    ∀ (pck : Option CASC_CKEY_ENTRY) (c : TCascSearch) (fd : CASC_FIND_DATA),
      (DoStorageSearch_RootFile_loop hs feat fuel pck c fd).2.1 =
        { c with
            RootSearch := (DoStorageSearch_RootFile_loop hs feat fuel pck c fd).2.1.RootSearch
            nSearchCalls := (DoStorageSearch_RootFile_loop hs feat fuel pck c fd).2.1.nSearchCalls
            BitArray := (DoStorageSearch_RootFile_loop hs feat fuel pck c fd).2.1.BitArray } := by
  induction fuel with
  | zero => intro pck c fd; rfl
  | succ n ih =>
    intro pck c fd
    unfold DoStorageSearch_RootFile_loop TRootHandler_Search
    cases hrs : c.RootSearch with
    | nil => simp only []
    | cons r rest =>
      simp only []
      split
      · split
        · rw [ih]
        · split
          · rw [ih]
          · split
            · rw [ih]
            · rename_i heq
              have := RootFile_EKey_frame _ _ _ _ _ _ _ heq
              simp only []
              rw [this]
      · split
        · rw [ih]
        · rename_i heq
          have := RootFile_EKey_frame _ _ _ _ _ _ _ heq
          simp only []
          rw [this]

theorem CKey_loop_frame (hs : TCascStorage) (fuel : Nat) :
    ∀ (c : TCascSearch) (fd : CASC_FIND_DATA),
      (DoStorageSearch_CKey_loop hs fuel c fd).2.1 =
        { c with
            IndexLevel1 := (DoStorageSearch_CKey_loop hs fuel c fd).2.1.IndexLevel1
            BitArray := (DoStorageSearch_CKey_loop hs fuel c fd).2.1.BitArray } := by
  induction fuel with
  | zero => intro c fd; rfl
  | succ n ih =>
    intro c fd
    unfold DoStorageSearch_CKey_loop
    split
    · split
      · split
        · split
          · rename_i heq
            have := FileFoundBefore_frame c ‹Nat›
            rw [heq] at this
            simp only [] at this ⊢
            rw [this]
          · rename_i heq
            have := FileFoundBefore_frame c ‹Nat›
            rw [heq] at this
            simp only [] at this
            rw [ih]
            simp only []
            rw [this]
        · rw [ih]
      · rw [ih]
    · rfl

theorem RootFile_frame (hs : TCascStorage) (c : TCascSearch) (fd : CASC_FIND_DATA) :
    (DoStorageSearch_RootFile hs c fd).2.1.dwState = c.dwState ∧
    (DoStorageSearch_RootFile hs c fd).2.1.szMask = c.szMask ∧
    (DoStorageSearch_RootFile hs c fd).2.1.IndexLevel1 = c.IndexLevel1 := by
  unfold DoStorageSearch_RootFile
  rw [RootFile_loop_frame]
  exact ⟨rfl, rfl, rfl⟩

theorem CKey_frame (hs : TCascStorage) (c : TCascSearch) (fd : CASC_FIND_DATA) :
    (DoStorageSearch_CKey hs c fd).2.1.dwState = c.dwState ∧
    (DoStorageSearch_CKey hs c fd).2.1.szMask = c.szMask ∧
    (DoStorageSearch_CKey hs c fd).2.1.RootSearch = c.RootSearch ∧
    (DoStorageSearch_CKey hs c fd).2.1.nSearchCalls = c.nSearchCalls := by
  unfold DoStorageSearch_CKey
  rw [CKey_loop_frame]
  exact ⟨rfl, rfl, rfl, rfl⟩

/-! ### The terminal condition -/

theorem State0_of_ne_zero (env : CASC_ENV) (c : TCascSearch) (h : c.dwState ≠ 0) :
    DoStorageSearch_State0 env c = c := by
  unfold DoStorageSearch_State0
  rw [if_neg h]

theorem DoStorageSearch_of_ended (env : CASC_ENV) (hs : TCascStorage) (c : TCascSearch)
    (fd : CASC_FIND_DATA) (h : SearchEnded c) :
    DoStorageSearch env hs c fd = (false, c, fd) := by
  obtain ⟨h0, h1, h2⟩ := h
  unfold DoStorageSearch
  rw [State0_of_ne_zero env c h0]
  unfold DoStorageSearch_State1
  rw [if_neg h1]
  unfold DoStorageSearch_State2
  rw [if_neg h2]

theorem State2_false_ended (hs : TCascStorage) (c : TCascSearch) (fd : CASC_FIND_DATA)
    (h0 : c.dwState ≠ 0) (h1 : c.dwState ≠ 1)
    (h : (DoStorageSearch_State2 hs c fd).1 = false) :
    SearchEnded (DoStorageSearch_State2 hs c fd).2.1 := by
  unfold DoStorageSearch_State2 at h ⊢
  split
  · rename_i hc
    have hf := CKey_frame hs c fd
    split
    · rename_i heq
      rw [if_pos hc, heq] at h
      simp at h
    · rename_i c2 fd2 heq
      rw [heq] at hf
      simp only [] at hf
      refine ⟨?_, ?_, ?_⟩ <;> simp only [] <;> omega
  · rename_i hc
    exact ⟨h0, h1, hc⟩

theorem DoStorageSearch_false_ended (env : CASC_ENV) (hs : TCascStorage) (c : TCascSearch)
    (fd : CASC_FIND_DATA) (h : (DoStorageSearch env hs c fd).1 = false) :
    SearchEnded (DoStorageSearch env hs c fd).2.1 := by
  unfold DoStorageSearch at h ⊢
  have hs0 : (DoStorageSearch_State0 env c).dwState ≠ 0 := by
    unfold DoStorageSearch_State0
    split
    · simp
    · assumption
  generalize DoStorageSearch_State0 env c = c1 at h hs0 ⊢
  unfold DoStorageSearch_State1 at h ⊢
  split
  · rename_i h1
    have hf := RootFile_frame hs c1 fd
    split
    · rename_i heq
      rw [if_pos h1, heq] at h
      simp at h
    · rename_i c2 fd2 heq
      rw [if_pos h1, heq] at h
      rw [heq] at hf
      simp only [] at hf h
      apply State2_false_ended
      · simp only []; omega
      · simp only []; omega
      · exact h
  · rename_i h1
    rw [if_neg h1] at h
    exact State2_false_ended hs c1 fd hs0 h1 h

theorem DoStorageSearch_calls_ended (env : CASC_ENV) (hs : TCascStorage) (c : TCascSearch)
    (h : SearchEnded c) (fds : List CASC_FIND_DATA) :
    DoStorageSearch_calls env hs fds c = (List.replicate fds.length false, c) := by
  induction fds with
  | nil => rfl
  | cons fd fds ih =>
    unfold DoStorageSearch_calls
    rw [DoStorageSearch_of_ended env hs c fd h]
    simp only [ih, List.length_cons, List.replicate_succ]

/-! ### The dedup bit array -/

theorem BitMask_eq (i : Nat) : (1 <<< (i &&& 0x1F)) % 2 ^ 32 = 2 ^ (i % 32) := by
  rw [Nat.one_shiftLeft]
  have h : i &&& 0x1F = i % 32 := Nat.and_pow_two_sub_one_eq_mod i 5
  rw [h]
  apply Nat.mod_eq_of_lt
  apply Nat.pow_lt_pow_right (by norm_num)
  omega

theorem and_two_pow_ne_zero (w k : Nat) : (w &&& 2 ^ k ≠ 0) ↔ w.testBit k = true := by
  rw [Nat.and_two_pow]
  cases w.testBit k <;> simp

theorem FileFoundBefore_fst (c : TCascSearch) (i : Nat) :
    (FileFoundBefore c i).1 = BitIsSet c.BitArray i := by
  unfold FileFoundBefore BitIsSet
  dsimp only
  rw [BitMask_eq]
  split
  · rename_i h
    exact ((and_two_pow_ne_zero _ _).1 h).symm
  · rename_i h
    rw [and_two_pow_ne_zero] at h
    simpa using h

theorem FileFoundBefore_length (c : TCascSearch) (i : Nat) :
    (FileFoundBefore c i).2.BitArray.length = c.BitArray.length := by
  unfold FileFoundBefore
  dsimp only
  split
  · rfl
  · simp

theorem div_mod_32_inj (i j : Nat) (h1 : i / 32 = j / 32) (h2 : i % 32 = j % 32) : i = j := by
  omega

theorem FileFoundBefore_bits (c : TCascSearch) (i j : Nat) (hi : i / 32 < c.BitArray.length) :
    BitIsSet (FileFoundBefore c i).2.BitArray j
      = (BitIsSet c.BitArray j || decide (j = i)) := by
  have hfst := FileFoundBefore_fst c i
  unfold FileFoundBefore at hfst ⊢
  dsimp only at hfst ⊢
  rw [BitMask_eq] at hfst ⊢
  split
  · rename_i h
    rw [if_pos h] at hfst
    dsimp only at hfst ⊢
    by_cases hji : j = i
    · subst hji
      rw [← hfst]
      simp
    · simp [hji]
  · rename_i h
    dsimp only
    unfold BitIsSet
    rw [List.getD_eq_getElem?_getD, List.getD_eq_getElem?_getD, List.getElem?_set]
    by_cases hw : i / 32 = j / 32
    · rw [if_pos hw, if_pos hi]
      simp only [Option.getD_some, Nat.testBit_lor, Nat.testBit_two_pow]
      rw [List.getD_eq_getElem?_getD, hw]
      congr 1
      by_cases hm : i % 32 = j % 32
      · have := div_mod_32_inj i j hw hm
        simp [hm, this]
      · have : j ≠ i := fun e => hm (by rw [e])
        simp [hm, this]
    · rw [if_neg hw]
      have : j ≠ i := fun e => hw (by rw [e])
      simp [this]

theorem FileFoundBefore_covers (hs : TCascStorage) (c : TCascSearch) (i : Nat)
    (h : BitArrayCovers hs c) : BitArrayCovers hs (FileFoundBefore c i).2 := by
  unfold BitArrayCovers at h ⊢
  rw [FileFoundBefore_length]
  exact h

/-! ### The slot lookup -/

theorem FindObjectFrom_lt {α : Type} (keyOf : α → List Nat) (len : Nat) (pKey : List Nat) :
    ∀ (l : List (Option α)) (i : Nat) (e : α) (s : Nat),
      FindObjectFrom keyOf len pKey l i = some (e, s) → s < i + l.length := by
  intro l
  induction l with
  | nil => intro i e s h; simp [FindObjectFrom] at h
  | cons x rest ih =>
    intro i e s h
    cases x with
    | none =>
      simp only [FindObjectFrom] at h
      have := ih _ _ _ h
      simp only [List.length_cons]
      omega
    | some a =>
      simp only [FindObjectFrom] at h
      split at h
      · simp only [Option.some.injEq, Prod.mk.injEq] at h
        simp only [List.length_cons]
        omega
      · have := ih _ _ _ h
        simp only [List.length_cons]
        omega

theorem FindEKeyEntry_lt (hs : TCascStorage) (key : List Nat) (ee : CASC_EKEY_ENTRY) (s : Nat)
    (h : FindEKeyEntry hs key = some (ee, s)) : s < hs.EKeyMap.HashTableSize := by
  unfold FindEKeyEntry CASC_MAP.FindObject at h
  have := FindObjectFrom_lt _ _ _ _ _ _ _ h
  unfold CASC_MAP.HashTableSize
  omega

theorem slot_in_range (hs : TCascStorage) (c : TCascSearch) (key : List Nat)
    (ee : CASC_EKEY_ENTRY) (s : Nat) (hc : BitArrayCovers hs c)
    (h : FindEKeyEntry hs key = some (ee, s)) : s / 32 < c.BitArray.length := by
  have := FindEKeyEntry_lt hs key ee s h
  unfold BitArrayCovers at hc
  omega

/-! ### One iteration of the name-phase loop -/

theorem SupplyFakeFileName_EKey (fd : CASC_FIND_DATA) :
    (SupplyFakeFileName fd).EKey = fd.EKey := by
  unfold SupplyFakeFileName
  split
  · rfl
  · split <;> rfl

theorem SlotOf_of_EKey (hs : TCascStorage) (fd : CASC_FIND_DATA) (key : List Nat)
    (ee : CASC_EKEY_ENTRY) (s : Nat) (hk : fd.EKey = key)
    (hE : FindEKeyEntry hs key = some (ee, s)) : SlotOf hs fd = some s := by
  unfold SlotOf
  rw [hk, hE]
  rfl

theorem NameRecordOf_slot (hs : TCascStorage) (r : ROOT_SEARCH_RESULT)
    (pck : Option CASC_CKEY_ENTRY) (key : List Nat) (rec : CASC_FIND_DATA)
    (ee : CASC_EKEY_ENTRY) (s : Nat) (hE : FindEKeyEntry hs key = some (ee, s))
    (h : NameRecordOf hs r pck key = some rec) : rec.EKey = key ∧ SlotOf hs rec = some s := by
  unfold NameRecordOf at h
  rw [hE] at h
  simp only [Option.some.injEq] at h
  have hk : rec.EKey = key := by
    rw [← h]
    split
    · rw [SupplyFakeFileName_EKey]
    · rfl
  exact ⟨hk, SlotOf_of_EKey hs rec key ee s hk hE⟩

theorem RootFile_EKey_eq (hs : TCascStorage) (r : ROOT_SEARCH_RESULT)
    (pck : Option CASC_CKEY_ENTRY) (key : List Nat) (c : TCascSearch) (fd : CASC_FIND_DATA) :
    DoStorageSearch_RootFile_EKey hs pck key c
        { ResetFindData fd with
            szFileName := r.szFileName
            dwFileDataId := r.dwFileDataId
            dwFileSize := r.dwFileSize
            dwLocaleFlags := r.dwLocaleFlags
            dwContentFlags := r.dwContentFlags
            bCanOpenByName := r.bCanOpenByName
            bCanOpenByDataId := r.bCanOpenByDataId
            CKey := match pck with
              | some _ => r.pbQueryKey
              | none => List.replicate MD5_HASH_SIZE 0
            bCanOpenByCKey := pck.isSome }
      = (NameRecordOf hs r pck key).map fun rec =>
          ((FileFoundBefore c ((SlotOf hs rec).getD 0)).2, rec) := by
  unfold DoStorageSearch_RootFile_EKey NameRecordOf
  cases hE : FindEKeyEntry hs key with
  | none => rfl
  | some p =>
    obtain ⟨ee, s⟩ := p
    have hrec := NameRecordOf_slot hs r pck key _ ee s hE (by unfold NameRecordOf; rw [hE])
    simp only [Option.map_some', Option.some.injEq, Prod.mk.injEq]
    constructor
    · rw [hrec.2]
      rfl
    · by_cases hn : r.szFileName = "" <;> by_cases hsz : r.dwFileSize = CASC_INVALID_SIZE <;>
        cases pck <;> simp [ResetFindData, hn, hsz]

theorem RootFile_EKey_eq_none (hs : TCascStorage) (r : ROOT_SEARCH_RESULT)
    (key : List Nat) (c : TCascSearch) (fd : CASC_FIND_DATA) :
    DoStorageSearch_RootFile_EKey hs none key c (TRootHandler_Supply r (ResetFindData fd))
      = (NameRecordOf hs r none key).map fun rec =>
          ((FileFoundBefore c ((SlotOf hs rec).getD 0)).2, rec) :=
  RootFile_EKey_eq hs r none key c fd

theorem RootFile_EKey_eq_some (hs : TCascStorage) (r : ROOT_SEARCH_RESULT)
    (e : CASC_CKEY_ENTRY) (key : List Nat) (c : TCascSearch) (fd : CASC_FIND_DATA) :
    DoStorageSearch_RootFile_EKey hs (some e) key c
        { TRootHandler_Supply r (ResetFindData fd) with
            CKey := r.pbQueryKey, bCanOpenByCKey := true }
      = (NameRecordOf hs r (some e) key).map fun rec =>
          ((FileFoundBefore c ((SlotOf hs rec).getD 0)).2, rec) :=
  RootFile_EKey_eq hs r (some e) key c fd

theorem Search_cons (c : TCascSearch) (fd : CASC_FIND_DATA) (r : ROOT_SEARCH_RESULT)
    (rest : List ROOT_SEARCH_RESULT) (h : c.RootSearch = r :: rest) :
    TRootHandler_Search c fd
      = (some r.pbQueryKey,
         { c with RootSearch := rest, nSearchCalls := c.nSearchCalls + 1 },
         TRootHandler_Supply r fd) := by
  unfold TRootHandler_Search
  rw [h]

theorem Search_nil (c : TCascSearch) (fd : CASC_FIND_DATA) (h : c.RootSearch = []) :
    TRootHandler_Search c fd
      = (none, { c with RootSearch := [], nSearchCalls := c.nSearchCalls + 1 }, fd) := by
  unfold TRootHandler_Search
  rw [h]

theorem RootFile_loop_spec (hs : TCascStorage) :
    ∀ (l : List ROOT_SEARCH_RESULT) (fuel : Nat) (pck : Option CASC_CKEY_ENTRY)
      (c : TCascSearch) (fd : CASC_FIND_DATA),
      c.RootSearch = l → l.length < fuel →
      (hs.pRootHandler.GetFeatures &&& CASC_FEATURE_ROOT_CKEY = 0 → pck = none) →
      DoStorageSearch_RootFile_loop hs hs.pRootHandler.GetFeatures fuel pck c fd
        = NamePhaseCall hs c l := by
  intro l
  induction l with
  | nil =>
    intro fuel pck c fd hl hf _
    cases fuel with
    | zero => simp at hf
    | succ n =>
      unfold DoStorageSearch_RootFile_loop NamePhaseCall
      dsimp only
      rw [Search_nil c _ hl]
      rfl
  | cons r rest ih =>
    intro fuel pck c fd hl hf hp
    cases fuel with
    | zero => simp at hf
    | succ n =>
      have hn : rest.length < n := by simpa using hf
      unfold DoStorageSearch_RootFile_loop NamePhaseCall NameRecord
      dsimp only
      rw [Search_cons c _ r rest hl]
      simp only []
      by_cases hfe : hs.pRootHandler.GetFeatures &&& CASC_FEATURE_ROOT_CKEY = 0
      · have hpn := hp hfe
        subst hpn
        simp only [hfe, ne_eq, not_true_eq_false, if_false]
        rw [RootFile_EKey_eq_none]
        cases NameRecordOf hs r none r.pbQueryKey with
        | none => exact ih n none _ _ rfl hn (fun _ => rfl)
        | some rec => rfl
      · simp only [ne_eq, hfe, not_false_eq_true, if_true]
        cases hck : FindCKeyEntry hs r.pbQueryKey with
        | none => exact ih n none _ _ rfl hn (fun h => absurd h hfe)
        | some e =>
          simp only []
          by_cases hz : e.EKeyCount = 0
          · rw [if_pos hz, if_pos hz]
            exact ih n (some e) _ _ rfl hn (fun h => absurd h hfe)
          · rw [if_neg hz, if_neg hz, RootFile_EKey_eq_some]
            cases NameRecordOf hs r (some e) e.EKey with
            | none => exact ih n (some e) _ _ rfl hn (fun h => absurd h hfe)
            | some rec => rfl

theorem RootFile_eq (hs : TCascStorage) (c : TCascSearch) (fd : CASC_FIND_DATA) :
    DoStorageSearch_RootFile hs c fd = NamePhaseCall hs c c.RootSearch := by
  unfold DoStorageSearch_RootFile
  exact RootFile_loop_spec hs c.RootSearch _ none c fd rfl (Nat.lt_succ_self _) (fun _ => rfl)

theorem NamePhaseCall_spec (hs : TCascStorage) :
    ∀ (l : List ROOT_SEARCH_RESULT) (c : TCascSearch),
      ((∀ r ∈ l, NameRecord hs r = none) ∧
        NamePhaseCall hs c l
          = (false, { c with RootSearch := [], nSearchCalls := c.nSearchCalls + l.length + 1 },
              ResetFindData BlankFindData)) ∨
      (∃ pre r post fd, l = pre ++ r :: post ∧ (∀ x ∈ pre, NameRecord hs x = none) ∧
        NameRecord hs r = some fd ∧
        NamePhaseCall hs c l
          = (true,
             (FileFoundBefore
                { c with RootSearch := post, nSearchCalls := c.nSearchCalls + pre.length + 1 }
                ((SlotOf hs fd).getD 0)).2,
             fd)) := by
  intro l
  induction l with
  | nil =>
    intro c
    left
    exact ⟨fun r hr => absurd hr (List.not_mem_nil r), rfl⟩
  | cons r rest ih =>
    intro c
    unfold NamePhaseCall
    cases hrec : NameRecord hs r with
    | none =>
      simp only []
      rcases ih { c with RootSearch := rest, nSearchCalls := c.nSearchCalls + 1 } with
        ⟨hall, heq⟩ | ⟨pre, r2, post, fd, hl, hpre, hr2, heq⟩
      · left
        refine ⟨?_, ?_⟩
        · intro x hx
          rcases List.mem_cons.1 hx with hx | hx
          · rw [hx]; exact hrec
          · exact hall x hx
        · rw [heq]
          have : c.nSearchCalls + 1 + rest.length + 1
              = c.nSearchCalls + (rest.length + 1) + 1 := by omega
          simp only [List.length_cons, this]
      · right
        refine ⟨r :: pre, r2, post, fd, ?_, ?_, hr2, ?_⟩
        · rw [hl]; rfl
        · intro x hx
          rcases List.mem_cons.1 hx with hx | hx
          · rw [hx]; exact hrec
          · exact hpre x hx
        · rw [heq]
          have : c.nSearchCalls + 1 + pre.length + 1
              = c.nSearchCalls + (pre.length + 1) + 1 := by omega
          simp only [List.length_cons, this]
    | some fd =>
      right
      exact ⟨[], r, rest, fd, rfl, fun x hx => absurd hx (List.not_mem_nil x), hrec, rfl⟩

/-! ### The nameless-phase loop -/

theorem FileFoundBefore_true (c : TCascSearch) (i : Nat) (h : (FileFoundBefore c i).1 = true) :
    (FileFoundBefore c i).2 = c := by
  unfold FileFoundBefore at h ⊢
  dsimp only at h ⊢
  split
  · rfl
  · rename_i hc
    rw [if_neg hc] at h
    simp at h

theorem NamelessCallOutcome_skip (hs : TCascStorage) (c : TCascSearch)
    (res : Bool × TCascSearch × CASC_FIND_DATA)
    (hlt : c.IndexLevel1 < hs.CKeyMap.HashTableSize)
    (hcand : NamelessCandidate hs c.BitArray c.IndexLevel1 = none)
    (h : NamelessCallOutcome hs { c with IndexLevel1 := c.IndexLevel1 + 1 } res) :
    NamelessCallOutcome hs c res := by
  have hmax : max (c.IndexLevel1 + 1) hs.CKeyMap.HashTableSize
      = max c.IndexLevel1 hs.CKeyMap.HashTableSize := by omega
  rcases h with ⟨h1, h2, h3⟩ | ⟨j, e, ee, s, h1, h2, h3, h4, h5⟩
  · left
    refine ⟨h1, ?_, ?_⟩
    · rw [h2]
      simp only [hmax]
    · intro i hi1 hi2
      by_cases hie : i = c.IndexLevel1
      · rw [hie]; exact hcand
      · exact h3 i (by simp only []; omega) hi2
  · right
    refine ⟨j, e, ee, s, by simp only [] at h1; omega, h2, ?_, h4, h5⟩
    intro i hi1 hi2
    by_cases hie : i = c.IndexLevel1
    · rw [hie]; exact hcand
    · exact h3 i (by simp only []; omega) hi2

theorem NamelessCallOutcome_end (hs : TCascStorage) (c : TCascSearch) (fd : CASC_FIND_DATA)
    (hge : ¬ c.IndexLevel1 < hs.CKeyMap.HashTableSize) :
    NamelessCallOutcome hs c (false, c, fd) := by
  left
  refine ⟨rfl, ?_, fun i h1 h2 => by omega⟩
  have : max c.IndexLevel1 hs.CKeyMap.HashTableSize = c.IndexLevel1 := by omega
  rw [this]

theorem CKey_loop_spec (hs : TCascStorage) (fuel : Nat) :
    ∀ (c : TCascSearch) (fd : CASC_FIND_DATA),
      hs.CKeyMap.HashTableSize - c.IndexLevel1 ≤ fuel →
      NamelessCallOutcome hs c (DoStorageSearch_CKey_loop hs fuel c fd) := by
  induction fuel with
  | zero =>
    intro c fd hf
    exact NamelessCallOutcome_end hs c fd (by omega)
  | succ n ih =>
    intro c fd hf
    by_cases hlt : c.IndexLevel1 < hs.CKeyMap.HashTableSize
    · have hnext : ∀ fdx, NamelessCallOutcome hs { c with IndexLevel1 := c.IndexLevel1 + 1 }
          (DoStorageSearch_CKey_loop hs n { c with IndexLevel1 := c.IndexLevel1 + 1 } fdx) :=
        fun fdx => ih _ fdx (by simp only []; omega)
      unfold DoStorageSearch_CKey_loop
      rw [if_pos hlt]
      cases hitem : hs.CKeyMap.ItemAt c.IndexLevel1 with
      | none =>
        simp only []
        apply NamelessCallOutcome_skip hs c _ hlt _ (hnext _)
        unfold NamelessCandidate
        rw [hitem]
      | some e =>
        simp only []
        cases hE : FindEKeyEntry hs e.EKey with
        | none =>
          simp only []
          apply NamelessCallOutcome_skip hs c _ hlt _ (hnext _)
          unfold NamelessCandidate
          rw [hitem]
          simp only [hE]
        | some p =>
          obtain ⟨ee, s⟩ := p
          simp only []
          have hfst := FileFoundBefore_fst c s
          rcases hffb : FileFoundBefore c s with ⟨b, c2⟩
          rw [hffb] at hfst
          simp only [] at hfst
          cases b with
          | true =>
            simp only []
            have hc2 : c2 = c := by
              have := FileFoundBefore_true c s (by rw [hffb])
              rw [hffb] at this
              exact this
            rw [hc2]
            apply NamelessCallOutcome_skip hs c _ hlt _ (hnext _)
            unfold NamelessCandidate
            rw [hitem]
            simp only [hE, ← hfst, if_true]
          | false =>
            simp only []
            right
            refine ⟨c.IndexLevel1, e, ee, s, Nat.le_refl _, hlt,
              fun i h1 h2 => by omega, ?_, ?_⟩
            · unfold NamelessCandidate
              rw [hitem]
              simp only [hE, ← hfst]
              rfl
            · have hc2 : c2 = (FileFoundBefore c s).2 := by rw [hffb]
              rw [hc2]
              simp [NamelessRecord, SupplyFakeFileName, ResetFindData]
    · unfold DoStorageSearch_CKey_loop
      rw [if_neg hlt]
      exact NamelessCallOutcome_end hs c fd hlt

theorem CKey_spec (hs : TCascStorage) (c : TCascSearch) (fd : CASC_FIND_DATA) :
    NamelessCallOutcome hs c (DoStorageSearch_CKey hs c fd) :=
  CKey_loop_spec hs _ c fd (Nat.le_refl _)

/-! ### One call of the state machine -/

theorem State0_fields (env : CASC_ENV) (c : TCascSearch) :
    (DoStorageSearch_State0 env c).dwState = (if c.dwState = 0 then 1 else c.dwState) ∧
    (DoStorageSearch_State0 env c).RootSearch = c.RootSearch ∧
    (DoStorageSearch_State0 env c).BitArray = c.BitArray ∧
    (DoStorageSearch_State0 env c).szMask = c.szMask ∧
    (DoStorageSearch_State0 env c).nSearchCalls = c.nSearchCalls ∧
    (DoStorageSearch_State0 env c).IndexLevel1 = (if c.dwState = 0 then 0 else c.IndexLevel1) := by
  unfold DoStorageSearch_State0
  by_cases h : c.dwState = 0
  · simp only [h, if_true]
    cases c.szListFile <;> simp [h]
  · simp only [h, if_false]
    simp

theorem State2_outcome (hs : TCascStorage) (c : TCascSearch) (fd : CASC_FIND_DATA) :
    (DoStorageSearch_State2 hs c fd).2.1.szMask = c.szMask ∧
    (DoStorageSearch_State2 hs c fd).2.1.RootSearch = c.RootSearch ∧
    (DoStorageSearch_State2 hs c fd).2.1.nSearchCalls = c.nSearchCalls ∧
    (((DoStorageSearch_State2 hs c fd).1 = false ∧
        (DoStorageSearch_State2 hs c fd).2.1.BitArray = c.BitArray ∧
        c.dwState ≤ (DoStorageSearch_State2 hs c fd).2.1.dwState ∧
        (IsUnrestrictedMask c.szMask = true → c.dwState = 2 →
          ∀ i, c.IndexLevel1 ≤ i → i < hs.CKeyMap.HashTableSize →
            NamelessCandidate hs c.BitArray i = none)) ∨
      (IsUnrestrictedMask c.szMask = true ∧ c.dwState = 2 ∧
        ∃ j e ee s, c.IndexLevel1 ≤ j ∧ j < hs.CKeyMap.HashTableSize ∧
          (∀ i, c.IndexLevel1 ≤ i → i < j → NamelessCandidate hs c.BitArray i = none) ∧
          NamelessCandidate hs c.BitArray j = some (e, ee, s) ∧
          (DoStorageSearch_State2 hs c fd).1 = true ∧
          (DoStorageSearch_State2 hs c fd).2.2 = NamelessRecord e ee ∧
          (DoStorageSearch_State2 hs c fd).2.1.dwState = 2 ∧
          (DoStorageSearch_State2 hs c fd).2.1.IndexLevel1 = j ∧
          (DoStorageSearch_State2 hs c fd).2.1.BitArray = (FileFoundBefore c s).2.BitArray)) := by
  unfold DoStorageSearch_State2
  by_cases hc : c.dwState = 2 ∧ IsUnrestrictedMask c.szMask = true
  · rw [if_pos hc]
    rcases CKey_spec hs c fd with ⟨h1, h2, h3⟩ | ⟨j, e, ee, s, h1, h2, h3, h4, h5⟩
    · rcases hres : DoStorageSearch_CKey hs c fd with ⟨b, c2, fd2⟩
      rw [hres] at h1 h2
      simp only [] at h1 h2
      subst h1
      subst h2
      simp only []
      refine ⟨(by trivial), (by trivial), (by trivial), Or.inl ⟨(by trivial), (by trivial), by omega, fun _ _ => h3⟩⟩
    · rw [h5]
      simp only []
      have hfr := FileFoundBefore_frame { c with IndexLevel1 := j } s
      refine ⟨?_, ?_, ?_, Or.inr ⟨hc.2, hc.1, j, e, ee, s, h1, h2, h3, h4, (by trivial), (by trivial),
        ?_, ?_, ?_⟩⟩
      · rw [hfr]
      · rw [hfr]
      · rw [hfr]
      · rw [hfr]; exact hc.1
      · rw [hfr]
      · unfold FileFoundBefore
        dsimp only
        split <;> rfl
  · rw [if_neg hc]
    refine ⟨(by trivial), (by trivial), (by trivial), Or.inl ⟨(by trivial), (by trivial), Nat.le_refl _, ?_⟩⟩
    intro hm hd
    exact absurd ⟨hd, hm⟩ hc

theorem NamelessStart_of_le_one (c : TCascSearch) (h : c.dwState ≤ 1) : NamelessStart c = 0 := by
  unfold NamelessStart
  rw [if_neg (by omega)]

theorem NamelessStart_of_two (c : TCascSearch) (h : c.dwState = 2) :
    NamelessStart c = c.IndexLevel1 := by
  unfold NamelessStart
  rw [if_pos h]

theorem DoStorageSearch_outcome (env : CASC_ENV) (hs : TCascStorage) (c : TCascSearch)
    (fd : CASC_FIND_DATA) :
    NameYield hs c (DoStorageSearch env hs c fd) ∨
    NamelessYield hs c (DoStorageSearch env hs c fd) ∨
    NoYield hs c (DoStorageSearch env hs c fd) := by
  obtain ⟨s0d, s0r, s0b, s0m, s0n, s0i⟩ := State0_fields env c
  have s0e : c.dwState ≠ 0 → DoStorageSearch_State0 env c = c := State0_of_ne_zero env c
  unfold DoStorageSearch DoStorageSearch_State1
  generalize DoStorageSearch_State0 env c = c1 at *
  by_cases h1 : c1.dwState = 1
  · have hle : c.dwState ≤ 1 := by
      split at s0d <;> omega
    have hst := NamelessStart_of_le_one c hle
    rw [if_pos h1, RootFile_eq]
    rcases NamePhaseCall_spec hs c1.RootSearch c1 with
      ⟨hall, heq⟩ | ⟨pre, r, post, fd2, hl, hpre, hr, heq⟩
    · rw [heq]
      simp only []
      have key := State2_outcome hs
        { c1 with RootSearch := [], nSearchCalls := c1.nSearchCalls + c1.RootSearch.length + 1,
                  IndexLevel1 := 0, dwState := c1.dwState + 1 } (ResetFindData BlankFindData)
      simp only [] at key
      obtain ⟨km, kr, kn, kcase⟩ := key
      rw [s0r] at hall
      rcases kcase with ⟨k1, k2, k3, k4⟩ | ⟨k1, k2, j, e, ee, s, k3, k4, k5, k6, k7, k8, k9, k10, k11⟩
      · right; right
        refine ⟨k1, ?_, ?_, ?_, ?_⟩
        · rw [k2, s0b]
        · rw [km, s0m]
        · intro _
          refine ⟨hall, kr, ?_, by omega⟩
          rw [kn, s0n, s0r]
        · intro hm _ i hi1 hi2
          rw [← s0b]
          exact k4 (by rw [s0m]; exact hm) (by omega) i (Nat.zero_le _) hi2
      · right; left
        rw [s0m] at k1
        rw [s0b] at k5 k6
        refine ⟨k1, by omega, fun _ => hall, j, e, ee, s, by omega, k4, ?_, k6, k7, k8, k9, k10,
          ?_, ?_⟩
        · intro i _ hi2
          exact k5 i (Nat.zero_le _) hi2
        · rw [km, s0m]
        · rw [k11]
          unfold FileFoundBefore
          dsimp only
          rw [s0b]
          split <;> rfl
    · left
      rw [heq]
      rw [s0r] at hl
      refine ⟨hle, pre, r, post, hl, hpre, hr, rfl, ?_, ?_, ?_, ?_, ?_⟩
      · simp only []
        rw [FileFoundBefore_frame]
        exact h1
      · simp only []
        rw [FileFoundBefore_frame]
      · simp only []
        rw [FileFoundBefore_frame]
        simp only []
        rw [s0n]
      · simp only []
        rw [FileFoundBefore_frame]
        exact s0m
      · simp only []
        unfold FileFoundBefore
        dsimp only
        rw [s0b]
        split <;> rfl
  · have hne : c.dwState ≠ 0 := by
      intro h0
      rw [h0] at s0d
      simp only [if_true] at s0d
      exact h1 s0d
    have hc1 := s0e hne
    subst hc1
    rw [if_neg h1]
    obtain ⟨km, kr, kn, kcase⟩ := State2_outcome hs c1 fd
    rcases kcase with ⟨k1, k2, k3, k4⟩ | ⟨k1, k2, j, e, ee, s, k3, k4, k5, k6, k7, k8, k9, k10, k11⟩
    · right; right
      refine ⟨k1, k2, km, fun h => by omega, ?_⟩
      intro hm hd i hi1 hi2
      have h2 : c1.dwState = 2 := by omega
      rw [NamelessStart_of_two c1 h2] at hi1
      exact k4 hm h2 i hi1 hi2
    · right; left
      rw [← NamelessStart_of_two c1 k2] at k3 k5
      exact ⟨k1, by omega, fun h => by omega, j, e, ee, s, k3, k4, k5, k6, k7, k8, k9, k10, km, k11⟩

/-! ### Slots of returned records -/

theorem NameRecord_slot (hs : TCascStorage) (r : ROOT_SEARCH_RESULT) (fd : CASC_FIND_DATA)
    (h : NameRecord hs r = some fd) :
    ∃ ee s, FindEKeyEntry hs fd.EKey = some (ee, s) ∧ SlotOf hs fd = some s := by
  have aux : ∀ pck key, NameRecordOf hs r pck key = some fd →
      ∃ ee s, FindEKeyEntry hs fd.EKey = some (ee, s) ∧ SlotOf hs fd = some s := by
    intro pck key hk
    cases hE : FindEKeyEntry hs key with
    | none =>
      unfold NameRecordOf at hk
      rw [hE] at hk
      exact absurd hk (by simp)
    | some p =>
      obtain ⟨ee, s⟩ := p
      obtain ⟨h1, h2⟩ := NameRecordOf_slot hs r pck key fd ee s hE hk
      exact ⟨ee, s, by rw [h1]; exact hE, h2⟩
  unfold NameRecord at h
  split at h
  · split at h
    · exact absurd h (by simp)
    · split at h
      · exact absurd h (by simp)
      · exact aux _ _ h
  · exact aux _ _ h

theorem NamelessCandidate_some (hs : TCascStorage) (B : List Nat) (j : Nat)
    (e : CASC_CKEY_ENTRY) (ee : CASC_EKEY_ENTRY) (s : Nat)
    (h : NamelessCandidate hs B j = some (e, ee, s)) :
    hs.CKeyMap.ItemAt j = some e ∧ FindEKeyEntry hs e.EKey = some (ee, s) ∧
      BitIsSet B s = false := by
  unfold NamelessCandidate at h
  cases hi : hs.CKeyMap.ItemAt j with
  | none => rw [hi] at h; exact absurd h (by simp)
  | some e2 =>
    rw [hi] at h
    simp only [] at h
    cases hE : FindEKeyEntry hs e2.EKey with
    | none => rw [hE] at h; exact absurd h (by simp)
    | some p =>
      obtain ⟨ee2, s2⟩ := p
      rw [hE] at h
      simp only [] at h
      split at h
      · exact absurd h (by simp)
      · rename_i hb
        simp only [Option.some.injEq, Prod.mk.injEq] at h
        obtain ⟨h1, h2, h3⟩ := h
        subst h1 h2 h3
        exact ⟨rfl, hE, by simpa using hb⟩

theorem NamelessCandidate_none (hs : TCascStorage) (B : List Nat) (j : Nat)
    (e : CASC_CKEY_ENTRY) (ee : CASC_EKEY_ENTRY) (s : Nat)
    (h : NamelessCandidate hs B j = none) (hi : hs.CKeyMap.ItemAt j = some e)
    (hE : FindEKeyEntry hs e.EKey = some (ee, s)) : BitIsSet B s = true := by
  unfold NamelessCandidate at h
  rw [hi] at h
  simp only [hE] at h
  split at h
  · assumption
  · exact absurd h (by simp)

/-- Every call of `DoStorageSearch` that returns a record marks the slot of that
record and leaves every other bit alone; a record of the nameless phase has a
slot that was not marked before the call. -/
theorem DoStorageSearch_yield_bits (env : CASC_ENV) (hs : TCascStorage) (c : TCascSearch)
    (fd : CASC_FIND_DATA) (hcov : BitArrayCovers hs c)
    (h : (DoStorageSearch env hs c fd).1 = true) :
    BitArrayCovers hs (DoStorageSearch env hs c fd).2.1 ∧
    ∃ s, SlotOf hs (DoStorageSearch env hs c fd).2.2 = some s ∧
      (∀ j, BitIsSet (DoStorageSearch env hs c fd).2.1.BitArray j
          = (BitIsSet c.BitArray j || decide (j = s))) ∧
      ((DoStorageSearch env hs c fd).2.1.dwState = 2 → BitIsSet c.BitArray s = false) := by
  rcases DoStorageSearch_outcome env hs c fd with hN | hK | hF
  · obtain ⟨_, pre, r, post, _, _, hr, _, hd, _, _, _, hb⟩ := hN
    obtain ⟨ee, s, hE, hs2⟩ := NameRecord_slot hs r _ hr
    rw [hs2] at hb
    simp only [Option.getD_some] at hb
    have hin := slot_in_range hs c _ ee s hcov hE
    refine ⟨?_, s, hs2, ?_, ?_⟩
    · unfold BitArrayCovers at hcov ⊢
      rw [hb, FileFoundBefore_length]
      exact hcov
    · intro j
      rw [hb]
      exact FileFoundBefore_bits c s j hin
    · intro h2
      omega
  · obtain ⟨_, _, _, j, e, ee, s, _, _, _, hcand, _, hrec, _, _, _, hb⟩ := hK
    obtain ⟨_, hE, hbit⟩ := NamelessCandidate_some hs _ j e ee s hcand
    have hin := slot_in_range hs c _ ee s hcov hE
    have hs2 : SlotOf hs (DoStorageSearch env hs c fd).2.2 = some s := by
      rw [hrec]
      exact SlotOf_of_EKey hs _ e.EKey ee s rfl hE
    refine ⟨?_, s, hs2, ?_, fun _ => hbit⟩
    · unfold BitArrayCovers at hcov ⊢
      rw [hb, FileFoundBefore_length]
      exact hcov
    · intro j2
      rw [hb]
      exact FileFoundBefore_bits c s j2 hin
  · rw [hF.1] at h
    exact absurd h (by simp)

theorem EnumRecords_dedup (env : CASC_ENV) (hs : TCascStorage) (n : Nat) :
    ∀ (c : TCascSearch) (fd : CASC_FIND_DATA), BitArrayCovers hs c →
      List.Pairwise (fun x y => y.1 = 2 → SlotOf hs x.2 ≠ SlotOf hs y.2)
        (EnumRecords env hs n c fd) ∧
      ∀ y ∈ EnumRecords env hs n c fd,
        ∃ s, SlotOf hs y.2 = some s ∧ (y.1 = 2 → BitIsSet c.BitArray s = false) := by
  induction n with
  | zero =>
    intro c fd _
    unfold EnumRecords
    exact ⟨List.Pairwise.nil, fun y hy => absurd hy (List.not_mem_nil y)⟩
  | succ n ih =>
    intro c fd hcov
    unfold EnumRecords
    rcases hres : DoStorageSearch env hs c fd with ⟨b, c2, fd2⟩
    cases b with
    | false =>
      simp only []
      exact ⟨List.Pairwise.nil, fun y hy => absurd hy (List.not_mem_nil y)⟩
    | true =>
      simp only []
      have hy := DoStorageSearch_yield_bits env hs c fd hcov (by rw [hres])
      rw [hres] at hy
      simp only [] at hy
      obtain ⟨hcov2, s, hslot, hbits, hnew⟩ := hy
      obtain ⟨ihp, ihm⟩ := ih c2 fd2 hcov2
      refine ⟨List.Pairwise.cons ?_ ihp, ?_⟩
      · intro y hy hy2
        obtain ⟨sy, hsy, hny⟩ := ihm y hy
        have hyb := hny hy2
        rw [hbits sy] at hyb
        simp only [Bool.or_eq_false_iff, decide_eq_false_iff_not] at hyb
        simp only []
        rw [hslot, hsy]
        intro heq
        exact hyb.2 (Option.some.inj heq).symm
      · intro y hy
        rcases List.mem_cons.1 hy with hy | hy
        · rw [hy]
          exact ⟨s, hslot, hnew⟩
        · obtain ⟨sy, hsy, hny⟩ := ihm y hy
          refine ⟨sy, hsy, fun h2 => ?_⟩
          have hyb := hny h2
          rw [hbits sy] at hyb
          simp only [Bool.or_eq_false_iff] at hyb
          exact hyb.1

/-! ### Termination of the enumeration -/

theorem DoStorageSearch_yield_bound (env : CASC_ENV) (hs : TCascStorage) (c : TCascSearch)
    (fd : CASC_FIND_DATA) (hcov : BitArrayCovers hs c)
    (h : (DoStorageSearch env hs c fd).1 = true) :
    EnumBound hs (DoStorageSearch env hs c fd).2.1 < EnumBound hs c := by
  rcases DoStorageSearch_outcome env hs c fd with hN | hK | hF
  · obtain ⟨hle, pre, r, post, hl, _, _, _, hd, hpost, _, _, _⟩ := hN
    unfold EnumBound
    rw [if_pos hle, if_pos (by omega), hpost, hl]
    simp only [List.length_append, List.length_cons]
    omega
  · obtain ⟨_, hle, _, j, e, ee, s, hj1, hj2, _, hcand, _, _, hd, hi, _, hb⟩ := hK
    obtain ⟨hitem, hE, hbit⟩ := NamelessCandidate_some hs _ j e ee s hcand
    have hin := slot_in_range hs c _ ee s hcov hE
    have hnone : NamelessCandidate hs (DoStorageSearch env hs c fd).2.1.BitArray j = none := by
      unfold NamelessCandidate
      rw [hitem]
      simp only [hE]
      rw [hb, FileFoundBefore_bits c s s hin]
      simp
    have hnew : EnumBound hs (DoStorageSearch env hs c fd).2.1
        = 2 * (hs.CKeyMap.HashTableSize - j) := by
      unfold EnumBound
      rw [if_neg (by omega), if_pos hd, hi, hnone]
      simp
    rw [hnew]
    unfold EnumBound
    by_cases h1 : c.dwState ≤ 1
    · rw [if_pos h1]
      omega
    · have h2 : c.dwState = 2 := by omega
      rw [if_neg h1, if_pos h2]
      rw [NamelessStart_of_two c h2] at hj1
      by_cases hje : j = c.IndexLevel1
      · rw [← hje, hcand]
        simp
      · have : c.IndexLevel1 < j := by omega
        omega
  · rw [hF.1] at h
    exact absurd h (by simp)

theorem EnumExhausted_of_bound (env : CASC_ENV) (hs : TCascStorage) (n : Nat) :
    ∀ (c : TCascSearch) (fd : CASC_FIND_DATA), BitArrayCovers hs c → EnumBound hs c < n →
      EnumExhausted env hs n c fd = true := by
  induction n with
  | zero => intro c fd _ h; omega
  | succ n ih =>
    intro c fd hcov hb
    unfold EnumExhausted
    rcases hres : DoStorageSearch env hs c fd with ⟨b, c2, fd2⟩
    cases b with
    | false => rfl
    | true =>
      simp only []
      have h1 := DoStorageSearch_yield_bound env hs c fd hcov (by rw [hres])
      have h2 := (DoStorageSearch_yield_bits env hs c fd hcov (by rw [hres])).1
      rw [hres] at h1 h2
      exact ih c2 fd2 h2 (by simp only [] at h1; omega)

/-! ### Coverage of the content-key index -/

theorem EnumRecords_cover (env : CASC_ENV) (hs : TCascStorage) (n : Nat) :
    ∀ (c : TCascSearch) (fd : CASC_FIND_DATA), BitArrayCovers hs c →
      IsUnrestrictedMask c.szMask = true → c.dwState ≤ 2 →
      EnumExhausted env hs n c fd = true →
      ∀ i e ee s, NamelessStart c ≤ i → i < hs.CKeyMap.HashTableSize →
        hs.CKeyMap.ItemAt i = some e → FindEKeyEntry hs e.EKey = some (ee, s) →
        BitIsSet c.BitArray s = true ∨
          ∃ y ∈ EnumRecords env hs n c fd, SlotOf hs y.2 = some s := by
  induction n with
  | zero =>
    intro c fd _ _ _ hex
    unfold EnumExhausted at hex
    exact absurd hex (by simp)
  | succ n ih =>
    intro c fd hcov hmask hle hex i e ee s hi1 hi2 hitem hE
    unfold EnumExhausted at hex
    unfold EnumRecords
    have hout := DoStorageSearch_outcome env hs c fd
    have hbits := DoStorageSearch_yield_bits env hs c fd hcov
    rcases hres : DoStorageSearch env hs c fd with ⟨b, c2, fd2⟩
    rw [hres] at hex hout hbits
    cases b with
    | false =>
      left
      rcases hout with hN | hK | hF
      · obtain ⟨_, pre, r, post, _, _, _, hb, _⟩ := hN
        exact absurd hb (by simp)
      · obtain ⟨_, _, _, j, e2, ee2, s2, _, _, _, _, hb, _⟩ := hK
        exact absurd hb (by simp)
      · exact NamelessCandidate_none hs _ i e ee s (hF.2.2.2.2 hmask hle i hi1 hi2) hitem hE
    | true =>
      obtain ⟨hcov2, s0, hslot, hb, _⟩ := hbits rfl
      have hcov2 : BitArrayCovers hs c2 := hcov2
      have hslot : SlotOf hs fd2 = some s0 := hslot
      have hb : ∀ j, BitIsSet c2.BitArray j = (BitIsSet c.BitArray j || decide (j = s0)) := hb
      have hex : EnumExhausted env hs n c2 fd2 = true := hex
      show _ ∨ ∃ y ∈ (c2.dwState, fd2) :: EnumRecords env hs n c2 fd2, SlotOf hs y.2 = some s
      have hfin : (BitIsSet c2.BitArray s = true ∨
          ∃ y ∈ EnumRecords env hs n c2 fd2, SlotOf hs y.2 = some s) →
          BitIsSet c.BitArray s = true ∨
            ∃ y ∈ (c2.dwState, fd2) :: EnumRecords env hs n c2 fd2, SlotOf hs y.2 = some s := by
        intro h
        rcases h with h | ⟨y, hy, hys⟩
        · rw [hb s] at h
          simp only [Bool.or_eq_true, decide_eq_true_eq] at h
          rcases h with h | h
          · exact Or.inl h
          · right
            exact ⟨(c2.dwState, fd2), List.mem_cons_self _ _, by rw [h]; exact hslot⟩
        · right
          exact ⟨y, List.mem_cons_of_mem _ hy, hys⟩
      rcases hout with hN | hK | hF
      · obtain ⟨_, pre, r, post, _, _, _, _, hd, _, _, hm, _⟩ := hN
        have hd : c2.dwState = 1 := hd
        have hm : c2.szMask = c.szMask := hm
        apply hfin
        apply ih c2 fd2 hcov2 (by rw [hm]; exact hmask) (by omega) hex i e ee s _ hi2 hitem hE
        rw [NamelessStart_of_le_one c2 (by omega)]
        exact Nat.zero_le _
      · obtain ⟨_, _, _, j, e2, ee2, s2, hj1, hj2, hskip, hcand, _, _, hd, hil, hm, _⟩ := hK
        have hd : c2.dwState = 2 := hd
        have hm : c2.szMask = c.szMask := hm
        have hil : c2.IndexLevel1 = j := hil
        by_cases hij : i < j
        · left
          exact NamelessCandidate_none hs _ i e ee s (hskip i hi1 hij) hitem hE
        · apply hfin
          apply ih c2 fd2 hcov2 (by rw [hm]; exact hmask) (by omega) hex i e ee s _ hi2 hitem hE
          rw [NamelessStart_of_two c2 hd, hil]
          omega
      · exact absurd hF.1 (by simp)

theorem ItemAt_lt {α : Type} (m : CASC_MAP α) (i : Nat) (e : α) (h : m.ItemAt i = some e) :
    i < m.HashTableSize := by
  unfold CASC_MAP.ItemAt at h
  unfold CASC_MAP.HashTableSize
  by_contra hge
  rw [List.getD_eq_getElem?_getD, List.getElem?_eq_none (by omega)] at h
  simp at h

/-! ### Cursors as `AllocateSearchHandle` builds them -/

theorem BitIsSet_replicate_zero (n j : Nat) : BitIsSet (List.replicate n 0) j = false := by
  unfold BitIsSet
  rw [List.getD_eq_getElem?_getD]
  by_cases h : j / 32 < n
  · rw [List.getElem?_replicate_of_lt h]
    simp
  · rw [List.getElem?_eq_none (by simp; omega)]
    simp

theorem AllocateSearchHandle_fresh (env : CASC_ENV) (hs hs2 : TCascStorage)
    (szListFile szMask : Option String) (c : TCascSearch)
    (h : AllocateSearchHandle env hs szListFile szMask = (some c, hs2)) :
    c.dwState = 0 ∧ c.szMask = some (szMask.getD "*") ∧
    (∀ j, BitIsSet c.BitArray j = false) ∧ BitArrayCovers hs2 c ∧
    c.RootSearch = hs.pRootHandler.SearchSequence (szMask.getD "*") szListFile ∧
    hs2 = { hs with dwRefCount := hs.dwRefCount + 1 } := by
  unfold AllocateSearchHandle at h
  dsimp only at h
  split at h
  · split at h
    · simp at h
    · split at h
      · simp at h
      · simp only [Prod.mk.injEq, Option.some.injEq] at h
        obtain ⟨h1, h2⟩ := h
        subst h1 h2
        refine ⟨rfl, ?_, ?_, ?_, ?_, rfl⟩
        · cases szMask <;> rfl
        · intro j
          exact BitIsSet_replicate_zero _ j
        · unfold BitArrayCovers
          simp only [List.length_replicate]
          omega
        · cases szMask <;> rfl
  · simp at h

/-! ### The records of the name phase -/

theorem filterMap_all_none {α β : Type} (f : α → Option β) (l : List α)
    (h : ∀ x ∈ l, f x = none) : l.filterMap f = [] := by
  induction l with
  | nil => rfl
  | cons a rest ih =>
    rw [List.filterMap_cons_none (h a (List.mem_cons_self _ _))]
    exact ih (fun x hx => h x (List.mem_cons_of_mem _ hx))

theorem EnumRecords_after_names (env : CASC_ENV) (hs : TCascStorage) (n : Nat) :
    ∀ (c : TCascSearch) (fd : CASC_FIND_DATA), 2 ≤ c.dwState →
      ∀ y ∈ EnumRecords env hs n c fd, y.1 = 2 := by
  induction n with
  | zero =>
    intro c fd _ y hy
    unfold EnumRecords at hy
    exact absurd hy (List.not_mem_nil y)
  | succ n ih =>
    intro c fd hge y hy
    unfold EnumRecords at hy
    have hout := DoStorageSearch_outcome env hs c fd
    rcases hres : DoStorageSearch env hs c fd with ⟨b, c2, fd2⟩
    rw [hres] at hy hout
    cases b with
    | false => exact absurd hy (List.not_mem_nil y)
    | true =>
      have hy : y ∈ (c2.dwState, fd2) :: EnumRecords env hs n c2 fd2 := hy
      rcases hout with hN | hK | hF
      · have := hN.1
        omega
      · obtain ⟨_, _, _, j, e2, ee2, s2, _, _, _, _, _, _, hd, _⟩ := hK
        have hd : c2.dwState = 2 := hd
        rcases List.mem_cons.1 hy with hy | hy
        · rw [hy]
          exact hd
        · exact ih c2 fd2 (by omega) y hy
      · exact absurd hF.1 (by simp)

theorem EnumRecords_names (env : CASC_ENV) (hs : TCascStorage) (n : Nat) :
    ∀ (c : TCascSearch) (fd : CASC_FIND_DATA), c.dwState ≤ 1 → c.RootSearch.length < n →
      ((EnumRecords env hs n c fd).filter (fun y => decide (y.1 = 1))).map Prod.snd
        = c.RootSearch.filterMap (NameRecord hs) := by
  induction n with
  | zero => intro c fd _ h; omega
  | succ n ih =>
    intro c fd hle hn
    unfold EnumRecords
    have hout := DoStorageSearch_outcome env hs c fd
    rcases hres : DoStorageSearch env hs c fd with ⟨b, c2, fd2⟩
    rw [hres] at hout
    cases b with
    | false =>
      simp only []
      rcases hout with hN | hK | hF
      · obtain ⟨_, pre, r, post, _, _, _, hb, _⟩ := hN
        exact absurd hb (by simp)
      · obtain ⟨_, _, _, j, e2, ee2, s2, _, _, _, _, hb, _⟩ := hK
        exact absurd hb (by simp)
      · rw [filterMap_all_none _ _ (hF.2.2.2.1 hle).1]
        rfl
    | true =>
      simp only []
      rcases hout with hN | hK | hF
      · obtain ⟨_, pre, r, post, hl, hpre, hr, _, hd, hpost, _⟩ := hN
        have hd : c2.dwState = 1 := hd
        have hpost : c2.RootSearch = post := hpost
        have hr : NameRecord hs r = some fd2 := hr
        rw [hl, List.filterMap_append, filterMap_all_none _ pre hpre,
          List.filterMap_cons_some hr, List.nil_append]
        rw [List.filter_cons_of_pos (by simp only [hd, decide_True]), List.map_cons]
        congr 1
        rw [← hpost]
        apply ih c2 fd2 (by omega)
        rw [hpost]
        rw [hl] at hn
        simp only [List.length_append, List.length_cons] at hn
        omega
      · obtain ⟨_, _, hall, j, e2, ee2, s2, _, _, _, _, _, _, hd, _⟩ := hK
        have hd : c2.dwState = 2 := hd
        rw [filterMap_all_none _ _ (hall hle)]
        rw [List.filter_cons_of_neg (by simp only [hd]; decide)]
        have hrest := EnumRecords_after_names env hs n c2 fd2 (by omega)
        rw [List.filter_eq_nil_iff.2]
        · rfl
        · intro y hy
          rw [hrest y hy]
          decide
      · exact absurd hF.1 (by simp)

theorem NameRecordOf_isSome (hs : TCascStorage) (r : ROOT_SEARCH_RESULT)
    (pck : Option CASC_CKEY_ENTRY) (key : List Nat) :
    (NameRecordOf hs r pck key).isSome = (FindEKeyEntry hs key).isSome := by
  unfold NameRecordOf
  cases FindEKeyEntry hs key <;> rfl

theorem NameRecord_isSome (hs : TCascStorage) (r : ROOT_SEARCH_RESULT) :
    (NameRecord hs r).isSome = RootResultResolves hs r := by
  unfold NameRecord RootResultResolves
  split
  · cases FindCKeyEntry hs r.pbQueryKey with
    | none => rfl
    | some e =>
      simp only []
      by_cases hz : e.EKeyCount = 0
      · simp [hz]
      · simp [hz, NameRecordOf_isSome]
  · exact NameRecordOf_isSome hs r none r.pbQueryKey

theorem SupplyFakeFileName_flags (fd : CASC_FIND_DATA) :
    (SupplyFakeFileName fd).bCanOpenByCKey = fd.bCanOpenByCKey ∧
    (SupplyFakeFileName fd).bCanOpenByEKey = fd.bCanOpenByEKey ∧
    (SupplyFakeFileName fd).bCanOpenByDataId = fd.bCanOpenByDataId ∧
    (SupplyFakeFileName fd).bCanOpenByName = fd.bCanOpenByName ∧
    (SupplyFakeFileName fd).CKey = fd.CKey ∧
    (SupplyFakeFileName fd).dwFileSize = fd.dwFileSize ∧
    (SupplyFakeFileName fd).dwFileDataId = fd.dwFileDataId := by
  unfold SupplyFakeFileName
  split
  · exact ⟨rfl, rfl, rfl, rfl, rfl, rfl, rfl⟩
  · split <;> exact ⟨rfl, rfl, rfl, rfl, rfl, rfl, rfl⟩

theorem NameRecord_byCKey (hs : TCascStorage) (r : ROOT_SEARCH_RESULT) (fd : CASC_FIND_DATA)
    (hf : hs.pRootHandler.GetFeatures &&& CASC_FEATURE_ROOT_CKEY ≠ 0)
    (h : NameRecord hs r = some fd) :
    fd.bCanOpenByCKey = true ∧ fd.CKey = r.pbQueryKey := by
  unfold NameRecord at h
  rw [if_pos hf] at h
  split at h
  · exact absurd h (by simp)
  · split at h
    · exact absurd h (by simp)
    · unfold NameRecordOf at h
      split at h
      · exact absurd h (by simp)
      · simp only [Option.some.injEq] at h
        rw [← h]
        split
        · rw [(SupplyFakeFileName_flags _).1, (SupplyFakeFileName_flags _).2.2.2.2.1]
          exact ⟨rfl, rfl⟩
        · exact ⟨rfl, rfl⟩

/-! ### Masks other than the unrestricted one -/

theorem IsUnrestrictedMask_of_ne (m : String) (h : m ≠ "*") :
    IsUnrestrictedMask (some m) = false := by
  unfold IsUnrestrictedMask
  simpa using h

theorem State2_of_restricted (hs : TCascStorage) (c : TCascSearch) (fd : CASC_FIND_DATA)
    (h : IsUnrestrictedMask c.szMask = false) :
    DoStorageSearch_State2 hs c fd = (false, c, fd) := by
  unfold DoStorageSearch_State2
  rw [if_neg]
  intro hc
  rw [h] at hc
  exact absurd hc.2 (by simp)

theorem DoStorageSearch_eq_NamesOnly (env : CASC_ENV) (hs : TCascStorage) (c : TCascSearch)
    (fd : CASC_FIND_DATA) (h : IsUnrestrictedMask c.szMask = false) :
    DoStorageSearch env hs c fd = DoStorageSearch_NamesOnly env hs c fd := by
  unfold DoStorageSearch DoStorageSearch_NamesOnly DoStorageSearch_State1
  dsimp only
  have h0 : IsUnrestrictedMask (DoStorageSearch_State0 env c).szMask = false := by
    rw [(State0_fields env c).2.2.2.1]
    exact h
  generalize DoStorageSearch_State0 env c = c1 at h0 ⊢
  split
  · have hf := (RootFile_frame hs c1 fd).2.1
    rcases hres : DoStorageSearch_RootFile hs c1 fd with ⟨b, c2, fd2⟩
    rw [hres] at hf
    have hf : c2.szMask = c1.szMask := hf
    cases b with
    | true => rfl
    | false =>
      simp only []
      apply State2_of_restricted
      simp only []
      rw [hf]
      exact h0
  · exact State2_of_restricted hs c1 fd h0

/-! ### Names and sizes of returned records -/

theorem String_ne_empty_of_length (s : String) (h : 0 < s.length) : s ≠ "" := by
  intro e
  rw [e] at h
  exact absurd h (by decide)

theorem StringFromBinary_length (pb : List Nat) (cb : Nat) :
    (StringFromBinary pb cb).length = 2 * cb := by
  unfold StringFromBinary
  show (List.flatMap (List.range cb) _).length = 2 * cb
  induction cb with
  | zero => rfl
  | succ k ih =>
    rw [List.range_succ, List.flatMap_append, List.length_append, ih]
    simp only [List.flatMap_cons, List.flatMap_nil, List.append_nil, List.length_cons,
      List.length_nil]
    omega

theorem sprintf_08X_length (dw : Nat) : (sprintf_08X dw).length = 8 := by
  unfold sprintf_08X
  show (List.map _ (List.range 8)).length = 8
  rw [List.length_map, List.length_range]

theorem IntToHexChar_mem (tbl : List Char) (h : tbl.length = 16) (n : Nat) :
    IntToHexChar tbl n ∈ tbl := by
  unfold IntToHexChar
  have hlt : n % 16 < tbl.length := by omega
  rw [List.getD_eq_getElem?_getD, List.getElem?_eq_getElem hlt, Option.getD_some]
  exact List.getElem_mem hlt

theorem sprintf_08X_digits (dw : Nat) :
    ∀ ch ∈ (sprintf_08X dw).toList, ch ∈ HexDigitsUpper := by
  intro ch hch
  unfold sprintf_08X at hch
  have hch : ch ∈ List.map (fun i => IntToHexChar HexDigitsUpper (dw % 2 ^ 32 / 16 ^ (7 - i)))
      (List.range 8) := hch
  obtain ⟨i, _, hi⟩ := List.mem_map.1 hch
  rw [← hi]
  exact IntToHexChar_mem HexDigitsUpper rfl _

theorem SupplyFakeFileName_name (fd : CASC_FIND_DATA) :
    (SupplyFakeFileName fd).szFileName ≠ "" := by
  apply String_ne_empty_of_length
  unfold SupplyFakeFileName
  split
  · show 0 < ("FILE" ++ sprintf_08X fd.dwFileDataId ++ ".dat").length
    rw [String.length_append, String.length_append, sprintf_08X_length]
    omega
  · split
    · show 0 < (StringFromBinary fd.CKey MD5_HASH_SIZE).length
      rw [StringFromBinary_length]
      decide
    · show 0 < (StringFromBinary fd.EKey MD5_HASH_SIZE).length
      rw [StringFromBinary_length]
      decide

theorem NameOrFake_fields (name : String) (named : CASC_FIND_DATA) (key : List Nat) (sz : Nat)
    (h1 : named.szFileName = name) (h2 : named.EKey = key) (h3 : named.bCanOpenByEKey = true)
    (h4 : named.dwFileSize = sz) :
    (if name = "" then SupplyFakeFileName named else named).EKey = key ∧
    (if name = "" then SupplyFakeFileName named else named).bCanOpenByEKey = true ∧
    (if name = "" then SupplyFakeFileName named else named).szFileName ≠ "" ∧
    (if name = "" then SupplyFakeFileName named else named).dwFileSize = sz := by
  by_cases hn : name = ""
  · simp only [hn, if_true]
    rw [SupplyFakeFileName_EKey, (SupplyFakeFileName_flags _).2.1,
      (SupplyFakeFileName_flags _).2.2.2.2.2.1]
    exact ⟨h2, h3, SupplyFakeFileName_name _, h4⟩
  · simp only [hn, if_false]
    exact ⟨h2, h3, by rw [h1]; exact hn, h4⟩

theorem NameRecordOf_fields (hs : TCascStorage) (r : ROOT_SEARCH_RESULT)
    (pck : Option CASC_CKEY_ENTRY) (key : List Nat) (rec : CASC_FIND_DATA)
    (h : NameRecordOf hs r pck key = some rec) :
    ∃ ee s, FindEKeyEntry hs key = some (ee, s) ∧ rec.EKey = key ∧
      rec.bCanOpenByEKey = true ∧ rec.szFileName ≠ "" ∧
      rec.dwFileSize =
        (if r.dwFileSize = CASC_INVALID_SIZE then
          (pck.map fun e => ConvertBytesToInteger_4 e.ContentSize).getD ee.EncodedSize
         else r.dwFileSize) := by
  unfold NameRecordOf at h
  cases hE : FindEKeyEntry hs key with
  | none =>
    rw [hE] at h
    exact absurd h (by simp)
  | some p =>
    obtain ⟨ee, s⟩ := p
    rw [hE] at h
    simp only [Option.some.injEq] at h
    refine ⟨ee, s, rfl, ?_⟩
    clear hE
    subst h
    cases pck <;> exact NameOrFake_fields r.szFileName _ key _ rfl rfl rfl rfl

theorem NameRecord_fields (hs : TCascStorage) (r : ROOT_SEARCH_RESULT) (rec : CASC_FIND_DATA)
    (h : NameRecord hs r = some rec) :
    rec.bCanOpenByEKey = true ∧ rec.szFileName ≠ "" ∧
    ∃ ee s, FindEKeyEntry hs rec.EKey = some (ee, s) ∧
      (r.dwFileSize ≠ CASC_INVALID_SIZE → rec.dwFileSize = r.dwFileSize) ∧
      (r.dwFileSize = CASC_INVALID_SIZE →
        (hs.pRootHandler.GetFeatures &&& CASC_FEATURE_ROOT_CKEY ≠ 0 →
          ∃ e, FindCKeyEntry hs r.pbQueryKey = some e ∧
            rec.dwFileSize = ConvertBytesToInteger_4 e.ContentSize) ∧
        (hs.pRootHandler.GetFeatures &&& CASC_FEATURE_ROOT_CKEY = 0 →
          rec.dwFileSize = ee.EncodedSize)) := by
  unfold NameRecord at h
  by_cases hf : hs.pRootHandler.GetFeatures &&& CASC_FEATURE_ROOT_CKEY ≠ 0
  · rw [if_pos hf] at h
    cases hck : FindCKeyEntry hs r.pbQueryKey with
    | none =>
      rw [hck] at h
      exact absurd h (by simp)
    | some e =>
      rw [hck] at h
      simp only [] at h
      split at h
      · exact absurd h (by simp)
      · obtain ⟨ee, s, hE, hk, hb, hn, hsz⟩ := NameRecordOf_fields hs r _ _ rec h
        refine ⟨hb, hn, ee, s, by rw [hk]; exact hE, ?_, ?_⟩
        · intro hne
          rw [hsz, if_neg hne]
        · intro heq
          refine ⟨fun _ => ⟨e, rfl, ?_⟩, fun h0 => absurd h0 hf⟩
          rw [hsz, if_pos heq]
          rfl
  · rw [if_neg hf] at h
    obtain ⟨ee, s, hE, hk, hb, hn, hsz⟩ := NameRecordOf_fields hs r _ _ rec h
    refine ⟨hb, hn, ee, s, by rw [hk]; exact hE, ?_, ?_⟩
    · intro hne
      rw [hsz, if_neg hne]
    · intro heq
      refine ⟨fun h1 => absurd h1 hf, fun _ => ?_⟩
      rw [hsz, if_pos heq]
      rfl

/-! ### C1 -/

/-- C1. Terminal-state idempotence: once a call of `DoStorageSearch` (the body of
`CascFindNextFile`) has returned `false`, every later call on that cursor, whatever
record it is given, returns `false` and leaves the cursor exactly as it was; in
particular the counter of root-handler `Search` invocations never moves again. -/
theorem C1_terminal_state_idempotent (env : CASC_ENV) (hs : TCascStorage) (c : TCascSearch)
    (fd : CASC_FIND_DATA) (h : (DoStorageSearch env hs c fd).1 = false)
    (fds : List CASC_FIND_DATA) :
    (DoStorageSearch_calls env hs fds (DoStorageSearch env hs c fd).2.1).1
        = List.replicate fds.length false ∧
    (DoStorageSearch_calls env hs fds (DoStorageSearch env hs c fd).2.1).2
        = (DoStorageSearch env hs c fd).2.1 ∧
    (DoStorageSearch_calls env hs fds (DoStorageSearch env hs c fd).2.1).2.nSearchCalls
        = (DoStorageSearch env hs c fd).2.1.nSearchCalls := by
  have he := DoStorageSearch_false_ended env hs c fd h
  rw [DoStorageSearch_calls_ended env hs _ he fds]
  exact ⟨rfl, rfl, rfl⟩

/-- Witness of C1: on a cursor with the mask `x*` whose root results are all
consumed the next call returns `false`, and so do two more. -/
theorem C1_terminal_state_idempotent_witness :
    (DoStorageSearch sampleEnv sampleStorage
        { sampleCursor "x*" with RootSearch := [], dwState := 1 } sampleFindData).1 = false ∧
    (DoStorageSearch_calls sampleEnv sampleStorage [sampleFindData, sampleFindData]
        (DoStorageSearch sampleEnv sampleStorage
          { sampleCursor "x*" with RootSearch := [], dwState := 1 } sampleFindData).2.1).1
      = [false, false] :=
  ⟨by decide,
   (C1_terminal_state_idempotent sampleEnv sampleStorage
      { sampleCursor "x*" with RootSearch := [], dwState := 1 } sampleFindData (by decide)
      [sampleFindData, sampleFindData]).1⟩

/-! ### C2 -/

/-- C2. Coverage: for every storage and every (finite) root-handler sequence, a
cursor with the mask `*` that has returned nothing yet (state 0 or 1, bit array
all zero and as long as the encoded-key index needs) reaches the call that
returns `false` within the given number of calls; and whenever the enumeration
has run to that call, every occupied ordinal `i` of the content-key index whose
entry's encoded key resolves in the encoded-key index to the slot `s` has a
returned record (of either phase) whose encoded key resolves to `s`. -/
theorem C2_unrestricted_enumeration_covers (env : CASC_ENV) (hs : TCascStorage)
    (c : TCascSearch) (fd : CASC_FIND_DATA)
    (hmask : c.szMask = some "*") (hstate : c.dwState ≤ 1)
    (hzero : ∀ j, BitIsSet c.BitArray j = false) (hcov : BitArrayCovers hs c) :
    EnumExhausted env hs (c.RootSearch.length + 2 * hs.CKeyMap.HashTableSize + 3) c fd = true ∧
    ∀ n, EnumExhausted env hs n c fd = true →
      ∀ i e ee s, hs.CKeyMap.ItemAt i = some e → FindEKeyEntry hs e.EKey = some (ee, s) →
        ∃ y ∈ EnumRecords env hs n c fd, SlotOf hs y.2 = some s := by
  constructor
  · apply EnumExhausted_of_bound env hs _ c fd hcov
    unfold EnumBound
    rw [if_pos hstate]
    omega
  · intro n hex i e ee s hitem hE
    have hm : IsUnrestrictedMask c.szMask = true := by rw [hmask]; rfl
    rcases EnumRecords_cover env hs n c fd hcov hm (by omega) hex i e ee s
        (by rw [NamelessStart_of_le_one c hstate]; exact Nat.zero_le _)
        (ItemAt_lt _ i e hitem) hitem hE with h | h
    · rw [hzero s] at h
      exact absurd h (by simp)
    · exact h

/-- Witness of C2: on the sample storage the enumeration with the mask `*` ends
within 12 calls, and the entry at ordinal 2, which no root result names and
whose encoded key resolves to slot 2, is among the returned records. -/
theorem C2_unrestricted_enumeration_covers_witness :
    ((sampleCursor "*").szMask = some "*" ∧ (sampleCursor "*").dwState ≤ 1) ∧
    EnumExhausted sampleEnv sampleStorage 12 (sampleCursor "*") sampleFindData = true ∧
    ∃ y ∈ EnumRecords sampleEnv sampleStorage 12 (sampleCursor "*") sampleFindData,
      SlotOf sampleStorage y.2 = some 2 :=
  ⟨⟨rfl, by decide⟩,
   (C2_unrestricted_enumeration_covers sampleEnv sampleStorage (sampleCursor "*")
      sampleFindData rfl (by decide) (BitIsSet_replicate_zero 1)
      (by unfold BitArrayCovers; decide)).1,
   (C2_unrestricted_enumeration_covers sampleEnv sampleStorage (sampleCursor "*")
      sampleFindData rfl (by decide) (BitIsSet_replicate_zero 1)
      (by unfold BitArrayCovers; decide)).2 12 (by decide) 2
      { EKeyCount := 1, ContentSize := [0, 0, 0, 5], CKey := sampleKey 2, EKey := sampleKey 12 }
      { EKey := sampleKey 12, EncodedSize := 200, TagBitMask := 0 } 2 (by decide) (by decide)⟩

/-! ### C3 -/

/-- C3. Nameless-phase deduplication: over the records one cursor returns (any
number `n` of calls, any cursor whose bit array has a bit for every slot of the
encoded-key index), every record resolves to a slot, and a record of the
nameless phase (returned with `dwState = 2`) never has the slot of a record
returned before it, be that one of the name phase or of the nameless phase. -/
theorem C3_nameless_phase_dedup (env : CASC_ENV) (hs : TCascStorage) (c : TCascSearch)
    (fd : CASC_FIND_DATA) (n : Nat) (hcov : BitArrayCovers hs c) :
    List.Pairwise (fun x y => y.1 = 2 → SlotOf hs x.2 ≠ SlotOf hs y.2)
      (EnumRecords env hs n c fd) ∧
    ∀ y ∈ EnumRecords env hs n c fd, ∃ s, SlotOf hs y.2 = some s := by
  obtain ⟨h1, h2⟩ := EnumRecords_dedup env hs n c fd hcov
  refine ⟨h1, fun y hy => ?_⟩
  obtain ⟨s, hs1, _⟩ := h2 y hy
  exact ⟨s, hs1⟩

/-- Witness of C3: the sample enumeration, which returns two records of the name
phase (both for slot 1) and one of the nameless phase (slot 2). -/
theorem C3_nameless_phase_dedup_witness :
    BitArrayCovers sampleStorage (sampleCursor "*") ∧
    (EnumRecords sampleEnv sampleStorage 12 (sampleCursor "*") sampleFindData).map
        (fun y => (y.1, SlotOf sampleStorage y.2)) = [(1, some 1), (1, some 1), (2, some 2)] ∧
    List.Pairwise (fun x y => y.1 = 2 → SlotOf sampleStorage x.2 ≠ SlotOf sampleStorage y.2)
      (EnumRecords sampleEnv sampleStorage 12 (sampleCursor "*") sampleFindData) :=
  ⟨by unfold BitArrayCovers; decide, by decide,
   (C3_nameless_phase_dedup sampleEnv sampleStorage (sampleCursor "*") sampleFindData 12
      (by unfold BitArrayCovers; decide)).1⟩

/-! ### C4 -/

/-- C4. Name-phase filtering without deduplication: the records a cursor returns
in state 1 are, in order and with repeats kept, the records of the pending root
results whose key resolves (`NameRecord` gives a record exactly when
`RootResultResolves`); a result that does not resolve is passed over and the
later ones still come.  With a content-key root every such record has
`bCanOpenByCKey` set and carries the key of its root result.  Nothing is
assumed about the dedup bit array. -/
theorem C4_name_phase_keeps_duplicates (env : CASC_ENV) (hs : TCascStorage) (c : TCascSearch)
    (fd : CASC_FIND_DATA) (n : Nat) (hstate : c.dwState ≤ 1) (hn : c.RootSearch.length < n) :
    ((EnumRecords env hs n c fd).filter (fun y => decide (y.1 = 1))).map Prod.snd
        = c.RootSearch.filterMap (NameRecord hs) ∧
    (∀ r, (NameRecord hs r).isSome = RootResultResolves hs r) ∧
    (hs.pRootHandler.GetFeatures &&& CASC_FEATURE_ROOT_CKEY ≠ 0 →
      ∀ r rec, NameRecord hs r = some rec →
        rec.bCanOpenByCKey = true ∧ rec.CKey = r.pbQueryKey) :=
  ⟨EnumRecords_names env hs n c fd hstate hn, NameRecord_isSome hs,
   fun hf r rec h => NameRecord_byCKey hs r rec hf h⟩

/-- Witness of C4: the sample root handler yields the paths `a\b.txt`, `stale` and
`c.txt`; the first and the third name the content key `1`, the second does not
resolve.  Both paths of key `1` are returned, each openable by content key. -/
theorem C4_name_phase_keeps_duplicates_witness :
    ((sampleCursor "*").dwState ≤ 1 ∧ (sampleCursor "*").RootSearch.length < 12) ∧
    (((EnumRecords sampleEnv sampleStorage 12 (sampleCursor "*") sampleFindData).filter
        (fun y => decide (y.1 = 1))).map Prod.snd
      = (sampleCursor "*").RootSearch.filterMap (NameRecord sampleStorage)) ∧
    ((sampleCursor "*").RootSearch.filterMap (NameRecord sampleStorage)).map
        (fun rec => (rec.szFileName, rec.CKey, rec.bCanOpenByCKey))
      = [("a\\b.txt", sampleKey 1, true), ("c.txt", sampleKey 1, true)] :=
  ⟨⟨by decide, by decide⟩,
   (C4_name_phase_keeps_duplicates sampleEnv sampleStorage (sampleCursor "*") sampleFindData 12
      (by decide) (by decide)).1,
   by decide⟩

/-! ### C5 -/

/-- C5. Mask gating of the nameless phase: on a cursor whose mask is a string
other than `*`, a call of `DoStorageSearch` does what the function without its
block "State 2" does, so the content-key index is never walked; a record it
returns is the record of one of the pending root results and leaves the cursor
in state 1; and the call in which the root handler signals exhaustion (the
call that invokes `Search` once more than there are pending results) returns
`false`, which is also the only way a call in state 0 or 1 returns `false`; the
cursor is left in state 2. -/
theorem C5_restricted_mask_never_walks_index (env : CASC_ENV) (hs : TCascStorage)
    (c : TCascSearch) (fd : CASC_FIND_DATA) (m : String)
    (hmask : c.szMask = some m) (hm : m ≠ "*") :
    DoStorageSearch env hs c fd = DoStorageSearch_NamesOnly env hs c fd ∧
    ((DoStorageSearch env hs c fd).1 = true →
      (DoStorageSearch env hs c fd).2.1.dwState = 1 ∧
      ∃ r ∈ c.RootSearch, NameRecord hs r = some (DoStorageSearch env hs c fd).2.2) ∧
    ((DoStorageSearch env hs c fd).2.1.nSearchCalls
        = c.nSearchCalls + c.RootSearch.length + 1 →
      (DoStorageSearch env hs c fd).1 = false) ∧
    (c.dwState ≤ 1 → (DoStorageSearch env hs c fd).1 = false →
      (DoStorageSearch env hs c fd).2.1.nSearchCalls
        = c.nSearchCalls + c.RootSearch.length + 1 ∧
      (DoStorageSearch env hs c fd).2.1.dwState = 2) := by
  have hr : IsUnrestrictedMask c.szMask = false := by
    rw [hmask]
    exact IsUnrestrictedMask_of_ne m hm
  refine ⟨DoStorageSearch_eq_NamesOnly env hs c fd hr, ?_, ?_, ?_⟩
  · intro ht
    rcases DoStorageSearch_outcome env hs c fd with hN | hK | hF
    · obtain ⟨_, pre, r, post, hl, _, hrec, _, hd, _⟩ := hN
      refine ⟨hd, r, ?_, hrec⟩
      rw [hl]
      simp
    · have hu := hK.1
      rw [hr] at hu
      exact absurd hu (by simp)
    · rw [hF.1] at ht
      exact absurd ht (by simp)
  · intro hcalls
    rcases DoStorageSearch_outcome env hs c fd with hN | hK | hF
    · obtain ⟨_, pre, r, post, hl, _, _, _, _, _, hcnt, _⟩ := hN
      rw [hcnt, hl] at hcalls
      simp only [List.length_append, List.length_cons] at hcalls
      omega
    · have hu := hK.1
      rw [hr] at hu
      exact absurd hu (by simp)
    · exact hF.1
  · intro hle hfalse
    have hended := DoStorageSearch_false_ended env hs c fd hfalse
    rcases DoStorageSearch_outcome env hs c fd with hN | hK | hF
    · obtain ⟨_, pre, r, post, _, _, _, ht, _⟩ := hN
      rw [hfalse] at ht
      exact absurd ht (by simp)
    · obtain ⟨_, _, _, j, e, ee, s, _, _, _, _, ht, _⟩ := hK
      rw [hfalse] at ht
      exact absurd ht (by simp)
    · obtain ⟨_, _, hm, hn, _⟩ := hF
      obtain ⟨_, _, hcnt, hge⟩ := hn hle
      refine ⟨hcnt, ?_⟩
      rw [DoStorageSearch_eq_NamesOnly env hs c fd hr] at hge ⊢
      unfold DoStorageSearch_NamesOnly at hge ⊢
      dsimp only at hge ⊢
      have h0 := (State0_fields env c).1
      have h1 : (DoStorageSearch_State0 env c).dwState = 1 := by
        rw [h0]
        split <;> omega
      rw [if_pos h1] at hge ⊢
      have hfr := (RootFile_frame hs (DoStorageSearch_State0 env c) fd).1
      rcases hres : DoStorageSearch_RootFile hs (DoStorageSearch_State0 env c) fd with
        ⟨b, c2, fd2⟩
      rw [hres] at hfr
      have hfr : c2.dwState = (DoStorageSearch_State0 env c).dwState := hfr
      cases b with
      | true =>
        show c2.dwState = 2
        rw [hres] at hge
        have hge : 2 ≤ c2.dwState := hge
        omega
      | false =>
        show c2.dwState + 1 = 2
        omega

/-- Witness of C5: the sample cursor with the mask `x*`.  Its first call returns
the record of the first root result; once the root results are consumed the
call returns `false` although ordinal 2 of the content-key index was never
returned. -/
theorem C5_restricted_mask_never_walks_index_witness :
    ((sampleCursor "x*").szMask = some "x*" ∧ "x*" ≠ "*") ∧
    (DoStorageSearch sampleEnv sampleStorage (sampleCursor "x*") sampleFindData).2.1.dwState = 1 ∧
    (EnumRecords sampleEnv sampleStorage 12 (sampleCursor "x*") sampleFindData).map Prod.fst
      = [1, 1] ∧
    EnumExhausted sampleEnv sampleStorage 3 (sampleCursor "x*") sampleFindData = true :=
  ⟨⟨rfl, by decide⟩,
   ((C5_restricted_mask_never_walks_index sampleEnv sampleStorage (sampleCursor "x*")
      sampleFindData "x*" rfl (by decide)).2.1 (by decide)).1,
   by decide, by decide⟩

/-! ### C6 -/

/-- C6 (the code departs from the claim).  On `orphanStorage` the content entry of
the key `3` has `EKeyCount = 0`.  The name phase would discard a root result
for that key, but the nameless phase never reads `EKeyCount`: the first call
of `DoStorageSearch`, and so `CascFindFirstFile`, returns in state 2 a record
that carries the content key of the orphaned entry. -/
theorem C6_orphan_entry_returned_by_nameless_phase :
    (FindCKeyEntry orphanStorage (sampleKey 3)).map CASC_CKEY_ENTRY.EKeyCount = some 0 ∧
    NameRecord orphanStorage (sampleNamed (sampleKey 3) "orphan.txt") = none ∧
    AllocateSearchHandle sampleEnv orphanStorage none (some "*")
      = (some orphanCursor, { orphanStorage with dwRefCount := 2 }) ∧
    (DoStorageSearch sampleEnv orphanStorage orphanCursor sampleFindData).1 = true ∧
    (DoStorageSearch sampleEnv orphanStorage orphanCursor sampleFindData).2.1.dwState = 2 ∧
    (DoStorageSearch sampleEnv orphanStorage orphanCursor sampleFindData).2.2.CKey
      = sampleKey 3 ∧
    (DoStorageSearch sampleEnv orphanStorage orphanCursor sampleFindData).2.2.bCanOpenByCKey
      = true ∧
    (CascFindFirstFile sampleEnv ERROR_SUCCESS (some orphanStorage) (some "*")
        (some sampleFindData) none).hFind.map TCascSearch.dwState = some 2 ∧
    (CascFindFirstFile sampleEnv ERROR_SUCCESS (some orphanStorage) (some "*")
        (some sampleFindData) none).pFindData.map (fun rec => (rec.CKey, rec.bCanOpenByCKey))
      = some (sampleKey 3, true) := by
  refine ⟨by decide, by decide, rfl, by decide, by decide, by decide, by decide, by decide,
    by decide⟩

/-! ### C7 -/

theorem NameRecord_size (hs : TCascStorage) (r : ROOT_SEARCH_RESULT) (rec : CASC_FIND_DATA)
    (h : NameRecord hs r = some rec) :
    (r.dwFileSize ≠ CASC_INVALID_SIZE → rec.dwFileSize = r.dwFileSize) ∧
    (hs.pRootHandler.GetFeatures &&& CASC_FEATURE_ROOT_CKEY ≠ 0 →
      ∃ e ee s, FindCKeyEntry hs r.pbQueryKey = some e ∧ e.EKeyCount ≠ 0 ∧
        FindEKeyEntry hs e.EKey = some (ee, s) ∧ rec.EKey = e.EKey ∧
        (r.dwFileSize = CASC_INVALID_SIZE →
          rec.dwFileSize = ConvertBytesToInteger_4 e.ContentSize)) ∧
    (hs.pRootHandler.GetFeatures &&& CASC_FEATURE_ROOT_CKEY = 0 →
      ∃ ee s, FindEKeyEntry hs r.pbQueryKey = some (ee, s) ∧ rec.EKey = r.pbQueryKey ∧
        (r.dwFileSize = CASC_INVALID_SIZE → rec.dwFileSize = ee.EncodedSize)) := by
  unfold NameRecord at h
  by_cases hf : hs.pRootHandler.GetFeatures &&& CASC_FEATURE_ROOT_CKEY ≠ 0
  · rw [if_pos hf] at h
    cases hck : FindCKeyEntry hs r.pbQueryKey with
    | none =>
      rw [hck] at h
      exact absurd h (by simp)
    | some e =>
      rw [hck] at h
      simp only [] at h
      by_cases hz : e.EKeyCount = 0
      · rw [if_pos hz] at h
        exact absurd h (by simp)
      · rw [if_neg hz] at h
        obtain ⟨ee, s, hE, hk, _, _, hsz⟩ := NameRecordOf_fields hs r (some e) e.EKey rec h
        refine ⟨?_, ?_, fun h0 => absurd h0 hf⟩
        · intro hne
          rw [hsz, if_neg hne]
        · intro _
          refine ⟨e, ee, s, rfl, hz, hE, hk, ?_⟩
          intro heq
          rw [hsz, if_pos heq]
          rfl
  · rw [if_neg hf] at h
    obtain ⟨ee, s, hE, hk, _, _, hsz⟩ := NameRecordOf_fields hs r none r.pbQueryKey rec h
    refine ⟨?_, fun h0 => absurd h0 hf, ?_⟩
    · intro hne
      rw [hsz, if_neg hne]
    · intro _
      refine ⟨ee, s, hE, hk, ?_⟩
      intro heq
      rw [hsz, if_pos heq]
      rfl

/-- C7. Size priority in the name phase: a call of `DoStorageSearch_RootFile` that
returns a record consumes the pending root results up to and including the
first one that resolves, `r` (the results `pre` before it do not resolve and
are discarded, the results `post` after it stay pending), and the record is
that of `r`.  Its `dwFileSize` is the size `r` supplies when that is not
`CASC_INVALID_SIZE`.  Otherwise, when the root yields content keys, the content
entry of the key of `r` and the encoded entry of its encoded key are both
known and the size is the content size of the content entry; when the root
yields encoded keys, no content entry is known and the size is the encoded
size of the encoded entry of the key of `r`. -/
theorem C7_name_phase_size_priority (hs : TCascStorage) (c : TCascSearch)
    (fd : CASC_FIND_DATA) (h : (DoStorageSearch_RootFile hs c fd).1 = true) :
    ∃ pre r post,
      c.RootSearch = pre ++ r :: post ∧
      (∀ x ∈ pre, RootResultResolves hs x = false) ∧
      RootResultResolves hs r = true ∧
      (DoStorageSearch_RootFile hs c fd).2.1.RootSearch = post ∧
      (DoStorageSearch_RootFile hs c fd).2.1.nSearchCalls = c.nSearchCalls + pre.length + 1 ∧
      NameRecord hs r = some (DoStorageSearch_RootFile hs c fd).2.2 ∧
      (r.dwFileSize ≠ CASC_INVALID_SIZE →
        (DoStorageSearch_RootFile hs c fd).2.2.dwFileSize = r.dwFileSize) ∧
      (hs.pRootHandler.GetFeatures &&& CASC_FEATURE_ROOT_CKEY ≠ 0 →
        ∃ e ee s, FindCKeyEntry hs r.pbQueryKey = some e ∧ e.EKeyCount ≠ 0 ∧
          FindEKeyEntry hs e.EKey = some (ee, s) ∧
          (DoStorageSearch_RootFile hs c fd).2.2.EKey = e.EKey ∧
          (r.dwFileSize = CASC_INVALID_SIZE →
            (DoStorageSearch_RootFile hs c fd).2.2.dwFileSize
              = ConvertBytesToInteger_4 e.ContentSize)) ∧
      (hs.pRootHandler.GetFeatures &&& CASC_FEATURE_ROOT_CKEY = 0 →
        ∃ ee s, FindEKeyEntry hs r.pbQueryKey = some (ee, s) ∧
          (DoStorageSearch_RootFile hs c fd).2.2.EKey = r.pbQueryKey ∧
          (r.dwFileSize = CASC_INVALID_SIZE →
            (DoStorageSearch_RootFile hs c fd).2.2.dwFileSize = ee.EncodedSize)) := by
  rw [RootFile_eq] at h ⊢
  rcases NamePhaseCall_spec hs c.RootSearch c with
    ⟨_, heq⟩ | ⟨pre, r, post, rec, hl, hpre, hr, heq⟩
  · rw [heq] at h
    exact absurd h (by simp)
  · rw [heq]
    obtain ⟨h1, h2, h3⟩ := NameRecord_size hs r rec hr
    refine ⟨pre, r, post, hl, ?_, ?_, ?_, ?_, hr, h1, h2, h3⟩
    · intro x hx
      rw [← NameRecord_isSome, hpre x hx]
      rfl
    · rw [← NameRecord_isSome, hr]
      rfl
    · dsimp only
      rw [FileFoundBefore_frame]
    · dsimp only
      rw [FileFoundBefore_frame]

/-- Witness of C7: the first pending result of `sizeCursor` supplies the size `777`
but does not resolve; the second supplies no size, and its content entry and
encoded entry are both known (content size `0x100`, encoded size `100`): the
call returns the content size `0x100` and leaves the third result pending.  The
next call returns the size `555` the third result supplies. -/
theorem C7_name_phase_size_priority_witness :
    (DoStorageSearch_RootFile sizeStorage sizeCursor sampleFindData).1 = true ∧
    (DoStorageSearch_RootFile sizeStorage sizeCursor sampleFindData).2.2.dwFileSize = 0x100 ∧
    (DoStorageSearch_RootFile sizeStorage
      (DoStorageSearch_RootFile sizeStorage sizeCursor sampleFindData).2.1
      sampleFindData).2.2.dwFileSize = 555 ∧
    ∃ pre r post,
      sizeCursor.RootSearch = pre ++ r :: post ∧
      (∀ x ∈ pre, RootResultResolves sizeStorage x = false) ∧
      RootResultResolves sizeStorage r = true ∧
      (DoStorageSearch_RootFile sizeStorage sizeCursor sampleFindData).2.1.RootSearch = post ∧
      (DoStorageSearch_RootFile sizeStorage sizeCursor sampleFindData).2.1.nSearchCalls
        = sizeCursor.nSearchCalls + pre.length + 1 ∧
      NameRecord sizeStorage r
        = some (DoStorageSearch_RootFile sizeStorage sizeCursor sampleFindData).2.2 ∧
      (r.dwFileSize ≠ CASC_INVALID_SIZE →
        (DoStorageSearch_RootFile sizeStorage sizeCursor sampleFindData).2.2.dwFileSize
          = r.dwFileSize) ∧
      (sizeStorage.pRootHandler.GetFeatures &&& CASC_FEATURE_ROOT_CKEY ≠ 0 →
        ∃ e ee s, FindCKeyEntry sizeStorage r.pbQueryKey = some e ∧ e.EKeyCount ≠ 0 ∧
          FindEKeyEntry sizeStorage e.EKey = some (ee, s) ∧
          (DoStorageSearch_RootFile sizeStorage sizeCursor sampleFindData).2.2.EKey = e.EKey ∧
          (r.dwFileSize = CASC_INVALID_SIZE →
            (DoStorageSearch_RootFile sizeStorage sizeCursor sampleFindData).2.2.dwFileSize
              = ConvertBytesToInteger_4 e.ContentSize)) ∧
      (sizeStorage.pRootHandler.GetFeatures &&& CASC_FEATURE_ROOT_CKEY = 0 →
        ∃ ee s, FindEKeyEntry sizeStorage r.pbQueryKey = some (ee, s) ∧
          (DoStorageSearch_RootFile sizeStorage sizeCursor sampleFindData).2.2.EKey
            = r.pbQueryKey ∧
          (r.dwFileSize = CASC_INVALID_SIZE →
            (DoStorageSearch_RootFile sizeStorage sizeCursor sampleFindData).2.2.dwFileSize
              = ee.EncodedSize)) :=
  ⟨by decide, by decide, by decide,
   C7_name_phase_size_priority sizeStorage sizeCursor sampleFindData (by decide)⟩

/-! ### C8 -/

/-- C8. Fake-name priority: `SupplyFakeFileName` names a record `FILE` + the eight
upper-case hex digits of `dwFileDataId` + `.dat` with `CascNameDataId` when
`bCanOpenByDataId` is set; else the hex rendering of the 16 bytes of `CKey` with
`CascNameCKey` when `bCanOpenByCKey` is set; else the hex rendering of the 16
bytes of `EKey` with `CascNameEKey`.  Nothing else of the record changes, the
id is rendered with exactly 8 digits out of `0123456789ABCDEF` and a key with
exactly 32, and name and name type are determined by the two flags, the id and
the two keys. -/
theorem C8_fake_name_priority (fd : CASC_FIND_DATA) :
    (fd.bCanOpenByDataId = true →
      SupplyFakeFileName fd =
        { fd with szFileName := "FILE" ++ sprintf_08X fd.dwFileDataId ++ ".dat"
                  NameType := CASC_NAME_TYPE.CascNameDataId }) ∧
    (fd.bCanOpenByDataId = false → fd.bCanOpenByCKey = true →
      SupplyFakeFileName fd =
        { fd with szFileName := StringFromBinary fd.CKey MD5_HASH_SIZE
                  NameType := CASC_NAME_TYPE.CascNameCKey }) ∧
    (fd.bCanOpenByDataId = false → fd.bCanOpenByCKey = false →
      SupplyFakeFileName fd =
        { fd with szFileName := StringFromBinary fd.EKey MD5_HASH_SIZE
                  NameType := CASC_NAME_TYPE.CascNameEKey }) ∧
    (sprintf_08X fd.dwFileDataId).length = 8 ∧
    (∀ ch ∈ (sprintf_08X fd.dwFileDataId).toList, ch ∈ "0123456789ABCDEF".toList) ∧
    (StringFromBinary fd.CKey MD5_HASH_SIZE).length = 32 ∧
    (StringFromBinary fd.EKey MD5_HASH_SIZE).length = 32 ∧
    (∀ fd2 : CASC_FIND_DATA, fd2.bCanOpenByDataId = fd.bCanOpenByDataId →
      fd2.bCanOpenByCKey = fd.bCanOpenByCKey → fd2.dwFileDataId = fd.dwFileDataId →
      fd2.CKey = fd.CKey → fd2.EKey = fd.EKey →
      (SupplyFakeFileName fd2).szFileName = (SupplyFakeFileName fd).szFileName ∧
      (SupplyFakeFileName fd2).NameType = (SupplyFakeFileName fd).NameType) := by
  refine ⟨?_, ?_, ?_, sprintf_08X_length _, sprintf_08X_digits _, StringFromBinary_length _ _,
    StringFromBinary_length _ _, ?_⟩
  · intro h
    unfold SupplyFakeFileName
    rw [if_pos h]
  · intro h1 h2
    unfold SupplyFakeFileName
    rw [if_neg (by simp [h1]), if_pos h2]
  · intro h1 h2
    unfold SupplyFakeFileName
    rw [if_neg (by simp [h1]), if_neg (by simp [h2])]
  · intro fd2 h1 h2 h3 h4 h5
    unfold SupplyFakeFileName
    rw [h1, h2, h3, h4, h5]
    split
    · exact ⟨rfl, rfl⟩
    · split <;> exact ⟨rfl, rfl⟩

/-- Witness of C8: the id `0xABC` is rendered as `FILE00000ABC.dat`; a record
that can only be opened by content key is named by the 32 hex digits of the
key. -/
theorem C8_fake_name_priority_witness :
    sampleIdRecord.bCanOpenByDataId = true ∧
    (SupplyFakeFileName sampleIdRecord).szFileName = "FILE00000ABC.dat" ∧
    (SupplyFakeFileName sampleIdRecord).NameType = CASC_NAME_TYPE.CascNameDataId ∧
    (SupplyFakeFileName
        { sampleIdRecord with bCanOpenByDataId := false, CKey := sampleKey 171 }).szFileName
      = "abababababababababababababababab" :=
  ⟨rfl,
   by rw [(C8_fake_name_priority sampleIdRecord).1 rfl]; decide,
   by rw [(C8_fake_name_priority sampleIdRecord).1 rfl],
   by decide⟩

/-! ### C9 -/

theorem SupplyFakeFileName_assert_of_EKey (fd : CASC_FIND_DATA)
    (h : fd.bCanOpenByEKey = true) : SupplyFakeFileName_assert fd = true := by
  unfold SupplyFakeFileName_assert
  rw [h]
  cases fd.bCanOpenByDataId <;> cases fd.bCanOpenByCKey <;> rfl

/-- C9. Every returned record is openable and named: whenever a call of
`DoStorageSearch` returns `true`, the record has `bCanOpenByEKey` set and a
non-empty `szFileName`; and whatever record `SupplyFakeFileName` was applied
to in order to produce it satisfied the assertion `bCanOpenByEKey != false`
at the end of that function. -/
theorem C9_returned_record_openable_and_named (env : CASC_ENV) (hs : TCascStorage)
    (c : TCascSearch) (fd : CASC_FIND_DATA) (h : (DoStorageSearch env hs c fd).1 = true) :
    (DoStorageSearch env hs c fd).2.2.bCanOpenByEKey = true ∧
    (DoStorageSearch env hs c fd).2.2.szFileName ≠ "" ∧
    ∀ x, SupplyFakeFileName x = (DoStorageSearch env hs c fd).2.2 →
      SupplyFakeFileName_assert x = true := by
  have key : (DoStorageSearch env hs c fd).2.2.bCanOpenByEKey = true ∧
      (DoStorageSearch env hs c fd).2.2.szFileName ≠ "" := by
    rcases DoStorageSearch_outcome env hs c fd with hN | hK | hF
    · obtain ⟨_, pre, r, post, _, _, hr, _⟩ := hN
      obtain ⟨h1, h2, _⟩ := NameRecord_fields hs r _ hr
      exact ⟨h1, h2⟩
    · obtain ⟨_, _, _, j, e, ee, s, _, _, _, _, _, hrec, _⟩ := hK
      rw [hrec]
      refine ⟨rfl, String_ne_empty_of_length _ ?_⟩
      show 0 < (StringFromBinary e.CKey MD5_HASH_SIZE).length
      rw [StringFromBinary_length]
      decide
    · rw [hF.1] at h
      exact absurd h (by simp)
  refine ⟨key.1, key.2, ?_⟩
  intro x hx
  apply SupplyFakeFileName_assert_of_EKey
  rw [← (SupplyFakeFileName_flags x).2.1, hx]
  exact key.1

/-- Witness of C9: the third record of the sample enumeration comes from the
nameless phase; it can be opened by encoded key and is named after its content
key. -/
theorem C9_returned_record_openable_and_named_witness :
    (DoStorageSearch sampleEnv sampleStorage
        { sampleCursor "*" with RootSearch := [], dwState := 2, BitArray := [2] }
        sampleFindData).1 = true ∧
    (DoStorageSearch sampleEnv sampleStorage
        { sampleCursor "*" with RootSearch := [], dwState := 2, BitArray := [2] }
        sampleFindData).2.2.bCanOpenByEKey = true ∧
    (DoStorageSearch sampleEnv sampleStorage
        { sampleCursor "*" with RootSearch := [], dwState := 2, BitArray := [2] }
        sampleFindData).2.2.szFileName = "02020202020202020202020202020202" :=
  ⟨by decide,
   (C9_returned_record_openable_and_named sampleEnv sampleStorage
      { sampleCursor "*" with RootSearch := [], dwState := 2, BitArray := [2] }
      sampleFindData (by decide)).1,
   by decide⟩

/-! ### C10 -/

theorem CascFindFirstFile_dwLastError (env : CASC_ENV) (dwLastError : Nat)
    (hStorage : Option TCascStorage) (szMask : Option String)
    (pFindData : Option CASC_FIND_DATA) (szListFile : Option String) :
    (CascFindFirstFile env dwLastError hStorage szMask pFindData szListFile).dwLastError
      = dwLastError := by
  unfold CascFindFirstFile
  dsimp only
  split
  · split
    · rfl
    · split <;> rfl
  · rfl

theorem CascFindNextFile_dwLastError (env : CASC_ENV) (dwLastError : Nat) (hs : TCascStorage)
    (pSearch : TCascSearch) (fd : CASC_FIND_DATA)
    (h : IsValidSearchHandle (some pSearch) = some pSearch) :
    (CascFindNextFile env dwLastError hs (some pSearch) (some fd)).dwLastError = dwLastError := by
  unfold CascFindNextFile
  rw [h]

/-- C10 (the code departs from the claim).  `CascFindFirstFile` computes the error
code in its local variable `nError` and never stores it: called with an invalid
storage handle while the last-error slot holds `ERROR_SUCCESS`, it returns the
invalid-handle sentinel with `nError = ERROR_INVALID_HANDLE` and leaves the
slot at `ERROR_SUCCESS`.  Likewise `CascFindNextFile` on a valid, exhausted
cursor returns `false` and leaves the slot as it was, not at
`ERROR_NO_MORE_FILES`. -/
theorem C10_last_error_not_set :
    (CascFindFirstFile sampleEnv ERROR_SUCCESS none (some "*") (some sampleFindData) none).hFind
      = none ∧
    (CascFindFirstFile sampleEnv ERROR_SUCCESS none (some "*") (some sampleFindData) none).nError
      = ERROR_INVALID_HANDLE ∧
    (CascFindFirstFile sampleEnv ERROR_SUCCESS none (some "*")
        (some sampleFindData) none).dwLastError = ERROR_SUCCESS ∧
    IsValidSearchHandle (some { sampleCursor "x*" with RootSearch := [], dwState := 2 })
      = some { sampleCursor "x*" with RootSearch := [], dwState := 2 } ∧
    (CascFindNextFile sampleEnv ERROR_SUCCESS sampleStorage
        (some { sampleCursor "x*" with RootSearch := [], dwState := 2 })
        (some sampleFindData)).bResult = false ∧
    (CascFindNextFile sampleEnv ERROR_SUCCESS sampleStorage
        (some { sampleCursor "x*" with RootSearch := [], dwState := 2 })
        (some sampleFindData)).dwLastError = ERROR_SUCCESS := by
  refine ⟨rfl, rfl, rfl, by decide, by decide, by decide⟩

/-! ### C19 -/

theorem DoStorageSearch_BitArray_length (env : CASC_ENV) (hs : TCascStorage) (c : TCascSearch)
    (fd : CASC_FIND_DATA) :
    (DoStorageSearch env hs c fd).2.1.BitArray.length = c.BitArray.length := by
  rcases DoStorageSearch_outcome env hs c fd with hN | hK | hF
  · obtain ⟨_, pre, r, post, _, _, _, _, _, _, _, _, hb⟩ := hN
    rw [hb, FileFoundBefore_length]
  · obtain ⟨_, _, _, j, e, ee, s, _, _, _, _, _, _, _, _, _, hb⟩ := hK
    rw [hb, FileFoundBefore_length]
  · rw [hF.2.1]

theorem AllocateSearchHandle_BitArray (env : CASC_ENV) (hs hs2 : TCascStorage)
    (szListFile szMask : Option String) (c : TCascSearch)
    (h : AllocateSearchHandle env hs szListFile szMask = (some c, hs2)) :
    c.BitArray = List.replicate ((hs.EKeyMap.HashTableSize + 31) / 32) 0 ∧
    hs2.EKeyMap = hs.EKeyMap := by
  unfold AllocateSearchHandle at h
  dsimp only at h
  split at h
  · split at h
    · simp at h
    · split at h
      · simp at h
      · simp only [Prod.mk.injEq, Option.some.injEq] at h
        obtain ⟨h1, h2⟩ := h
        subst h1 h2
        exact ⟨rfl, rfl⟩
  · simp at h

/-- C19. Bit-vector sizing is sufficient: the cursor `AllocateSearchHandle` returns
has a bit array of `(EKeyMap.HashTableSize() + 31) / 32` words; for every slot
index `i < HashTableSize()` the word index `i / 32` that `FileFoundBefore` uses
is below that number of words, in particular for every slot that
`FindEKeyEntry` returns; and no call of `DoStorageSearch` changes the number of
words. -/
theorem C19_bit_array_sizing_sufficient (env : CASC_ENV) (hs hs2 : TCascStorage)
    (szListFile szMask : Option String) (c : TCascSearch)
    (h : AllocateSearchHandle env hs szListFile szMask = (some c, hs2)) :
    c.BitArray.length = (hs.EKeyMap.HashTableSize + 31) / 32 ∧
    (∀ i, i < hs.EKeyMap.HashTableSize → i / 32 < c.BitArray.length) ∧
    (∀ key ee s, FindEKeyEntry hs2 key = some (ee, s) → s / 32 < c.BitArray.length) ∧
    (∀ (env2 : CASC_ENV) (c2 : TCascSearch) (fd : CASC_FIND_DATA),
      (DoStorageSearch env2 hs2 c2 fd).2.1.BitArray.length = c2.BitArray.length) := by
  obtain ⟨hb, he⟩ := AllocateSearchHandle_BitArray env hs hs2 szListFile szMask c h
  have hlen : c.BitArray.length = (hs.EKeyMap.HashTableSize + 31) / 32 := by
    rw [hb, List.length_replicate]
  refine ⟨hlen, ?_, ?_, fun env2 c2 fd => DoStorageSearch_BitArray_length env2 hs2 c2 fd⟩
  · intro i hi
    rw [hlen]
    omega
  · intro key ee s hk
    have := FindEKeyEntry_lt hs2 key ee s hk
    rw [he] at this
    rw [hlen]
    omega

/-- Witness of C19: the sample storage has 3 encoded-key slots; its cursor gets
one word, and slot 2 lies in word 0. -/
theorem C19_bit_array_sizing_sufficient_witness :
    AllocateSearchHandle sampleEnv sampleStorage none (some "*")
      = (some (sampleCursor "*"), { sampleStorage with dwRefCount := 2 }) ∧
    (sampleCursor "*").BitArray.length = 1 ∧
    2 / 32 < (sampleCursor "*").BitArray.length :=
  ⟨rfl,
   (C19_bit_array_sizing_sufficient sampleEnv sampleStorage { sampleStorage with dwRefCount := 2 }
      none (some "*") (sampleCursor "*") rfl).1,
   (C19_bit_array_sizing_sufficient sampleEnv sampleStorage { sampleStorage with dwRefCount := 2 }
      none (some "*") (sampleCursor "*") rfl).2.1 2 (by decide)⟩

/-! ### C20 -/

theorem FileFoundBefore_words (c : TCascSearch) (i w k : Nat)
    (hi : i / 32 < c.BitArray.length) :
    ((FileFoundBefore c i).2.BitArray.getD w 0).testBit k
      = ((c.BitArray.getD w 0).testBit k || decide (w = i / 32 ∧ k = i % 32)) := by
  have hfst := FileFoundBefore_fst c i
  unfold BitIsSet at hfst
  unfold FileFoundBefore at hfst ⊢
  dsimp only at hfst ⊢
  rw [BitMask_eq] at hfst ⊢
  split
  · rename_i h
    rw [if_pos h] at hfst
    dsimp only at hfst ⊢
    by_cases hwk : w = i / 32 ∧ k = i % 32
    · rw [hwk.1, hwk.2, ← hfst]
      simp
    · simp [hwk]
  · rename_i h
    dsimp only
    rw [List.getD_eq_getElem?_getD, List.getD_eq_getElem?_getD, List.getElem?_set]
    by_cases hw : i / 32 = w
    · rw [if_pos hw, if_pos hi]
      simp only [Option.getD_some, Nat.testBit_lor, Nat.testBit_two_pow]
      rw [List.getD_eq_getElem?_getD, hw]
      congr 1
      by_cases hm : i % 32 = k
      · simp [hm, hw]
      · have hm2 : ¬ k = i % 32 := fun e => hm e.symm
        simp [hm, hm2]
    · rw [if_neg hw]
      have hw2 : ¬ w = i / 32 := fun e => hw e.symm
      simp [hw2]

/-- C20. `FileFoundBefore` is a test-and-set on exactly one bit: for every cursor
and every slot index `i` whose word `i / 32` lies in the bit array, it returns
`true` iff bit `i mod 32` of word `i / 32` was set before the call; after the
call that bit is set and every other bit of every word is as before, the array
has the same number of words and nothing else of the cursor has changed; a
repeated call with the same `i` returns `true` and changes nothing. -/
theorem C20_FileFoundBefore_test_and_set (c : TCascSearch) (i : Nat)
    (hi : i / 32 < c.BitArray.length) :
    (FileFoundBefore c i).1 = (c.BitArray.getD (i / 32) 0).testBit (i % 32) ∧
    (∀ w k, ((FileFoundBefore c i).2.BitArray.getD w 0).testBit k
        = ((c.BitArray.getD w 0).testBit k || decide (w = i / 32 ∧ k = i % 32))) ∧
    (FileFoundBefore c i).2.BitArray.length = c.BitArray.length ∧
    (FileFoundBefore c i).2 = { c with BitArray := (FileFoundBefore c i).2.BitArray } ∧
    FileFoundBefore (FileFoundBefore c i).2 i = (true, (FileFoundBefore c i).2) := by
  refine ⟨FileFoundBefore_fst c i, fun w k => FileFoundBefore_words c i w k hi,
    FileFoundBefore_length c i, FileFoundBefore_frame c i, ?_⟩
  have hlen : i / 32 < (FileFoundBefore c i).2.BitArray.length := by
    rw [FileFoundBefore_length]
    exact hi
  have h1 : (FileFoundBefore (FileFoundBefore c i).2 i).1 = true := by
    rw [FileFoundBefore_fst, FileFoundBefore_bits c i i hi]
    simp
  have h2 := FileFoundBefore_true _ _ h1
  exact Prod.ext h1 h2

/-- Witness of C20: slot 37 of a two-word array is bit 5 of word 1; the first call
returns `false` and sets that bit, the second returns `true`. -/
theorem C20_FileFoundBefore_test_and_set_witness :
    37 / 32 < ({ sampleCursor "*" with BitArray := [7, 0] } : TCascSearch).BitArray.length ∧
    FileFoundBefore { sampleCursor "*" with BitArray := [7, 0] } 37
      = (false, { sampleCursor "*" with BitArray := [7, 32] }) ∧
    FileFoundBefore (FileFoundBefore { sampleCursor "*" with BitArray := [7, 0] } 37).2 37
      = (true, (FileFoundBefore { sampleCursor "*" with BitArray := [7, 0] } 37).2) :=
  ⟨by decide, by decide,
   (C20_FileFoundBefore_test_and_set { sampleCursor "*" with BitArray := [7, 0] } 37
      (by decide)).2.2.2.2⟩

/-! ### C17 -/

theorem State2_dwState (hs : TCascStorage) (c : TCascSearch) (fd : CASC_FIND_DATA) :
    (DoStorageSearch_State2 hs c fd).2.1.dwState = c.dwState ∨
    (c.dwState = 2 ∧ (DoStorageSearch_State2 hs c fd).2.1.dwState = 3) := by
  unfold DoStorageSearch_State2
  by_cases hc : c.dwState = 2 ∧ IsUnrestrictedMask c.szMask = true
  · rw [if_pos hc]
    have hf := (CKey_frame hs c fd).1
    rcases hres : DoStorageSearch_CKey hs c fd with ⟨b, c2, fd2⟩
    rw [hres] at hf
    have hf : c2.dwState = c.dwState := hf
    cases b with
    | true => exact Or.inl hf
    | false =>
      right
      refine ⟨hc.1, ?_⟩
      show c2.dwState + 1 = 3
      omega
  · rw [if_neg hc]
    exact Or.inl rfl

/-- C17. Forward-only phase machine: for every cursor in one of the four states
0 to 3 and every call of `DoStorageSearch`, `dwState` after the call is at least
`dwState` before it and is one of 1, 2, 3 (so state 0 is left by the first call
and never entered again); and when the call returns a record that
`DoStorageSearch_RootFile` produced, the result is that of
`DoStorageSearch_RootFile` and `dwState` is 1 after the call. -/
theorem C17_forward_only_phase_machine (env : CASC_ENV) (hs : TCascStorage)
    (c : TCascSearch) (fd : CASC_FIND_DATA) (h : c.dwState ≤ 3) :
    c.dwState ≤ (DoStorageSearch env hs c fd).2.1.dwState ∧
    1 ≤ (DoStorageSearch env hs c fd).2.1.dwState ∧
    (DoStorageSearch env hs c fd).2.1.dwState ≤ 3 ∧
    (c.dwState ≤ 1 →
      (DoStorageSearch_RootFile hs (DoStorageSearch_State0 env c) fd).1 = true →
      DoStorageSearch env hs c fd
        = DoStorageSearch_RootFile hs (DoStorageSearch_State0 env c) fd ∧
      (DoStorageSearch env hs c fd).2.1.dwState = 1) := by
  have h0 := (State0_fields env c).1
  unfold DoStorageSearch DoStorageSearch_State1
  generalize DoStorageSearch_State0 env c = c1 at h0 ⊢
  by_cases h1 : c1.dwState = 1
  · rw [if_pos h1]
    have hc : c.dwState ≤ 1 := by
      split at h0 <;> omega
    have hf := (RootFile_frame hs c1 fd).1
    rcases hres : DoStorageSearch_RootFile hs c1 fd with ⟨b, c2, fd2⟩
    rw [hres] at hf
    have hf : c2.dwState = c1.dwState := hf
    cases b with
    | true =>
      refine ⟨?_, ?_, ?_, fun _ _ => ⟨rfl, ?_⟩⟩
      · show c.dwState ≤ c2.dwState
        omega
      · show 1 ≤ c2.dwState
        omega
      · show c2.dwState ≤ 3
        omega
      · show c2.dwState = 1
        omega
    | false =>
      simp only []
      have key := State2_dwState hs
        { c2 with IndexLevel1 := 0, dwState := c2.dwState + 1 } fd2
      simp only [] at key
      refine ⟨by omega, by omega, by omega, fun _ ht => absurd ht (by simp)⟩
  · rw [if_neg h1]
    have hc : c1.dwState = c.dwState ∧ 2 ≤ c.dwState := by
      split at h0 <;> omega
    have key := State2_dwState hs c1 fd
    refine ⟨by omega, by omega, by omega, fun hle _ => by omega⟩

/-- Witness of C17: the first call on the sample cursor leaves state 0 for state 1
with a record of the root handler. -/
theorem C17_forward_only_phase_machine_witness :
    (sampleCursor "*").dwState ≤ 3 ∧
    (sampleCursor "*").dwState = 0 ∧
    (DoStorageSearch sampleEnv sampleStorage (sampleCursor "*") sampleFindData).2.1.dwState
      = 1 :=
  ⟨by decide, rfl,
   ((C17_forward_only_phase_machine sampleEnv sampleStorage (sampleCursor "*") sampleFindData
      (by decide)).2.2.2 (by decide) (by decide)).2⟩

/-! ### C18 -/

theorem NamelessCallOutcome_unique (hs : TCascStorage) (c : TCascSearch)
    (r1 r2 : Bool × TCascSearch × CASC_FIND_DATA)
    (h1 : NamelessCallOutcome hs c r1) (h2 : NamelessCallOutcome hs c r2) :
    r1.1 = r2.1 ∧ r1.2.1 = r2.2.1 ∧ (r1.1 = true → r1.2.2 = r2.2.2) := by
  rcases h1 with ⟨a1, a2, a3⟩ | ⟨j1, e1, ee1, s1, a1, a2, a3, a4, a5⟩
  · rcases h2 with ⟨b1, b2, b3⟩ | ⟨j2, e2, ee2, s2, b1, b2, b3, b4, b5⟩
    · refine ⟨by rw [a1, b1], by rw [a2, b2], fun ht => ?_⟩
      rw [a1] at ht
      exact absurd ht (by simp)
    · rw [a3 j2 b1 b2] at b4
      exact absurd b4 (by simp)
  · rcases h2 with ⟨b1, b2, b3⟩ | ⟨j2, e2, ee2, s2, b1, b2, b3, b4, b5⟩
    · rw [b3 j1 a1 a2] at a4
      exact absurd a4 (by simp)
    · have hj : j1 = j2 := by
        by_contra hne
        rcases Nat.lt_or_gt_of_ne hne with hlt | hgt
        · rw [b3 j1 a1 hlt] at a4
          exact absurd a4 (by simp)
        · rw [a3 j2 b1 hgt] at b4
          exact absurd b4 (by simp)
      subst hj
      rw [a4] at b4
      simp only [Option.some.injEq, Prod.mk.injEq] at b4
      obtain ⟨he, hee, hs2⟩ := b4
      subst he hee hs2
      rw [a5, b5]
      exact ⟨rfl, rfl, fun _ => rfl⟩

theorem State2_independent (hs : TCascStorage) (c : TCascSearch) (fd1 fd2 : CASC_FIND_DATA) :
    (DoStorageSearch_State2 hs c fd1).1 = (DoStorageSearch_State2 hs c fd2).1 ∧
    (DoStorageSearch_State2 hs c fd1).2.1 = (DoStorageSearch_State2 hs c fd2).2.1 ∧
    ((DoStorageSearch_State2 hs c fd1).1 = true →
      (DoStorageSearch_State2 hs c fd1).2.2 = (DoStorageSearch_State2 hs c fd2).2.2) := by
  unfold DoStorageSearch_State2
  by_cases hc : c.dwState = 2 ∧ IsUnrestrictedMask c.szMask = true
  · rw [if_pos hc, if_pos hc]
    have key := NamelessCallOutcome_unique hs c _ _ (CKey_spec hs c fd1) (CKey_spec hs c fd2)
    rcases hr1 : DoStorageSearch_CKey hs c fd1 with ⟨b1, c1, g1⟩
    rcases hr2 : DoStorageSearch_CKey hs c fd2 with ⟨b2, c2, g2⟩
    rw [hr1, hr2] at key
    obtain ⟨k1, k2, k3⟩ := key
    have k1 : b1 = b2 := k1
    have k2 : c1 = c2 := k2
    subst k1 k2
    cases b1 with
    | true => exact ⟨rfl, rfl, fun _ => k3 rfl⟩
    | false => exact ⟨rfl, rfl, fun ht => absurd ht (by simp)⟩
  · rw [if_neg hc, if_neg hc]
    exact ⟨rfl, rfl, fun ht => absurd ht (by simp)⟩

/-- C18. Returned records do not depend on the caller's previous record contents:
two calls of `DoStorageSearch` on the same cursor and storage that differ only
in the record passed in return the same value and leave the same cursor, and
if they return `true` the two returned records are equal in every field. -/
theorem C18_record_independent_of_previous_contents (env : CASC_ENV) (hs : TCascStorage)
    (c : TCascSearch) (fd1 fd2 : CASC_FIND_DATA) :
    (DoStorageSearch env hs c fd1).1 = (DoStorageSearch env hs c fd2).1 ∧
    (DoStorageSearch env hs c fd1).2.1 = (DoStorageSearch env hs c fd2).2.1 ∧
    ((DoStorageSearch env hs c fd1).1 = true →
      (DoStorageSearch env hs c fd1).2.2 = (DoStorageSearch env hs c fd2).2.2) := by
  unfold DoStorageSearch DoStorageSearch_State1
  generalize DoStorageSearch_State0 env c = c1
  by_cases h1 : c1.dwState = 1
  · rw [if_pos h1, if_pos h1, RootFile_eq hs c1 fd1, RootFile_eq hs c1 fd2]
    exact ⟨rfl, rfl, fun _ => rfl⟩
  · rw [if_neg h1, if_neg h1]
    exact State2_independent hs c1 fd1 fd2

/-- Witness of C18: the first call on the sample cursor, once with a record left
over from earlier use and once with an empty one. -/
theorem C18_record_independent_of_previous_contents_witness :
    (DoStorageSearch sampleEnv sampleStorage (sampleCursor "*") sampleFindData).1 = true ∧
    (DoStorageSearch sampleEnv sampleStorage (sampleCursor "*") sampleFindData).2.2
      = (DoStorageSearch sampleEnv sampleStorage (sampleCursor "*") BlankFindData).2.2 :=
  ⟨by decide,
   (C18_record_independent_of_previous_contents sampleEnv sampleStorage (sampleCursor "*")
      sampleFindData BlankFindData).2.2 (by decide)⟩

/-! ### C11 -/

theorem IsValidSearchHandle_none_iff (hFind : Option TCascSearch) :
    IsValidSearchHandle hFind = none ↔
      hFind = none ∨
      ∃ pSearch, hFind = some pSearch ∧
        (pSearch.szClassName ≠ some "TCascSearch" ∨ pSearch.szMask = none) := by
  unfold IsValidSearchHandle
  cases hFind with
  | none => simp
  | some p =>
    by_cases h : p.szClassName = some "TCascSearch" ∧ p.szMask ≠ none
    · simp [h]
    · simp only [if_neg h, true_iff]
      right
      refine ⟨p, rfl, ?_⟩
      by_cases h1 : p.szClassName = some "TCascSearch"
      · right
        by_contra h2
        exact h ⟨h1, h2⟩
      · exact Or.inl h1

/-- C11, as the code has it.  For every handle that fails the validity check of
`IsValidSearchHandle` (null, class-name tag not `TCascSearch`, or null mask),
`CascFindNextFile` and `CascFindClose` return `false`, set the last error to
`ERROR_INVALID_PARAMETER`, and change neither the handle, the record nor the
storage. -/
theorem C11_invalid_handle_sets_invalid_parameter (env : CASC_ENV) (dwLastError : Nat)
    (hs : TCascStorage) (hFind : Option TCascSearch) (pFindData : Option CASC_FIND_DATA)
    (h : IsValidSearchHandle hFind = none) :
    (hFind = none ∨
      ∃ pSearch, hFind = some pSearch ∧
        (pSearch.szClassName ≠ some "TCascSearch" ∨ pSearch.szMask = none)) ∧
    CascFindNextFile env dwLastError hs hFind pFindData
      = { bResult := false, hFind := hFind, pFindData := pFindData,
          dwLastError := ERROR_INVALID_PARAMETER } ∧
    CascFindClose dwLastError hs hFind = (false, hFind, hs, ERROR_INVALID_PARAMETER) := by
  refine ⟨(IsValidSearchHandle_none_iff hFind).1 h, ?_, ?_⟩
  · unfold CascFindNextFile
    rw [h]
    rfl
  · unfold CascFindClose
    rw [h]
    rfl

/-- Witness of C11 as amended: a handle with a foreign class-name tag. -/
theorem C11_invalid_handle_sets_invalid_parameter_witness :
    IsValidSearchHandle (some sampleForeignHandle) = none ∧
    (CascFindNextFile sampleEnv ERROR_SUCCESS sampleStorage (some sampleForeignHandle)
        (some sampleFindData)).dwLastError = ERROR_INVALID_PARAMETER ∧
    (CascFindClose ERROR_SUCCESS sampleStorage (some sampleForeignHandle)).1 = false :=
  ⟨by decide,
   by rw [(C11_invalid_handle_sets_invalid_parameter sampleEnv ERROR_SUCCESS sampleStorage
      (some sampleForeignHandle) (some sampleFindData) (by decide)).2.1],
   by rw [(C11_invalid_handle_sets_invalid_parameter sampleEnv ERROR_SUCCESS sampleStorage
      (some sampleForeignHandle) (some sampleFindData) (by decide)).2.2]⟩

/-- C11 as stated fails: on a null handle, and on a handle with a foreign class-name
tag, `CascFindNextFile` and `CascFindClose` return `false` and leave the last
error at `ERROR_INVALID_PARAMETER`, which is not `ERROR_INVALID_HANDLE`. -/
theorem C11_last_error_is_not_invalid_handle :
    IsValidSearchHandle none = none ∧
    IsValidSearchHandle (some sampleForeignHandle) = none ∧
    (CascFindNextFile sampleEnv ERROR_SUCCESS sampleStorage none
        (some sampleFindData)).bResult = false ∧
    (CascFindNextFile sampleEnv ERROR_SUCCESS sampleStorage none
        (some sampleFindData)).dwLastError ≠ ERROR_INVALID_HANDLE ∧
    (CascFindNextFile sampleEnv ERROR_SUCCESS sampleStorage (some sampleForeignHandle)
        (some sampleFindData)).dwLastError ≠ ERROR_INVALID_HANDLE ∧
    (CascFindClose ERROR_SUCCESS sampleStorage none).1 = false ∧
    (CascFindClose ERROR_SUCCESS sampleStorage none).2.2.2 ≠ ERROR_INVALID_HANDLE ∧
    (CascFindClose ERROR_SUCCESS sampleStorage (some sampleForeignHandle)).2.2.2
      ≠ ERROR_INVALID_HANDLE := by
  refine ⟨rfl, by decide, rfl, by decide, by decide, rfl, by decide, by decide⟩

/-! ### C12 -/

theorem DoStorageSearch_szMask (env : CASC_ENV) (hs : TCascStorage) (c : TCascSearch)
    (fd : CASC_FIND_DATA) : (DoStorageSearch env hs c fd).2.1.szMask = c.szMask := by
  rcases DoStorageSearch_outcome env hs c fd with hN | hK | hF
  · obtain ⟨_, pre, r, post, _, _, _, _, _, _, _, hm, _⟩ := hN
    exact hm
  · obtain ⟨_, _, _, j, e, ee, s, _, _, _, _, _, _, _, _, hm, _⟩ := hK
    exact hm
  · exact hF.2.2.1

theorem CascFindFirstFile_invalid (env : CASC_ENV) (dwLastError : Nat)
    (hStorage : Option TCascStorage) (szMask : Option String)
    (pFindData : Option CASC_FIND_DATA) (szListFile : Option String)
    (h : IsValidCascStorageHandle hStorage = none ∨ szMask = none ∨ pFindData = none) :
    CascFindFirstFile env dwLastError hStorage szMask pFindData szListFile
      = { hFind := none, hStorage := hStorage, pFindData := pFindData,
          nError := if szMask = none ∨ pFindData = none then ERROR_INVALID_PARAMETER
                    else ERROR_INVALID_HANDLE,
          dwLastError := dwLastError } := by
  unfold CascFindFirstFile
  dsimp only
  by_cases hp : szMask = none ∨ pFindData = none
  · have hp2 : szMask.isNone = true ∨ pFindData.isNone = true := by
      rcases hp with hp | hp
      · exact Or.inl (by rw [hp]; rfl)
      · exact Or.inr (by rw [hp]; rfl)
    simp only [hp, hp2, if_true]
    have : decide (ERROR_INVALID_PARAMETER = ERROR_SUCCESS) = false := by decide
    rw [this]
  · have hv : IsValidCascStorageHandle hStorage = none := by
      rcases h with h | h | h
      · exact h
      · exact absurd (Or.inl h) hp
      · exact absurd (Or.inr h) hp
    have hp2 : ¬ (szMask.isNone = true ∨ pFindData.isNone = true) := by
      intro hc
      apply hp
      rcases hc with hc | hc
      · exact Or.inl (Option.isNone_iff_eq_none.1 hc)
      · exact Or.inr (Option.isNone_iff_eq_none.1 hc)
    simp only [hp, hp2, if_false, hv, Option.isNone_none, if_true]
    have : decide (ERROR_INVALID_HANDLE = ERROR_SUCCESS) = false := by decide
    rw [this]

theorem CascFindFirstFile_success (env : CASC_ENV) (dwLastError : Nat)
    (hStorage : Option TCascStorage) (szMask : Option String)
    (pFindData : Option CASC_FIND_DATA) (szListFile : Option String) (c : TCascSearch)
    (h : (CascFindFirstFile env dwLastError hStorage szMask pFindData szListFile).hFind
      = some c) :
    ∃ hs m, IsValidCascStorageHandle hStorage = some hs ∧ szMask = some m ∧
      (CascFindFirstFile env dwLastError hStorage szMask pFindData szListFile).hStorage
        = some { hs with dwRefCount := hs.dwRefCount + 1 } ∧
      c.szMask = some m := by
  cases hv : IsValidCascStorageHandle hStorage with
  | none =>
    rw [CascFindFirstFile_invalid env dwLastError hStorage szMask pFindData szListFile
      (Or.inl hv)] at h
    exact absurd h (by simp)
  | some hs =>
    cases szMask with
    | none =>
      rw [CascFindFirstFile_invalid env dwLastError hStorage none pFindData szListFile
        (Or.inr (Or.inl rfl))] at h
      exact absurd h (by simp)
    | some m =>
      cases pFindData with
      | none =>
        rw [CascFindFirstFile_invalid env dwLastError hStorage (some m) none szListFile
          (Or.inr (Or.inr rfl))] at h
        exact absurd h (by simp)
      | some fd =>
        refine ⟨hs, m, rfl, rfl, ?_⟩
        unfold CascFindFirstFile at h ⊢
        dsimp only at h ⊢
        rw [hv] at h ⊢
        simp only [Option.isNone_some, Bool.false_eq_true, if_false, or_self] at h ⊢
        simp only [decide_True] at h ⊢
        rcases ha : AllocateSearchHandle env hs szListFile (some m) with ⟨oc, hs2⟩
        rw [ha] at h
        cases oc with
        | none => exact absurd h (by simp)
        | some c0 =>
          simp only [] at h ⊢
          obtain ⟨_, hm0, _, _, _, hhs2⟩ :=
            AllocateSearchHandle_fresh env hs hs2 szListFile (some m) c0 ha
          have hmask := DoStorageSearch_szMask env hs2 c0 fd
          rcases hd2 : DoStorageSearch env hs2 c0 fd with ⟨b, c1, fd1⟩
          rw [hd2] at h hmask
          have hmask : c1.szMask = c0.szMask := hmask
          cases b with
          | false => exact absurd h (by simp)
          | true =>
            simp only [Option.some.injEq] at h ⊢
            subst h
            exact ⟨hhs2, by rw [hmask, hm0]; rfl⟩

/-- C12. `CascFindFirstFile` validates its arguments atomically: whenever the
storage handle is invalid, or the mask is absent, or the output record is
absent, it returns the invalid-handle sentinel and leaves storage (reference
count included) and record exactly as they were, whatever the allocator or the
root handler would have done (no cursor is allocated, `Search` is never
called); and whenever it returns a cursor, the storage handle was valid, the
mask present, the storage reference count has gone up by exactly one and the
cursor holds the given mask. -/
theorem C12_find_first_validation_atomic (env : CASC_ENV) (dwLastError : Nat)
    (hStorage : Option TCascStorage) (szMask : Option String)
    (pFindData : Option CASC_FIND_DATA) (szListFile : Option String) :
    ((IsValidCascStorageHandle hStorage = none ∨ szMask = none ∨ pFindData = none) →
      CascFindFirstFile env dwLastError hStorage szMask pFindData szListFile
        = { hFind := none, hStorage := hStorage, pFindData := pFindData,
            nError := if szMask = none ∨ pFindData = none then ERROR_INVALID_PARAMETER
                      else ERROR_INVALID_HANDLE,
            dwLastError := dwLastError }) ∧
    (∀ c, (CascFindFirstFile env dwLastError hStorage szMask pFindData szListFile).hFind
        = some c →
      ∃ hs m, IsValidCascStorageHandle hStorage = some hs ∧ szMask = some m ∧
        (CascFindFirstFile env dwLastError hStorage szMask pFindData szListFile).hStorage
          = some { hs with dwRefCount := hs.dwRefCount + 1 } ∧
        c.szMask = some m) :=
  ⟨CascFindFirstFile_invalid env dwLastError hStorage szMask pFindData szListFile,
   CascFindFirstFile_success env dwLastError hStorage szMask pFindData szListFile⟩

/-- Witness of C12: without mask the call fails and the storage keeps its
reference count 1; with the mask `*` on the sample storage it succeeds, the
reference count is 2 and the cursor holds `*`. -/
theorem C12_find_first_validation_atomic_witness :
    ((CascFindFirstFile sampleEnv ERROR_SUCCESS (some sampleStorage) none
        (some sampleFindData) none).hFind = none ∧
     (CascFindFirstFile sampleEnv ERROR_SUCCESS (some sampleStorage) none
        (some sampleFindData) none).hStorage.map TCascStorage.dwRefCount = some 1) ∧
    ((CascFindFirstFile sampleEnv ERROR_SUCCESS (some sampleStorage) (some "*")
        (some sampleFindData) none).hFind.map TCascSearch.szMask = some (some "*") ∧
     (CascFindFirstFile sampleEnv ERROR_SUCCESS (some sampleStorage) (some "*")
        (some sampleFindData) none).hStorage.map TCascStorage.dwRefCount = some 2) :=
  ⟨by rw [(C12_find_first_validation_atomic sampleEnv ERROR_SUCCESS (some sampleStorage) none
        (some sampleFindData) none).1 (Or.inr (Or.inl rfl))]; exact ⟨rfl, rfl⟩,
   by decide, by decide⟩

/-! ### C13 -/

theorem CKey_loop_no_entries (hs : TCascStorage) (h : ∀ i, hs.CKeyMap.ItemAt i = none)
    (fuel : Nat) :
    ∀ (c : TCascSearch) (fd : CASC_FIND_DATA),
      (DoStorageSearch_CKey_loop hs fuel c fd).1 = false ∧
      (DoStorageSearch_CKey_loop hs fuel c fd).2.2 = fd := by
  induction fuel with
  | zero => intro c fd; exact ⟨rfl, rfl⟩
  | succ n ih =>
    intro c fd
    unfold DoStorageSearch_CKey_loop
    split
    · rw [h]
      exact ih _ fd
    · exact ⟨rfl, rfl⟩

theorem State2_no_entries (hs : TCascStorage) (h : ∀ i, hs.CKeyMap.ItemAt i = none)
    (c : TCascSearch) (fd : CASC_FIND_DATA) :
    (DoStorageSearch_State2 hs c fd).1 = false ∧ (DoStorageSearch_State2 hs c fd).2.2 = fd := by
  unfold DoStorageSearch_State2
  split
  · have key := CKey_loop_no_entries hs h
      (hs.CKeyMap.HashTableSize - c.IndexLevel1) c fd
    unfold DoStorageSearch_CKey
    rcases hres : DoStorageSearch_CKey_loop hs
      (hs.CKeyMap.HashTableSize - c.IndexLevel1) c fd with ⟨b, c2, fd2⟩
    rw [hres] at key
    obtain ⟨k1, k2⟩ := key
    have k1 : b = false := k1
    have k2 : fd2 = fd := k2
    subst k1 k2
    exact ⟨rfl, rfl⟩
  · exact ⟨rfl, rfl⟩

/-- On a cursor that has no root result pending, in a storage whose content-key
index has no entry, the first call of `DoStorageSearch` returns `false` and
leaves the record as `ResetFindData` makes it. -/
theorem DoStorageSearch_empty (env : CASC_ENV) (hs : TCascStorage) (c : TCascSearch)
    (fd : CASC_FIND_DATA) (hd : c.dwState ≤ 1) (hr : c.RootSearch = [])
    (he : ∀ i, hs.CKeyMap.ItemAt i = none) :
    (DoStorageSearch env hs c fd).1 = false ∧
    (DoStorageSearch env hs c fd).2.2 = ResetFindData fd := by
  obtain ⟨s0d, s0r, _⟩ := State0_fields env c
  unfold DoStorageSearch DoStorageSearch_State1
  generalize DoStorageSearch_State0 env c = c1 at s0d s0r ⊢
  have h1 : c1.dwState = 1 := by
    split at s0d <;> omega
  rw [if_pos h1, RootFile_eq, s0r, hr]
  unfold NamePhaseCall
  simp only []
  exact State2_no_entries hs he _ _

/-- C13 (the code departs from the claim in one point).  Empty-storage scenario:
on a valid storage without content-key entries whose root handler yields
nothing, with the mask `*` and no name list, `CascFindFirstFile` returns the
invalid-handle sentinel on the first call and the record is as `ResetFindData`
leaves it: both keys all-zero, the name empty, none of the four access flags
set.  The error `ERROR_NO_MORE_FILES` is only computed in the local variable
`nError`: the last-error slot still holds what it held before the call. -/
theorem C13_empty_storage_find_first :
    IsValidCascStorageHandle (some emptyStorage) = some emptyStorage ∧
    (CascFindFirstFile sampleEnv ERROR_SUCCESS (some emptyStorage) (some "*")
        (some sampleFindData) none).hFind = none ∧
    (CascFindFirstFile sampleEnv ERROR_SUCCESS (some emptyStorage) (some "*")
        (some sampleFindData) none).nError = ERROR_NO_MORE_FILES ∧
    (CascFindFirstFile sampleEnv ERROR_SUCCESS (some emptyStorage) (some "*")
        (some sampleFindData) none).dwLastError = ERROR_SUCCESS ∧
    (CascFindFirstFile sampleEnv ERROR_SUCCESS (some emptyStorage) (some "*")
        (some sampleFindData) none).dwLastError ≠ ERROR_NO_MORE_FILES ∧
    (CascFindFirstFile sampleEnv ERROR_SUCCESS (some emptyStorage) (some "*")
        (some sampleFindData) none).pFindData = some (ResetFindData sampleFindData) ∧
    (ResetFindData sampleFindData).CKey = List.replicate 16 0 ∧
    (ResetFindData sampleFindData).EKey = List.replicate 16 0 ∧
    (ResetFindData sampleFindData).szFileName = "" ∧
    (ResetFindData sampleFindData).bCanOpenByName = false ∧
    (ResetFindData sampleFindData).bCanOpenByDataId = false ∧
    (ResetFindData sampleFindData).bCanOpenByCKey = false ∧
    (ResetFindData sampleFindData).bCanOpenByEKey = false ∧
    (CascFindFirstFile sampleEnv ERROR_SUCCESS (some emptyStorage) (some "*")
        (some sampleFindData) none).hStorage.map TCascStorage.dwRefCount = some 1 := by
  refine ⟨rfl, by decide, by decide, by decide, by decide, by decide, rfl, rfl, rfl, rfl,
    rfl, rfl, rfl, by decide⟩

/-! ### C15 -/

theorem EnumRecords_single_entry (env : CASC_ENV) (hs : TCascStorage) (c : TCascSearch)
    (fd : CASC_FIND_DATA) (e : CASC_CKEY_ENTRY) (ee : CASC_EKEY_ENTRY) (s n : Nat)
    (htab : hs.CKeyMap.HashTable = [some e]) (hE : FindEKeyEntry hs e.EKey = some (ee, s))
    (hroot : c.RootSearch = []) (hstate : c.dwState ≤ 1)
    (hmask : IsUnrestrictedMask c.szMask = true)
    (hzero : ∀ j, BitIsSet c.BitArray j = false) (hcov : BitArrayCovers hs c) :
    EnumRecords env hs (n + 2) c fd = [(2, NamelessRecord e ee)] := by
  have hsize : hs.CKeyMap.HashTableSize = 1 := by
    unfold CASC_MAP.HashTableSize
    rw [htab]
    rfl
  have hitem : hs.CKeyMap.ItemAt 0 = some e := by
    unfold CASC_MAP.ItemAt
    rw [htab]
    rfl
  have hcand : ∀ B, BitIsSet B s = false →
      NamelessCandidate hs B 0 = some (e, ee, s) := by
    intro B hB
    unfold NamelessCandidate
    rw [hitem]
    simp only [hE, hB]
    rfl
  have hin := slot_in_range hs c _ ee s hcov hE
  -- the first call
  have hout := DoStorageSearch_outcome env hs c fd
  rcases hres : DoStorageSearch env hs c fd with ⟨b, c2, fd2⟩
  rw [hres] at hout
  have first : b = true ∧ fd2 = NamelessRecord e ee ∧ c2.dwState = 2 ∧ c2.IndexLevel1 = 0 ∧
      c2.BitArray = (FileFoundBefore c s).2.BitArray := by
    rcases hout with hN | hK | hF
    · obtain ⟨_, pre, r, post, hl, _⟩ := hN
      rw [hroot] at hl
      exact absurd hl (by simp)
    · obtain ⟨_, _, _, j, e2, ee2, s2, _, hj, _, hc, hb, hrec, hd, hi, _, hba⟩ := hK
      have hj0 : j = 0 := by omega
      subst hj0
      rw [hcand c.BitArray (hzero s)] at hc
      simp only [Option.some.injEq, Prod.mk.injEq] at hc
      obtain ⟨h1, h2, h3⟩ := hc
      subst h1 h2 h3
      exact ⟨hb, hrec, hd, hi, hba⟩
    · have := hF.2.2.2.2 hmask (by omega) 0 (by rw [NamelessStart_of_le_one c hstate])
        (by omega)
      rw [hcand c.BitArray (hzero s)] at this
      exact absurd this (by simp)
  obtain ⟨hb, hfd, hd2, hi2, hba⟩ := first
  subst hb hfd
  -- the second call
  have hout2 := DoStorageSearch_outcome env hs c2 (NamelessRecord e ee)
  rcases hres2 : DoStorageSearch env hs c2 (NamelessRecord e ee) with ⟨b3, c3, fd3⟩
  rw [hres2] at hout2
  have second : b3 = false := by
    rcases hout2 with hN | hK | hF
    · have := hN.1
      omega
    · obtain ⟨_, _, _, j, e2, ee2, s2, _, hj, _, hc, _⟩ := hK
      have hj0 : j = 0 := by omega
      subst hj0
      obtain ⟨hi0, hE0, hbit⟩ := NamelessCandidate_some hs _ 0 e2 ee2 s2 hc
      rw [hitem] at hi0
      simp only [Option.some.injEq] at hi0
      subst hi0
      rw [hE] at hE0
      simp only [Option.some.injEq, Prod.mk.injEq] at hE0
      obtain ⟨_, h3⟩ := hE0
      subst h3
      rw [hba, FileFoundBefore_bits c s s hin] at hbit
      simp at hbit
    · exact hF.1
  subst second
  unfold EnumRecords
  rw [hres]
  simp only []
  unfold EnumRecords
  rw [hres2]
  simp only [hd2]

/-- C15. Shape of a nameless-phase record: a record returned by
`DoStorageSearch_CKey` is that of the content entry at the ordinal `IndexLevel1`
the call stops at: `CKey` and `EKey` are those of the entry, `bCanOpenByCKey`
and `bCanOpenByEKey` are set, `bCanOpenByName` and `bCanOpenByDataId` are clear,
`dwFileDataId` is `CASC_INVALID_ID`, `dwFileSize` is the content size of the
entry, `TagMask` is the tag bitmask of the encoded entry the encoded key resolves
to, the name is the hex rendering of the content key and `NameType` is
`CascNameCKey`.  In particular a storage with a single content entry (however
many encoded keys it counts) and no name source yields exactly that one
record. -/
theorem C15_nameless_record_shape (hs : TCascStorage) :
    (∀ (c : TCascSearch) (fd : CASC_FIND_DATA), (DoStorageSearch_CKey hs c fd).1 = true →
      ∃ e ee s,
        c.IndexLevel1 ≤ (DoStorageSearch_CKey hs c fd).2.1.IndexLevel1 ∧
        hs.CKeyMap.ItemAt (DoStorageSearch_CKey hs c fd).2.1.IndexLevel1 = some e ∧
        FindEKeyEntry hs e.EKey = some (ee, s) ∧
        (DoStorageSearch_CKey hs c fd).2.2.CKey = e.CKey ∧
        (DoStorageSearch_CKey hs c fd).2.2.EKey = e.EKey ∧
        (DoStorageSearch_CKey hs c fd).2.2.bCanOpenByCKey = true ∧
        (DoStorageSearch_CKey hs c fd).2.2.bCanOpenByEKey = true ∧
        (DoStorageSearch_CKey hs c fd).2.2.bCanOpenByName = false ∧
        (DoStorageSearch_CKey hs c fd).2.2.bCanOpenByDataId = false ∧
        (DoStorageSearch_CKey hs c fd).2.2.dwFileDataId = CASC_INVALID_ID ∧
        (DoStorageSearch_CKey hs c fd).2.2.dwFileSize = ConvertBytesToInteger_4 e.ContentSize ∧
        (DoStorageSearch_CKey hs c fd).2.2.TagMask = ee.TagBitMask ∧
        (DoStorageSearch_CKey hs c fd).2.2.szFileName = StringFromBinary e.CKey MD5_HASH_SIZE ∧
        (DoStorageSearch_CKey hs c fd).2.2.NameType = CASC_NAME_TYPE.CascNameCKey) ∧
    (∀ (env : CASC_ENV) (c : TCascSearch) (fd : CASC_FIND_DATA) (e : CASC_CKEY_ENTRY)
      (ee : CASC_EKEY_ENTRY) (s n : Nat),
      hs.CKeyMap.HashTable = [some e] → FindEKeyEntry hs e.EKey = some (ee, s) →
      c.RootSearch = [] → c.dwState ≤ 1 → IsUnrestrictedMask c.szMask = true →
      (∀ j, BitIsSet c.BitArray j = false) → BitArrayCovers hs c →
      EnumRecords env hs (n + 2) c fd = [(2, NamelessRecord e ee)]) := by
  refine ⟨?_, fun env c fd e ee s n h1 h2 h3 h4 h5 h6 h7 =>
    EnumRecords_single_entry env hs c fd e ee s n h1 h2 h3 h4 h5 h6 h7⟩
  intro c fd ht
  rcases CKey_spec hs c fd with ⟨hf, _⟩ | ⟨j, e, ee, s, h1, h2, _, h4, h5⟩
  · rw [hf] at ht
    exact absurd ht (by simp)
  · obtain ⟨hitem, hE, _⟩ := NamelessCandidate_some hs _ j e ee s h4
    have hil : (DoStorageSearch_CKey hs c fd).2.1.IndexLevel1 = j := by
      rw [h5]
      simp only []
      rw [FileFoundBefore_frame]
    refine ⟨e, ee, s, ?_, ?_, hE, ?_⟩
    · rw [hil]; exact h1
    · rw [hil]; exact hitem
    · rw [h5]
      exact ⟨rfl, rfl, rfl, rfl, rfl, rfl, rfl, rfl, rfl, rfl, rfl⟩

/-- Witness of C15: the storage with one content entry of two encoded keys and no
name source.  The enumeration returns one record, shaped after the entry. -/
theorem C15_nameless_record_shape_witness :
    (DoStorageSearch_CKey twoEKeyStorage { orphanCursor with BitArray := [0] }
        sampleFindData).1 = true ∧
    (DoStorageSearch_CKey twoEKeyStorage { orphanCursor with BitArray := [0] }
        sampleFindData).2.2
      = { szFileName := "05050505050505050505050505050505"
          szPlainName := 0
          CKey := sampleKey 5
          EKey := sampleKey 21
          TagMask := 4
          dwFileDataId := CASC_INVALID_ID
          dwFileSize := 9
          dwLocaleFlags := CASC_INVALID_ID
          dwContentFlags := CASC_INVALID_ID
          NameType := CASC_NAME_TYPE.CascNameCKey
          bCanOpenByName := false
          bCanOpenByDataId := false
          bCanOpenByCKey := true
          bCanOpenByEKey := true } ∧
    (EnumRecords sampleEnv twoEKeyStorage 5 orphanCursor sampleFindData).length = 1 ∧
    (∃ e ee s,
      twoEKeyStorage.CKeyMap.ItemAt (DoStorageSearch_CKey twoEKeyStorage
        { orphanCursor with BitArray := [0] } sampleFindData).2.1.IndexLevel1 = some e ∧
      FindEKeyEntry twoEKeyStorage e.EKey = some (ee, s) ∧
      (DoStorageSearch_CKey twoEKeyStorage { orphanCursor with BitArray := [0] }
        sampleFindData).2.2.CKey = e.CKey) :=
  ⟨by decide, by decide, by decide,
   (fun ⟨e, ee, s, _, h2, h3, h4, _⟩ => ⟨e, ee, s, h2, h3, h4⟩)
     ((C15_nameless_record_shape twoEKeyStorage).1 { orphanCursor with BitArray := [0] }
        sampleFindData (by decide))⟩

/-! ### C16 -/

theorem NameMap_Find_append_some (p : List Char) (i : Nat) (l l2 : List (List Char × Nat))
    (h : NameMap_Find p l = some i) : NameMap_Find p (l ++ l2) = some i := by
  induction l with
  | nil => simp [NameMap_Find] at h
  | cons a rest ih =>
    obtain ⟨q, j⟩ := a
    simp only [List.cons_append, NameMap_Find] at h ⊢
    split
    · rename_i hq
      rw [if_pos hq] at h
      exact h
    · rename_i hq
      rw [if_neg hq] at h
      exact ih h

theorem NameMap_Find_append_none (p : List Char) (i : Nat) (l : List (List Char × Nat))
    (h : NameMap_Find p l = none) : NameMap_Find p (l ++ [(p, i)]) = some i := by
  induction l with
  | nil => simp [NameMap_Find]
  | cons a rest ih =>
    obtain ⟨q, j⟩ := a
    simp only [List.cons_append, NameMap_Find] at h ⊢
    split
    · rename_i hq
      rw [if_pos hq] at h
      exact absurd h (by simp)
    · rename_i hq
      rw [if_neg hq] at h
      exact ih h

theorem UpdateNode_fields (t : CASC_FILE_TREE) (i : Nat)
    (f : CASC_FILE_NODE → CASC_FILE_NODE) :
    (t.UpdateNode i f).NameMap = t.NameMap ∧
    (t.UpdateNode i f).FileTable.length = t.FileTable.length := by
  unfold CASC_FILE_TREE.UpdateNode
  split
  · exact ⟨rfl, by simp⟩
  · exact ⟨rfl, rfl⟩

theorem GetOrInsert_found (t : CASC_FILE_TREE) (p : List Char) (key : List Nat) (parent i : Nat)
    (f : CASC_FILE_NODE → CASC_FILE_NODE) (h : NameMap_Find p t.NameMap = some i) :
    (t.GetOrInsert p key parent f).1 = i ∧
    (t.GetOrInsert p key parent f).2.NameMap = t.NameMap ∧
    (t.GetOrInsert p key parent f).2.FileTable.length = t.FileTable.length := by
  unfold CASC_FILE_TREE.GetOrInsert
  rw [h]
  exact ⟨rfl, (UpdateNode_fields t i f).1, (UpdateNode_fields t i f).2⟩

theorem GetOrInsert_lookup (t : CASC_FILE_TREE) (p : List Char) (key : List Nat) (parent : Nat)
    (f : CASC_FILE_NODE → CASC_FILE_NODE) :
    NameMap_Find p (t.GetOrInsert p key parent f).2.NameMap
      = some (t.GetOrInsert p key parent f).1 := by
  cases h : NameMap_Find p t.NameMap with
  | some i =>
    obtain ⟨h1, h2, _⟩ := GetOrInsert_found t p key parent i f h
    rw [h1, h2]
    exact h
  | none =>
    unfold CASC_FILE_TREE.GetOrInsert
    rw [h]
    exact NameMap_Find_append_none p _ _ h

theorem GetOrInsert_mono (t : CASC_FILE_TREE) (p q : List Char) (key : List Nat)
    (parent j : Nat) (f : CASC_FILE_NODE → CASC_FILE_NODE)
    (h : NameMap_Find q t.NameMap = some j) :
    NameMap_Find q (t.GetOrInsert p key parent f).2.NameMap = some j := by
  unfold CASC_FILE_TREE.GetOrInsert
  split
  · rw [(UpdateNode_fields t _ f).1]
    exact h
  · exact NameMap_Find_append_some q j _ _ h

theorem InsertFolders_mono (ps : List (List Char)) :
    ∀ (t : CASC_FILE_TREE) (parent : Nat) (q : List Char) (j : Nat),
      NameMap_Find q t.NameMap = some j →
      NameMap_Find q (t.InsertFolders ps parent).2.NameMap = some j := by
  induction ps with
  | nil => intro t parent q j h; exact h
  | cons p rest ih =>
    intro t parent q j h
    unfold CASC_FILE_TREE.InsertFolders
    exact ih _ _ q j (GetOrInsert_mono t p q [] parent j _ h)

theorem InsertFolders_registered (ps : List (List Char)) :
    ∀ (t : CASC_FILE_TREE) (parent : Nat), ∀ p ∈ ps,
      ∃ j, NameMap_Find p (t.InsertFolders ps parent).2.NameMap = some j := by
  induction ps with
  | nil => intro t parent p hp; exact absurd hp (List.not_mem_nil p)
  | cons a rest ih =>
    intro t parent p hp
    unfold CASC_FILE_TREE.InsertFolders
    rcases List.mem_cons.1 hp with hp | hp
    · subst hp
      exact ⟨_, InsertFolders_mono rest _ _ p _ (GetOrInsert_lookup t p [] parent _)⟩
    · exact ih _ _ p hp

theorem InsertFolders_found (ps : List (List Char)) :
    ∀ (t : CASC_FILE_TREE) (parent : Nat),
      (∀ p ∈ ps, ∃ j, NameMap_Find p t.NameMap = some j) →
      (t.InsertFolders ps parent).2.NameMap = t.NameMap ∧
      (t.InsertFolders ps parent).2.FileTable.length = t.FileTable.length := by
  induction ps with
  | nil => intro t parent _; exact ⟨rfl, rfl⟩
  | cons a rest ih =>
    intro t parent h
    unfold CASC_FILE_TREE.InsertFolders
    obtain ⟨j, hj⟩ := h a (List.mem_cons_self _ _)
    obtain ⟨_, h2, h3⟩ := GetOrInsert_found t a [] parent j
      (fun node => { node with Flags := node.Flags ||| CFN_FLAG_FOLDER }) hj
    have hrest : ∀ p ∈ rest, ∃ j, NameMap_Find p
        (t.GetOrInsert a [] parent
          (fun node => { node with Flags := node.Flags ||| CFN_FLAG_FOLDER })).2.NameMap
          = some j := by
      intro p hp
      rw [h2]
      exact h p (List.mem_cons_of_mem _ hp)
    obtain ⟨k1, k2⟩ := ih _ (t.GetOrInsert a [] parent _).1 hrest
    exact ⟨by rw [k1, h2], by rw [k2, h3]⟩

theorem Insert_lookup (t : CASC_FILE_TREE) (key : List Nat) (path : String) :
    NameMap_Find (NormalizeFileName path) (t.Insert key path).2.NameMap
      = some (t.Insert key path).1 := by
  unfold CASC_FILE_TREE.Insert
  exact GetOrInsert_lookup _ _ _ _ _

theorem Insert_registered (t : CASC_FILE_TREE) (key : List Nat) (path : String) :
    ∀ p ∈ FolderPaths (NormalizeFileName path),
      ∃ j, NameMap_Find p (t.Insert key path).2.NameMap = some j := by
  intro p hp
  obtain ⟨j, hj⟩ := InsertFolders_registered _ t 0 p hp
  unfold CASC_FILE_TREE.Insert
  exact ⟨j, GetOrInsert_mono _ _ p _ _ j _ hj⟩

/-- C14. File-tree round trip, on the file tree as the spec describes it: for
every tree and every path, `Insert(key, path)` followed by `Find` on a path
with the identical normalized form returns the node `Insert` returned; and
inserting that path a second time returns the same, pre-existing node and
does not increase `GetCount()`. -/
theorem C14_file_tree_round_trip (t : CASC_FILE_TREE) (key key2 : List Nat)
    (path path2 : String) (h : NormalizeFileName path2 = NormalizeFileName path) :
    ((t.Insert key path).2.Find path2 = some (t.Insert key path).1) ∧
    (((t.Insert key path).2.Insert key2 path2).1 = (t.Insert key path).1) ∧
    (((t.Insert key path).2.Insert key2 path2).2.GetCount = (t.Insert key path).2.GetCount) := by
  have hl := Insert_lookup t key path
  have hr := Insert_registered t key path
  generalize t.Insert key path = r at hl hr ⊢
  refine ⟨?_, ?_, ?_⟩
  · unfold CASC_FILE_TREE.Find
    rw [h]
    exact hl
  · unfold CASC_FILE_TREE.Insert
    rw [h]
    obtain ⟨k1, _⟩ := InsertFolders_found (FolderPaths (NormalizeFileName path)) r.2 0 hr
    exact (GetOrInsert_found _ _ _ _ _ _ (by rw [k1]; exact hl)).1
  · unfold CASC_FILE_TREE.Insert CASC_FILE_TREE.GetCount
    rw [h]
    obtain ⟨k1, k2⟩ := InsertFolders_found (FolderPaths (NormalizeFileName path)) r.2 0 hr
    rw [(GetOrInsert_found _ _ _ _ _ _ (by rw [k1]; exact hl)).2.2, k2]

/-- Witness of C14: `a\B.txt` inserted into a tree that holds the root item only
makes the nodes 1 (folder `A`) and 2 (the file); `A/b.TXT` finds node 2, and
inserting it again returns node 2 and leaves the count at 3. -/
theorem C14_file_tree_round_trip_witness :
    NormalizeFileName "A/b.TXT" = NormalizeFileName "a\\B.txt" ∧
    (sampleTree.Insert (sampleKey 1) "a\\B.txt").1 = 2 ∧
    (sampleTree.Insert (sampleKey 1) "a\\B.txt").2.GetCount = 3 ∧
    (sampleTree.Insert (sampleKey 1) "a\\B.txt").2.Find "A/b.TXT" = some 2 ∧
    ((sampleTree.Insert (sampleKey 1) "a\\B.txt").2.Insert (sampleKey 2) "A/b.TXT").2.GetCount
      = (sampleTree.Insert (sampleKey 1) "a\\B.txt").2.GetCount :=
  ⟨by decide, by decide, by decide, by decide,
   (C14_file_tree_round_trip sampleTree (sampleKey 1) (sampleKey 2) "a\\B.txt" "A/b.TXT"
      (by decide)).2.2⟩

end CascLib
